import Mathlib

/-!
# List-mode sequencing engine of the PSU firmware (`eez_psu_sketch/list.cpp`)

A shallow embedding of `namespace eez::psu::list` and proofs about it.

Conventions of the embedding
* `uint16_t`, `uint32_t` values are natural numbers, `int16_t`, `int32_t`
  values are integers; wrap-around is written out where the source can
  overflow (`wrapInt16`, `wrapInt32`, `% 2 ^ 32`).
* `float` is an arbitrary type `F`; the comparison, product and rounding used
  by the source are fields of `Platform F D`.
* A `float[MAX_LIST_LENGTH]` array is a function `Nat → F`; only indices below
  the capacity are meaningful.
* The collaborators (`channel_dispatcher`, `trigger`, `generateError`,
  `sd_card`, `SD`) are interfaces; calls with an effect are recorded in a log.
-/

namespace eez.psu.list

/-! ## Length compatibility -/

/-- Two-argument overload of `areListLengthsEquivalent` (list.cpp:129). -/
def areListLengthsEquivalent (size1 size2 : Nat) : Bool :=
  size1 != 0 && size2 != 0 && (size1 == 1 || size2 == 1 || size1 == size2)

/-- Three-argument overload of `areListLengthsEquivalent` (list.cpp:133). -/
def areListLengthsEquivalent3 (size1 size2 size3 : Nat) : Bool :=
  areListLengthsEquivalent size1 size2 &&
  areListLengthsEquivalent size1 size3 &&
  areListLengthsEquivalent size2 size3


/-! ## Machine integers -/

/-- Value of an integer after conversion to `int16_t` (two's complement wrap). -/
def wrapInt16 (x : Int) : Int := (x + 32768) % 65536 - 32768

/-- Value of an integer after conversion to `int32_t` (two's complement wrap). -/
def wrapInt32 (x : Int) : Int := (x + 2147483648) % 4294967296 - 2147483648

/-- Subtraction of two `uint32_t` values. -/
def subUInt32 (a b : Nat) : Nat := (a % 4294967296 + (4294967296 - b % 4294967296)) % 4294967296

/-- Addition of two `uint32_t` values. -/
def addUInt32 (a b : Nat) : Nat := (a + b) % 4294967296

/-! ## Collaborators -/

/-- The part of `Channel` this file uses: its 1-based `index`. -/
structure Channel where
  index : Nat
deriving DecidableEq, Repr

/-- Modelled from the spec: `Channel::get(i)` (channel.cpp is not part of the
sources) returns the `i`-th channel in channel order; channels are addressed by
a 1-based index, so its `index` is `i + 1`. -/
def Channel.get (i : Nat) : Channel := ⟨i + 1⟩

/-- SCPI error codes raised by this file. -/
inductive ScpiError
  | SCPI_ERROR_EXECUTION_ERROR
  | SCPI_ERROR_OPTION_NOT_INSTALLED
  | SCPI_ERROR_VOLTAGE_LIMIT_EXCEEDED
  | SCPI_ERROR_CURRENT_LIMIT_EXCEEDED
  | SCPI_ERROR_POWER_LIMIT_EXCEEDED
deriving DecidableEq, Repr

/-- Calls into collaborators that have an effect, in the order they are made. -/
inductive Event (F : Type)
  /-- The call `channel_dispatcher::setVoltage(channel, voltage)`. -/
  | setVoltage (channel : Channel) (voltage : F)
  /-- The call `channel_dispatcher::setCurrent(channel, current)`. -/
  | setCurrent (channel : Channel) (current : F)
  /-- The call `generateError(code)`. -/
  | generateError (code : ScpiError)
  /-- The call `trigger::setTriggerFinished(channel)`. -/
  | setTriggerFinished (channel : Channel)
deriving DecidableEq, Repr

/-- What the engine needs from the build configuration, from `float`
arithmetic and from `channel_dispatcher`. `D` is the state of the dispatcher. -/
structure Platform (F D : Type) where
  /-- The constant `CH_NUM`. -/
  CH_NUM : Nat
  /-- The constant `MAX_LIST_LENGTH`. -/
  MAX_LIST_LENGTH : Nat
  /-- The `float` comparison `a > b`. -/
  gt : F → F → Bool
  /-- The `float` product `a * b`. -/
  mul : F → F → F
  /-- The conversion `(uint32_t)round(x * 1000000L)`. -/
  toUsec : F → Nat
  getULimit : D → Channel → F
  getILimit : D → Channel → F
  getPowerLimit : D → Channel → F
  getUSet : D → Channel → F
  getISet : D → Channel → F
  setVoltage : D → Channel → F → D
  setCurrent : D → Channel → F → D

/-! ## Data model -/

/-- One element of `g_channelsLists`. -/
structure ChannelLists (F : Type) where
  dwellList : Nat → F
  dwellListLength : Nat
  voltageList : Nat → F
  voltageListLength : Nat
  currentList : Nat → F
  currentListLength : Nat
  count : Nat
  changed : Bool

/-- One element of `g_execution`. -/
structure Execution where
  counter : Int
  it : Int
  nextPointTime : Nat
deriving DecidableEq, Repr

/-- The file-level variables, the state of the dispatcher and the log of calls
made so far. -/
structure State (F D : Type) where
  g_channelsLists : Nat → ChannelLists F
  g_execution : Nat → Execution
  g_active : Bool
  dispatcher : D
  log : List (Event F)

variable {F D : Type}

/-- Assignment to `g_execution[i]`. -/
def State.setExecution (s : State F D) (i : Nat) (e : Execution) : State F D :=
  { s with g_execution := fun j => if j = i then e else s.g_execution j }

/-- Assignment to `g_channelsLists[i]`. -/
def State.setChannelLists (s : State F D) (i : Nat) (l : ChannelLists F) : State F D :=
  { s with g_channelsLists := fun j => if j = i then l else s.g_channelsLists j }

/-- Assignment to `g_active`. -/
def State.setActive (s : State F D) (b : Bool) : State F D :=
  { s with g_active := b }

/-- Record a call in the log. -/
def State.emit (s : State F D) (e : Event F) : State F D :=
  { s with log := s.log ++ [e] }

/-! ## Execution engine -/

/-- Source function `executionStart` (list.cpp:330). -/
def executionStart (s : State F D) (channel : Channel) : State F D :=
  let s := s.setExecution (channel.index - 1)
    { s.g_execution (channel.index - 1) with it := -1 }
  s.setExecution (channel.index - 1)
    { s.g_execution (channel.index - 1) with
        counter := (s.g_channelsLists (channel.index - 1)).count }

/-- Source function `maxListsSize` (list.cpp:335). -/
def maxListsSize (s : State F D) (channel : Channel) : Nat :=
  let maxSize := 0
  let maxSize :=
    if (s.g_channelsLists (channel.index - 1)).voltageListLength > maxSize then
      (s.g_channelsLists (channel.index - 1)).voltageListLength
    else maxSize
  let maxSize :=
    if (s.g_channelsLists (channel.index - 1)).currentListLength > maxSize then
      (s.g_channelsLists (channel.index - 1)).currentListLength
    else maxSize
  let maxSize :=
    if (s.g_channelsLists (channel.index - 1)).dwellListLength > maxSize then
      (s.g_channelsLists (channel.index - 1)).dwellListLength
    else maxSize
  maxSize

/-- Source function `isActive` (list.cpp:428). -/
def isActive (s : State F D) : Bool := s.g_active

/-- Source function `abort` (list.cpp:432): the counter of each of the `CH_NUM` channels
becomes `-1`. -/
def abort (p : Platform F D) (s : State F D) : State F D :=
  { s with g_execution := fun i =>
      if i < p.CH_NUM then { s.g_execution i with counter := -1 } else s.g_execution i }

/-- The read `list[it % length]` of `tick`. The remainder is the truncating
one of C++; a zero `length` (division by zero) and a negative index have no
defined result. -/
def listAt (list : Nat → F) (it : Int) (length : Nat) : Option F :=
  if length = 0 then none
  else if Int.tmod it (length : Int) < 0 then none
  else some (list (Int.tmod it (length : Int)).toNat)

/-- How the body of the loop of `tick` ends. -/
inductive Flow (σ : Type)
  /-- The body ran to its end: the loop goes on with the next channel. -/
  | next (s : σ)
  /-- The body executed `return`. -/
  | ret (s : σ)
  /-- The body has undefined behaviour. -/
  | undefined

/-- The test `set` of `tick` (list.cpp:365-374): the channel was just started,
or the signed 32-bit difference `nextPointTime - tick_usec` is not positive. -/
def isDue (e : Execution) (tick_usec : Nat) : Bool :=
  if e.it = -1 then true
  else decide (wrapInt32 (subUInt32 e.nextPointTime tick_usec) ≤ 0)

/-- Lines 389-422 of `tick`: select the point of the current step of channel
`i`, check it against the limits, apply it and schedule the next step. -/
def applyPoint (p : Platform F D) (tick_usec : Nat) (i : Nat) (s : State F D) :
    Flow (State F D) :=
  let channel := Channel.get i
  match listAt (s.g_channelsLists i).voltageList (s.g_execution i).it
      (s.g_channelsLists i).voltageListLength with
  | none => .undefined
  | some voltage =>
    if p.gt voltage (p.getULimit s.dispatcher channel) then
      .ret (abort p (s.emit (.generateError .SCPI_ERROR_VOLTAGE_LIMIT_EXCEEDED)))
    else if p.gt (p.mul voltage (p.getISet s.dispatcher channel))
        (p.getPowerLimit s.dispatcher channel) then
      .ret (abort p (s.emit (.generateError .SCPI_ERROR_POWER_LIMIT_EXCEEDED)))
    else
      let s := { s.emit (.setVoltage channel voltage) with
        dispatcher := p.setVoltage s.dispatcher channel voltage }
      match listAt (s.g_channelsLists i).currentList (s.g_execution i).it
          (s.g_channelsLists i).currentListLength with
      | none => .undefined
      | some current =>
        if p.gt current (p.getILimit s.dispatcher channel) then
          .ret (abort p (s.emit (.generateError .SCPI_ERROR_CURRENT_LIMIT_EXCEEDED)))
        else if p.gt (p.mul current (p.getUSet s.dispatcher channel))
            (p.getPowerLimit s.dispatcher channel) then
          .ret (abort p (s.emit (.generateError .SCPI_ERROR_POWER_LIMIT_EXCEEDED)))
        else
          let s := { s.emit (.setCurrent channel current) with
            dispatcher := p.setCurrent s.dispatcher channel current }
          match listAt (s.g_channelsLists i).dwellList (s.g_execution i).it
              (s.g_channelsLists i).dwellListLength with
          | none => .undefined
          | some d =>
            let dwell := p.toUsec d % 4294967296
            .next (s.setExecution i
              { s.g_execution i with nextPointTime := addUInt32 tick_usec dwell })

/-- Lines 377-387 of `tick`: the step index of channel `i` is incremented; at
the end of a cycle the counter is decremented when it is positive and either
the run ends (`return`) or the index goes back to 0. -/
def advanceStep (i : Nat) (s : State F D) : Flow (State F D) :=
  let channel := Channel.get i
  let s := s.setExecution i
    { s.g_execution i with it := wrapInt16 ((s.g_execution i).it + 1) }
  if (s.g_execution i).it = (maxListsSize s channel : Int) then
    if (s.g_execution i).counter > 0 then
      let s := s.setExecution i
        { s.g_execution i with counter := (s.g_execution i).counter - 1 }
      if (s.g_execution i).counter = 0 then
        let s := s.setExecution i { s.g_execution i with counter := -1 }
        .ret (s.emit (.setTriggerFinished channel))
      else
        .next (s.setExecution i { s.g_execution i with it := 0 })
    else
      .next (s.setExecution i { s.g_execution i with it := 0 })
  else
    .next s

/-- Lines 377-422 of `tick`: a due step of channel `i`, made of `advanceStep`
and, unless that returned, `applyPoint`. -/
def stepChannel (p : Platform F D) (tick_usec : Nat) (i : Nat) (s : State F D) :
    Flow (State F D) :=
  match advanceStep i s with
  | .next s => applyPoint p tick_usec i s
  | .ret s => .ret s
  | .undefined => .undefined

/-- The body of the loop of `tick` for channel `i` (list.cpp:361-424). -/
def tickChannel (p : Platform F D) (tick_usec : Nat) (i : Nat) (s : State F D) :
    Flow (State F D) :=
  if (s.g_execution i).counter ≥ 0 then
    let s := s.setActive true
    if isDue (s.g_execution i) tick_usec then stepChannel p tick_usec i s
    else .next s
  else .next s

/-- The loop of `tick`: `n` iterations starting with channel `i`. -/
def tickLoop (p : Platform F D) (tick_usec : Nat) : Nat → Nat → State F D → Flow (State F D)
  | 0, _, s => .next s
  | n + 1, i, s =>
    match tickChannel p tick_usec i s with
    | .next s => tickLoop p tick_usec n (i + 1) s
    | .ret s => .ret s
    | .undefined => .undefined

/-- The state a function leaves behind, whether it falls off its end or
returns early; `none` when its behaviour is undefined. -/
def Flow.result {σ : Type} : Flow σ → Option σ
  | .next s => some s
  | .ret s => some s
  | .undefined => none

/-- Source function `tick` (list.cpp:353). The debug-only duration counter is left out. -/
def tick (p : Platform F D) (tick_usec : Nat) (s : State F D) : Option (State F D) :=
  (tickLoop p tick_usec p.CH_NUM 0 (s.setActive false)).result

/-- Successive calls of `tick`, one for each time of the list. -/
def runTicks (p : Platform F D) (s : State F D) : List Nat → Option (State F D)
  | [] => some s
  | t :: ts => (tick p t s).bind fun s => runTicks p s ts

/-! ## List store -/

/-- The call `memcpy(dst, src, n * sizeof(float))`: the first `n` elements of
`dst` become those of `src`. -/
def memcpy (dst src : Nat → F) (n : Nat) : Nat → F :=
  fun k => if k < n then src k else dst k

/-- Source function `setDwellList` (list.cpp:80). -/
def setDwellList (s : State F D) (channel : Channel) (list : Nat → F) (listLength : Nat) :
    State F D :=
  let s := s.setChannelLists (channel.index - 1)
    { s.g_channelsLists (channel.index - 1) with
      dwellList := memcpy (s.g_channelsLists (channel.index - 1)).dwellList list listLength }
  let s := s.setChannelLists (channel.index - 1)
    { s.g_channelsLists (channel.index - 1) with dwellListLength := listLength }
  s.setChannelLists (channel.index - 1)
    { s.g_channelsLists (channel.index - 1) with changed := true }

/-- Source function `setVoltageList` (list.cpp:91). -/
def setVoltageList (s : State F D) (channel : Channel) (list : Nat → F) (listLength : Nat) :
    State F D :=
  let s := s.setChannelLists (channel.index - 1)
    { s.g_channelsLists (channel.index - 1) with
      voltageList := memcpy (s.g_channelsLists (channel.index - 1)).voltageList list listLength }
  let s := s.setChannelLists (channel.index - 1)
    { s.g_channelsLists (channel.index - 1) with voltageListLength := listLength }
  s.setChannelLists (channel.index - 1)
    { s.g_channelsLists (channel.index - 1) with changed := true }

/-- Source function `setCurrentList` (list.cpp:102). -/
def setCurrentList (s : State F D) (channel : Channel) (list : Nat → F) (listLength : Nat) :
    State F D :=
  let s := s.setChannelLists (channel.index - 1)
    { s.g_channelsLists (channel.index - 1) with
      currentList := memcpy (s.g_channelsLists (channel.index - 1)).currentList list listLength }
  let s := s.setChannelLists (channel.index - 1)
    { s.g_channelsLists (channel.index - 1) with currentListLength := listLength }
  s.setChannelLists (channel.index - 1)
    { s.g_channelsLists (channel.index - 1) with changed := true }

/-- Source function `getDwellList` (list.cpp:86): the array and, through
`listLength`, the stored length. -/
def getDwellList (s : State F D) (channel : Channel) : (Nat → F) × Nat :=
  ((s.g_channelsLists (channel.index - 1)).dwellList,
   (s.g_channelsLists (channel.index - 1)).dwellListLength)

/-- Source function `getVoltageList` (list.cpp:97). -/
def getVoltageList (s : State F D) (channel : Channel) : (Nat → F) × Nat :=
  ((s.g_channelsLists (channel.index - 1)).voltageList,
   (s.g_channelsLists (channel.index - 1)).voltageListLength)

/-- Source function `getCurrentList` (list.cpp:108). -/
def getCurrentList (s : State F D) (channel : Channel) : (Nat → F) × Nat :=
  ((s.g_channelsLists (channel.index - 1)).currentList,
   (s.g_channelsLists (channel.index - 1)).currentListLength)

/-- Source function `getListsChanged` (list.cpp:113). -/
def getListsChanged (s : State F D) (channel : Channel) : Bool :=
  (s.g_channelsLists (channel.index - 1)).changed

/-- Source function `setListsChanged` (list.cpp:117). -/
def setListsChanged (s : State F D) (channel : Channel) (changed : Bool) : State F D :=
  s.setChannelLists (channel.index - 1)
    { s.g_channelsLists (channel.index - 1) with changed := changed }

/-- Source function `getListCount` (list.cpp:121). -/
def getListCount (s : State F D) (channel : Channel) : Nat :=
  (s.g_channelsLists (channel.index - 1)).count

/-- Source function `setListCount` (list.cpp:125). -/
def setListCount (s : State F D) (channel : Channel) (value : Nat) : State F D :=
  s.setChannelLists (channel.index - 1)
    { s.g_channelsLists (channel.index - 1) with count := value }

/-- Source function `resetChannelList` (list.cpp:60). -/
def resetChannelList (s : State F D) (channel : Channel) : State F D :=
  let i := channel.index - 1
  let s := s.setChannelLists i { s.g_channelsLists i with voltageListLength := 0 }
  let s := s.setChannelLists i { s.g_channelsLists i with currentListLength := 0 }
  let s := s.setChannelLists i { s.g_channelsLists i with dwellListLength := 0 }
  let s := s.setChannelLists i { s.g_channelsLists i with changed := false }
  let s := s.setChannelLists i { s.g_channelsLists i with count := 1 }
  s.setExecution i { s.g_execution i with counter := -1 }

/-- The loop of `reset` (list.cpp:75): `n` iterations starting with channel `i`. -/
def resetLoop : Nat → Nat → State F D → State F D
  | 0, _, s => s
  | n + 1, i, s => resetLoop n (i + 1) (resetChannelList s (Channel.get i))

/-- Source function `reset` (list.cpp:74). -/
def reset (p : Platform F D) (s : State F D) : State F D :=
  resetLoop p.CH_NUM 0 s

/-! ## List codec: reading -/

/-- What `loadList` needs from the build configuration, from `SD` and from
`sd_card`. `File` is the state of an open file. The matching functions return
their result together with the file as they leave it. -/
structure SdCard (File F : Type) where
  /-- The build option `OPTION_SD_CARD`. -/
  OPTION_SD_CARD : Bool
  /-- The constant `LIST_CSV_FILE_NO_VALUE_CHAR`. -/
  LIST_CSV_FILE_NO_VALUE_CHAR : Char
  /-- The constant `CSV_SEPARATOR`. -/
  CSV_SEPARATOR : Char
  /-- The call `SD.open(filePath, FILE_READ)`; `none` when the file is not opened. -/
  openRead : String → Option File
  /-- The call `file.available()`. -/
  available : File → Bool
  /-- The call `sd_card::matchZeroOrMoreSpaces(file)`. -/
  matchZeroOrMoreSpaces : File → File
  /-- The call `sd_card::match(file, c)` for a character `c`. -/
  matchChar : File → Char → Bool × File
  /-- The call `sd_card::match(file, value)` for a `float` variable `value`. -/
  matchFloat : File → Option F × File

/-- The three columns of a list file, in the order of a row. -/
inductive Column
  | dwell
  | voltage
  | current
deriving DecidableEq, Repr

/-- What the `if` / `else if` / `else` chain of `loadList` finds at a field:
the "no value" character, a number, or neither. -/
inductive Field (F : Type)
  | noValue
  | number (value : F)
  | other
deriving DecidableEq, Repr

/-- The local variables of `loadList`, and the fields read so far (the latter
is not a variable of the source: it records, in order, what was read). -/
structure LoadLocals (File F : Type) where
  file : File
  dwellList : Nat → F
  dwellListLength : Nat
  voltageList : Nat → F
  voltageListLength : Nat
  currentList : Nat → F
  currentListLength : Nat
  success : Bool
  trace : List (Column × Field F)

variable {File : Type}

/-- The length variable of a column. -/
def LoadLocals.length (l : LoadLocals File F) : Column → Nat
  | .dwell => l.dwellListLength
  | .voltage => l.voltageListLength
  | .current => l.currentListLength

/-- The array of a column. -/
def LoadLocals.list (l : LoadLocals File F) : Column → Nat → F
  | .dwell => l.dwellList
  | .voltage => l.voltageList
  | .current => l.currentList

/-- The assignments made for a number in row `i`: `dwellList[i] = value;
dwellListLength = i + 1;` for the dwell column, `voltageList[i] = value;
++voltageListLength;` and `currentList[i] = value; ++currentListLength;` for
the other two. -/
def LoadLocals.store (l : LoadLocals File F) (c : Column) (i : Nat) (value : F) :
    LoadLocals File F :=
  match c with
  | .dwell =>
    { l with dwellList := Function.update l.dwellList i value, dwellListLength := i + 1 }
  | .voltage =>
    { l with voltageList := Function.update l.voltageList i value
             voltageListLength := l.voltageListLength + 1 }
  | .current =>
    { l with currentList := Function.update l.currentList i value
             currentListLength := l.currentListLength + 1 }

/-- The two matching attempts made at a field: first the "no value" character,
then, if that did not match, a number. -/
def readField (sd : SdCard File F) (file : File) : Field F × File :=
  if (sd.matchChar file sd.LIST_CSV_FILE_NO_VALUE_CHAR).1 then
    (.noValue, (sd.matchChar file sd.LIST_CSV_FILE_NO_VALUE_CHAR).2)
  else
    match sd.matchFloat (sd.matchChar file sd.LIST_CSV_FILE_NO_VALUE_CHAR).2 with
    | (some value, file) => (.number value, file)
    | (none, file) => (.other, file)

/-- How a part of the body of the loop of `loadList` ends. -/
inductive LoopStep (σ : Type)
  /-- The part ran to its end. -/
  | cont (l : σ)
  /-- The part executed `break`. -/
  | brk (l : σ)

/-- One of the three blocks of the body of the loop of `loadList`
(list.cpp:190-206, 210-226, 230-246), for column `c` in row `i`. -/
def loadColumn (sd : SdCard File F) (c : Column) (i : Nat) (l : LoadLocals File F) :
    LoopStep (LoadLocals File F) :=
  let l' := { l with file := (readField sd l.file).2
                     trace := l.trace ++ [(c, (readField sd l.file).1)] }
  match (readField sd l.file).1 with
  | .noValue =>
    if i < l'.length c then .brk { l' with success := false }
    else .cont l'
  | .number value =>
    if i = l'.length c then .cont (l'.store c i value)
    else .brk { l' with success := false }
  | .other => .brk { l' with success := false }

/-- The call `sd_card::match(file, CSV_SEPARATOR)`, whose result is not used. -/
def skipSeparator (sd : SdCard File F) (l : LoadLocals File F) : LoadLocals File F :=
  { l with file := (sd.matchChar l.file sd.CSV_SEPARATOR).2 }

/-- The loop of `loadList` (list.cpp:182-247): `n` iterations starting with
row `i`. -/
def loadLoop (sd : SdCard File F) : Nat → Nat → LoadLocals File F → LoadLocals File F
  | 0, _, l => l
  | n + 1, i, l =>
    let l := { l with file := sd.matchZeroOrMoreSpaces l.file }
    if !sd.available l.file then l
    else
      match loadColumn sd .dwell i l with
      | .brk l => l
      | .cont l =>
        match loadColumn sd .voltage i (skipSeparator sd l) with
        | .brk l => l
        | .cont l =>
          match loadColumn sd .current i (skipSeparator sd l) with
          | .brk l => l
          | .cont l => loadLoop sd n (i + 1) l

/-- The local variables of `loadList` when the loop is entered. The arrays are
not initialised: `uninit` stands for their contents. -/
def loadInit (file : File) (uninit : Nat → F) : LoadLocals File F :=
  { file := file
    dwellList := uninit, dwellListLength := 0
    voltageList := uninit, voltageListLength := 0
    currentList := uninit, currentListLength := 0
    success := true
    trace := [] }

/-- The local variables of `loadList` when the loop is left. -/
def loadRows (p : Platform F D) (sd : SdCard File F) (file : File) (uninit : Nat → F) :
    LoadLocals File F :=
  loadLoop sd p.MAX_LIST_LENGTH 0 (loadInit file uninit)

/-- What `loadList` returns: its result, the code stored through `err` (when
`err` is not null) and the state it leaves. -/
structure LoadResult (F D : Type) where
  success : Bool
  err : Option ScpiError
  state : State F D

/-- Source function `loadList` (list.cpp:159). -/
def loadList (p : Platform F D) (sd : SdCard File F) (s : State F D) (channel : Channel)
    (filePath : String) (uninit : Nat → F) : LoadResult F D :=
  if sd.OPTION_SD_CARD then
    match sd.openRead filePath with
    | none => { success := false, err := some .SCPI_ERROR_EXECUTION_ERROR, state := s }
    | some file =>
      let l := loadRows p sd file uninit
      if l.success then
        let s := setDwellList s channel l.dwellList l.dwellListLength
        let s := setVoltageList s channel l.voltageList l.voltageListLength
        let s := setCurrentList s channel l.currentList l.currentListLength
        { success := true, err := none, state := s }
      else
        { success := false, err := some .SCPI_ERROR_EXECUTION_ERROR, state := s }
  else
    { success := false, err := some .SCPI_ERROR_OPTION_NOT_INSTALLED, state := s }

/-! ## List codec: writing -/

/-- What `saveList` needs from the build configuration and from `SD`. -/
structure SdWriter (F : Type) where
  /-- The build option `OPTION_SD_CARD`. -/
  OPTION_SD_CARD : Bool
  /-- The constant `LIST_CSV_FILE_NO_VALUE_CHAR`. -/
  LIST_CSV_FILE_NO_VALUE_CHAR : Char
  /-- The constant `CSV_SEPARATOR`. -/
  CSV_SEPARATOR : Char
  /-- Whether `SD.open(filePath, FILE_WRITE)`, after `makeParentDir` and
  `SD.remove`, opens the file. -/
  openWrite : String → Bool
  /-- The characters written by `file.print(x, digits)` for a `float`. -/
  printFloat : F → Nat → List Char

/-- The loop of `saveList` (list.cpp:287-317) from row `i` on: `out` is what
has been written to the file so far. -/
def saveLoop (w : SdWriter F) (l : ChannelLists F) (i : Nat) (out : List Char) : List Char :=
  if i < l.dwellListLength ∨ i < l.voltageListLength ∨ i < l.currentListLength then
    let out := out ++
      (if i < l.dwellListLength then w.printFloat (l.dwellList i) 6
       else [w.LIST_CSV_FILE_NO_VALUE_CHAR])
    let out := out ++ [w.CSV_SEPARATOR]
    let out := out ++
      (if i < l.voltageListLength then w.printFloat (l.voltageList i) 6
       else [w.LIST_CSV_FILE_NO_VALUE_CHAR])
    let out := out ++ [w.CSV_SEPARATOR]
    let out := out ++
      (if i < l.currentListLength then w.printFloat (l.currentList i) 6
       else [w.LIST_CSV_FILE_NO_VALUE_CHAR])
    let out := out ++ ['\n']
    saveLoop w l (i + 1) out
  else out
termination_by max l.dwellListLength (max l.voltageListLength l.currentListLength) - i
decreasing_by omega

/-- What `saveList` returns: its result, the code stored through `err` (when
`err` is not null) and the content of the file it wrote, if it wrote one. -/
structure SaveResult where
  success : Bool
  err : Option ScpiError
  written : Option (List Char)

/-- Source function `saveList` (list.cpp:271). -/
def saveList (w : SdWriter F) (s : State F D) (channel : Channel) (filePath : String) :
    SaveResult :=
  if w.OPTION_SD_CARD then
    if w.openWrite filePath then
      { success := true, err := none
        written := some (saveLoop w (s.g_channelsLists (channel.index - 1)) 0 []) }
    else
      { success := false, err := some .SCPI_ERROR_EXECUTION_ERROR, written := none }
  else
    { success := false, err := some .SCPI_ERROR_OPTION_NOT_INSTALLED, written := none }

/-! ## A text model of the SD card -/

/-- Modelled from the spec: the characters skipped as whitespace before a field
(§6: "Leading whitespace before each field is ignored on load", rows end with a
newline). `sd_card.cpp` is not part of the sources. -/
def isSpace (c : Char) : Bool :=
  c == ' ' || c == '\t' || c == '\r' || c == '\n'

/-- Modelled from the spec: `sd_card::matchZeroOrMoreSpaces` on a file given by
its unread characters. -/
def skipSpaces : List Char → List Char
  | [] => []
  | c :: cs => if isSpace c then skipSpaces cs else c :: cs

/-- Modelled from the spec: `sd_card::match(file, c)`: after the whitespace,
the character `c` is consumed if it is next. -/
def textMatchChar (file : List Char) (c : Char) : Bool × List Char :=
  match skipSpaces file with
  | [] => (false, [])
  | d :: rest => if d = c then (true, rest) else (false, d :: rest)

/-- The number written by a string of decimal digits. -/
def digitsValue (cs : List Char) : Nat :=
  cs.foldl (fun acc c => acc * 10 + (c.toNat - 48)) 0

/-- Modelled from the spec: `sd_card::match(file, value)` (§6: numbers are
decimal): after the whitespace, an optional `-`, decimal digits and an optional
fraction introduced by `.`; at least one digit is required. The value of the
sign, integer part, fraction digits and their number is given by `ofDecimal`. -/
def textMatchFloat (ofDecimal : Bool → Nat → Nat → Nat → F) (file : List Char) :
    Option F × List Char :=
  let file := skipSpaces file
  let neg := file.head? == some '-'
  let file := if neg then file.tail else file
  let ip := file.takeWhile Char.isDigit
  let file := file.dropWhile Char.isDigit
  let hasDot := file.head? == some '.'
  let fp := if hasDot then file.tail.takeWhile Char.isDigit else []
  let file := if hasDot then file.tail.dropWhile Char.isDigit else file
  if ip.isEmpty && fp.isEmpty then (none, file)
  else (some (ofDecimal neg (digitsValue ip) (digitsValue fp) fp.length), file)

/-- Modelled from the spec: an SD card whose files are texts, read character by
character. -/
def textCard (ofDecimal : Bool → Nat → Nat → Nat → F) (noValue separator : Char)
    (files : String → Option (List Char)) : SdCard (List Char) F where
  OPTION_SD_CARD := true
  LIST_CSV_FILE_NO_VALUE_CHAR := noValue
  CSV_SEPARATOR := separator
  openRead := files
  available := fun file => !file.isEmpty
  matchZeroOrMoreSpaces := skipSpaces
  matchChar := textMatchChar
  matchFloat := textMatchFloat ofDecimal

/-- The fixed-point value (multiples of `10^-6`, as in `fixedPoint`) of a
decimal number; digits past the sixth are dropped. -/
def fixedPointOfDecimal (neg : Bool) (ip fp k : Nat) : Int :=
  (if neg then -1 else 1) * ((ip * 1000000 + fp * 1000000 / 10 ^ k : Nat) : Int)

/-- The text card used in the examples: values as in `fixedPoint`, `=` for "no
value", `,` as separator, and a single file `"list.csv"` with content `text`. -/
def exampleCard (text : String) : SdCard (List Char) Int :=
  textCard fixedPointOfDecimal '=' ','
    (fun path => if path = "list.csv" then some text.toList else none)

/-! ## A model of the codec over the rationals -/

/-- The character of a decimal digit. -/
def digitChar (d : Nat) : Char := Char.ofNat (48 + d)

/-- The `k` low-order decimal digits of `v`, most significant first. -/
def decimalDigits : Nat → Nat → List Char
  | 0, _ => []
  | k + 1, v => digitChar (v / 10 ^ k % 10) :: decimalDigits k v

/-- The decimal digits of `n`, without leading zeros (one digit for 0). -/
def printNat (n : Nat) : List Char := decimalDigits (Nat.log 10 n + 1) n

/-- Modelled from the spec: what `file.print(x, digits)` writes for a number
`x` (§6: decimal, printed with exactly 6 fractional digits on save): a `-` for
a negative number, then the absolute value rounded to `digits` decimals, as
integer part, `.` and `digits` digits. Floating-point values are taken to be
rationals; the printing routine is not part of the sources. -/
def printRat (x : ℚ) (digits : Nat) : List Char :=
  (if x < 0 then ['-'] else []) ++
    printNat (⌊|x| * 10 ^ digits + 1 / 2⌋₊ / 10 ^ digits) ++
    (if 0 < digits then '.' :: decimalDigits digits (⌊|x| * 10 ^ digits + 1 / 2⌋₊ % 10 ^ digits)
     else [])

/-- The rational written by a sign, an integer part and `k` fraction digits. -/
def ratOfDecimal (neg : Bool) (ip fp k : Nat) : ℚ :=
  (if neg then -1 else 1) * ((ip : ℚ) + (fp : ℚ) / 10 ^ k)

/-- Modelled from the spec: a writer that prints rationals with `printRat` and
always opens its file. -/
def ratWriter (noValue separator : Char) : SdWriter ℚ where
  OPTION_SD_CARD := true
  LIST_CSV_FILE_NO_VALUE_CHAR := noValue
  CSV_SEPARATOR := separator
  openWrite := fun _ => true
  printFloat := printRat

/-- The text of one field of a saved row. -/
def fieldText (w : SdWriter F) (list : Nat → F) (length i : Nat) : List Char :=
  if i < length then w.printFloat (list i) 6 else [w.LIST_CSV_FILE_NO_VALUE_CHAR]

/-- The text of row `i` of a saved list file. -/
def rowText (w : SdWriter F) (l : ChannelLists F) (i : Nat) : List Char :=
  fieldText w l.dwellList l.dwellListLength i ++ [w.CSV_SEPARATOR] ++
    fieldText w l.voltageList l.voltageListLength i ++ [w.CSV_SEPARATOR] ++
    fieldText w l.currentList l.currentListLength i ++ ['\n']

/-- The text of the `n` rows of a saved list file from row `i` on. -/
def rowsText (w : SdWriter F) (l : ChannelLists F) : Nat → Nat → List Char
  | _, 0 => []
  | i, n + 1 => rowText w l i ++ rowsText w l (i + 1) n

/-- The value read back from the text printed for `x` with 6 decimals. -/
def roundTrip6 (x : ℚ) : ℚ :=
  (if x < 0 then -1 else 1) * ((⌊|x| * 10 ^ 6 + 1 / 2⌋₊ : ℚ) / 10 ^ 6)

/-! ## Auxiliary definitions used in statements -/

/-- The state after `voltage` has passed its checks and has been applied to
channel `i`. -/
def voltageApplied (p : Platform F D) (i : Nat) (s : State F D) (voltage : F) : State F D :=
  { s.emit (.setVoltage (Channel.get i) voltage) with
    dispatcher := p.setVoltage s.dispatcher (Channel.get i) voltage }

/-- The state after the point `(voltage, current, d)` has passed all checks and
has been applied to channel `i` at time `tick_usec`. -/
def pointApplied (p : Platform F D) (tick_usec : Nat) (i : Nat) (s : State F D)
    (voltage current d : F) : State F D :=
  let s := voltageApplied p i s voltage
  let s := { s.emit (.setCurrent (Channel.get i) current) with
    dispatcher := p.setCurrent s.dispatcher (Channel.get i) current }
  s.setExecution i
    { s.g_execution i with nextPointTime := addUInt32 tick_usec (p.toUsec d % 4294967296) }

/-- The events of this file's log that report an error. -/
def Event.isError : Event F → Bool
  | .generateError _ => true
  | _ => false

/-- The two setpoint calls of the step with index `k % span` of channel `i`:
each list is read at that index modulo its own length. -/
def pointEvents (l : ChannelLists F) (i span k : Nat) : List (Event F) :=
  [.setVoltage (Channel.get i) (l.voltageList ((k % span) % l.voltageListLength)),
   .setCurrent (Channel.get i) (l.currentList ((k % span) % l.currentListLength))]

/-- The calls expected from the first `k` ticks of a run of channel `i` alone
that repeats `n` times a cycle of `span` steps: one point for each of the first
`n * span` ticks, then the end-of-run notification. -/
def expectedLog (l : ChannelLists F) (i n span k : Nat) : List (Event F) :=
  (List.range (min k (n * span))).flatMap (pointEvents l i span) ++
    (if n * span < k then [.setTriggerFinished (Channel.get i)] else [])

/-- Description of the state `s` reached `k` ticks after channel `i`, with
lists `l` and span `span`, was started alone for `n` cycles from a state whose
log was `log0`. -/
structure SingleRun (p : Platform F D) (i n span : Nat) (log0 : List (Event F))
    (l : ChannelLists F) (k : Nat) (s : State F D) : Prop where
  lists_eq : s.g_channelsLists i = l
  idle : ∀ j, j < p.CH_NUM → j ≠ i → (s.g_execution j).counter < 0
  log_eq : s.log = log0 ++ expectedLog l i n span k
  start : k = 0 → (s.g_execution i).it = -1 ∧ (s.g_execution i).counter = n
  running : 1 ≤ k → k ≤ n * span →
    (s.g_execution i).it = ((k - 1) % span : Nat) ∧
    (s.g_execution i).counter = (n : Int) - ((k - 1) / span : Nat)
  finished : n * span < k → (s.g_execution i).counter = -1

/-- The times of successive ticks: the first one at `t0`, each following one
later than the one before it by the next element of `gaps` (32-bit clock). -/
def tickTimes (t0 : Nat) : List Nat → List Nat
  | [] => [t0]
  | e :: es => t0 :: tickTimes (addUInt32 t0 e) es

/-- The dwell, in microseconds as `tick` computes it, of the step with index
`k % span` of the lists `l`. -/
def dwellUsec (p : Platform F D) (l : ChannelLists F) (span k : Nat) : Nat :=
  p.toUsec (l.dwellList ((k % span) % l.dwellListLength)) % 4294967296

/-- Number of channels before channel `i` (in channel order) that are active. -/
def activeBelow (s : State F D) : Nat → Nat
  | 0 => 0
  | i + 1 => activeBelow s i + (if 0 ≤ (s.g_execution i).counter then 1 else 0)

/-- The fields read for column `c`, in row order. -/
def columnFields (c : Column) (trace : List (Column × Field F)) : List (Field F) :=
  (trace.filter (fun e => decide (e.1 = c))).map (fun e => e.2)

/-- Whether a field is a number. -/
def Field.isNumber : Field F → Bool
  | .number _ => true
  | _ => false

/-- Column `c` after `i` of its fields were read and accepted: the fields are
numbers, as many as the recorded length, followed by "no value" markers only;
the numbers are, in order, the recorded values; the recorded length is at most
`i`. -/
def ColumnOk (c : Column) (i : Nat) (l : LoadLocals File F) : Prop :=
  ∃ vs : List F, vs.length = l.length c ∧ l.length c ≤ i ∧
    columnFields c l.trace = vs.map Field.number ++ List.replicate (i - vs.length) Field.noValue ∧
    ∀ k (hk : k < vs.length), l.list c k = vs.get ⟨k, hk⟩

/-- The stored length of a column of a channel's lists. -/
def ChannelLists.lengthOf (l : ChannelLists F) : Column → Nat
  | .dwell => l.dwellListLength
  | .voltage => l.voltageListLength
  | .current => l.currentListLength

/-- The stored array of a column of a channel's lists. -/
def ChannelLists.listOf (l : ChannelLists F) : Column → Nat → F
  | .dwell => l.dwellList
  | .voltage => l.voltageList
  | .current => l.currentList

/-- Column `c` of the loader's variables after `i` rows of the text saved for
the lists `l0` were read: its recorded length is that of the first `i` rows,
and the recorded values are the saved ones as read back. -/
def ColumnRead (l0 : ChannelLists ℚ) (c : Column) (i : Nat) (l : LoadLocals File ℚ) : Prop :=
  l.length c = min i (l0.lengthOf c) ∧
    ∀ k, k < min i (l0.lengthOf c) → l.list c k = roundTrip6 (l0.listOf c k)

/-- Whether an event is a setpoint call (`setVoltage` or `setCurrent`) made for
`channel`. -/
def Event.isSetpointOf (channel : Channel) : Event F → Bool
  | .setVoltage c _ => decide (c = channel)
  | .setCurrent c _ => decide (c = channel)
  | _ => false

/-- Whether an event is a call made for `channel`: one of its setpoints or the
notification that its run has ended. -/
def Event.isAbout (channel : Channel) : Event F → Bool
  | .setVoltage c _ => decide (c = channel)
  | .setCurrent c _ => decide (c = channel)
  | .setTriggerFinished c => decide (c = channel)
  | .generateError _ => false

/-! ## A concrete platform for worked examples -/

/-- Modelled from the spec: what the dispatcher holds for one channel, namely
the three limits and the present voltage and current setpoints (§6, collaborator
interface consumed by the execution engine). -/
structure ChannelSettings where
  uLimit : Int
  iLimit : Int
  powerLimit : Int
  uSet : Int
  iSet : Int
deriving DecidableEq, Repr

/-- Modelled from the spec: a platform with `chNum` channels in which a value
`x` is stored as the integer `x * 10^6` (volts, amperes, watts and seconds with
six decimals), the dispatcher keeps fixed limits and hands back the setpoint it
was last given. The channel dispatcher and the build configuration are not part
of the sources. -/
def fixedPoint (chNum maxLen : Nat) : Platform Int (Nat → ChannelSettings) where
  CH_NUM := chNum
  MAX_LIST_LENGTH := maxLen
  gt a b := decide (b < a)
  mul a b := a * b / 1000000
  toUsec x := x.toNat
  getULimit d channel := (d channel.index).uLimit
  getILimit d channel := (d channel.index).iLimit
  getPowerLimit d channel := (d channel.index).powerLimit
  getUSet d channel := (d channel.index).uSet
  getISet d channel := (d channel.index).iSet
  setVoltage d channel v := fun j => if j = channel.index then { d j with uSet := v } else d j
  setCurrent d channel v := fun j => if j = channel.index then { d j with iSet := v } else d j

/-- The lists of a channel given by their elements; `list[k]` is 0 past the
end. The dirty flag is clear. -/
def ChannelLists.ofLists (dwell voltage current : List Int) (count : Nat) : ChannelLists Int where
  dwellList := fun k => dwell.getD k 0
  dwellListLength := dwell.length
  voltageList := fun k => voltage.getD k 0
  voltageListLength := voltage.length
  currentList := fun k => current.getD k 0
  currentListLength := current.length
  count := count
  changed := false

/-- Settings used in the examples: limits 40 V, 5 A, 155 W; setpoints 0. -/
def exampleSettings : ChannelSettings :=
  { uLimit := 40000000, iLimit := 5000000, powerLimit := 155000000, uSet := 0, iSet := 0 }

/-- A state in which every channel is idle, has the lists `lists j` and the
settings `exampleSettings`, and nothing has been logged. -/
def exampleState (lists : Nat → ChannelLists Int) : State Int (Nat → ChannelSettings) where
  g_channelsLists := lists
  g_execution := fun _ => { counter := -1, it := 0, nextPointTime := 0 }
  g_active := false
  dispatcher := fun _ => exampleSettings
  log := []

/-- Example for C7: two channels; the second one has voltage `[1.0, 2.0]`,
current `[0.5]`, dwell `[0.001]` and repeat count 2; the first one has no
lists. -/
def c7State : State Int (Nat → ChannelSettings) :=
  exampleState fun j =>
    if j = 1 then ChannelLists.ofLists [1000] [1000000, 2000000] [500000] 2
    else ChannelLists.ofLists [] [] [] 1

/-- Example for C8: two channels; the first one has voltage `[1.0]`, current
`[0.5]`, dwell `[0.001]` and repeat count 3; the second one has no lists. -/
def c8State : State Int (Nat → ChannelSettings) :=
  exampleState fun j =>
    if j = 0 then ChannelLists.ofLists [1000] [1000000] [500000] 3
    else ChannelLists.ofLists [] [] [] 1

/-- Example for C9: two channels. The first one has voltage `[1.0, 50.0]`,
current `[0.5]`, dwell `[0.001]`, an upper voltage limit of 10.0, and has
applied its first step, which ends at time 1000. The second one is in the
middle of a run of its own, its next step being due at time 500000. -/
def c9State : State Int (Nat → ChannelSettings) where
  g_channelsLists := fun j =>
    if j = 0 then ChannelLists.ofLists [1000] [1000000, 50000000] [500000] 1
    else ChannelLists.ofLists [1000000] [2000000, 3000000] [100000] 5
  g_execution := fun j =>
    if j = 0 then { counter := 1, it := 0, nextPointTime := 1000 }
    else { counter := 4, it := 1, nextPointTime := 500000 }
  g_active := true
  dispatcher := fun j =>
    if j = 1 then { exampleSettings with uLimit := 10000000, uSet := 1000000, iSet := 500000 }
    else { exampleSettings with uSet := 3000000, iSet := 100000 }
  log := []

/-- Example for C10: three idle channels. The first two have voltage `[1.0]`,
current `[0.5]`, dwell `[0.001]` and repeat count 1; the third has the
two-point lists voltage `[1.0, 2.0]`, current `[0.5, 0.5]`, dwell
`[0.001, 0.001]` and repeat count 0. -/
def c10State : State Int (Nat → ChannelSettings) :=
  exampleState fun j =>
    if j = 2 then ChannelLists.ofLists [1000, 1000] [1000000, 2000000] [500000, 500000] 0
    else ChannelLists.ofLists [1000] [1000000] [500000] 1

/-- Example for C10: `c10State` after the first two channels were started and
applied their only point at time 0 and at time 1000. -/
def c10Running : State Int (Nat → ChannelSettings) :=
  { c10State with
    g_execution := fun j =>
      if j = 0 then { counter := 1, it := 0, nextPointTime := 1000 }
      else if j = 1 then { counter := 1, it := 0, nextPointTime := 2000 }
      else { counter := -1, it := 0, nextPointTime := 0 }
    g_active := true }

/-- Modelled from the spec: a platform whose values are rationals, compared and
multiplied exactly, a dwell being rounded to the nearest microsecond; the
dispatcher has no state and reports limits of 40 V, 5 A and 155 W. -/
def ratPlatform (chNum maxLen : Nat) : Platform ℚ Unit where
  CH_NUM := chNum
  MAX_LIST_LENGTH := maxLen
  gt a b := decide (b < a)
  mul a b := a * b
  toUsec x := ⌊x * 1000000 + 1 / 2⌋₊
  getULimit _ _ := 40
  getILimit _ _ := 5
  getPowerLimit _ _ := 155
  getUSet _ _ := 0
  getISet _ _ := 0
  setVoltage d _ _ := d
  setCurrent d _ _ := d

/-- Example for C3: every channel is idle and has dwell `[0.001, 0.002]`,
voltage `[1.5, -2.25, 10/3]` and no current list. -/
def c3State : State ℚ Unit where
  g_channelsLists := fun _ =>
    { dwellList := fun k => [1 / 1000, 1 / 500].getD k 0
      dwellListLength := 2
      voltageList := fun k => [3 / 2, -9 / 4, 10 / 3].getD k 0
      voltageListLength := 3
      currentList := fun _ => 0
      currentListLength := 0
      count := 1
      changed := false }
  g_execution := fun _ => { counter := -1, it := 0, nextPointTime := 0 }
  g_active := false
  dispatcher := ()
  log := []

/-- Example for C11: two channels, the 32-bit clock about to wrap. The first
one has voltage `[1.0, 50.0]`, current `[0.5]`, dwell `[0.001]`, an upper
voltage limit of 10.0, and has applied its first step; its next step is due at
time 704. The second one applied a step with a dwell of 1 s at time
4294967000, so that its next step is due at `(4294967000 + 1000000) mod 2^32 =
999704`; its counter is 4. -/
def c11State : State Int (Nat → ChannelSettings) where
  g_channelsLists := fun j =>
    if j = 0 then ChannelLists.ofLists [1000] [1000000, 50000000] [500000] 1
    else ChannelLists.ofLists [1000000] [2000000, 3000000] [100000] 5
  g_execution := fun j =>
    if j = 0 then { counter := 1, it := 0, nextPointTime := 704 }
    else { counter := 4, it := 1, nextPointTime := 999704 }
  g_active := true
  dispatcher := fun j =>
    if j = 1 then { exampleSettings with uLimit := 10000000, uSet := 1000000, iSet := 500000 }
    else { exampleSettings with uSet := 3000000, iSet := 100000 }
  log := []

/-- Example for C11: as `c11State`, but the first channel has the single point
voltage `[1.0]` with repeat count 1, so that its run ends at its next step, and
the second channel applied a step with a dwell of 800 microseconds at time
4294967000: its next step is due at `(4294967000 + 800) mod 2^32 = 504`. -/
def c11Finish : State Int (Nat → ChannelSettings) where
  g_channelsLists := fun j =>
    if j = 0 then ChannelLists.ofLists [1000] [1000000] [500000] 1
    else ChannelLists.ofLists [800] [2000000, 3000000] [100000] 5
  g_execution := fun j =>
    if j = 0 then { counter := 1, it := 0, nextPointTime := 704 }
    else { counter := 4, it := 1, nextPointTime := 504 }
  g_active := true
  dispatcher := fun j =>
    if j = 1 then { exampleSettings with uSet := 1000000, iSet := 500000 }
    else { exampleSettings with uSet := 3000000, iSet := 100000 }
  log := []

/-- The state `s` with the repeat count of every channel `j` replaced by
`counts j`. -/
def State.withCounts (s : State F D) (counts : Nat → Nat) : State F D :=
  { s with g_channelsLists := fun j => { s.g_channelsLists j with count := counts j } }

/-- The image of the outcome of a loop body under a function on states. -/
def Flow.map {σ τ : Type} (f : σ → τ) : Flow σ → Flow τ
  | .next s => .next (f s)
  | .ret s => .ret (f s)
  | .undefined => .undefined

/-- The calls made into this file while lists are executed. -/
inductive Call
  /-- The call `executionStart(channel)`. -/
  | executionStart (channel : Channel)
  /-- The call `tick(tick_usec)`. -/
  | tick (tick_usec : Nat)
  /-- The call `abort()`. -/
  | abort
  /-- The call `setListCount(channel, value)`. -/
  | setListCount (channel : Channel) (value : Nat)
deriving DecidableEq, Repr

/-- Whether a call is `executionStart`. -/
def Call.isStart : Call → Bool
  | .executionStart _ => true
  | _ => false

/-- Whether a call is `setListCount`. -/
def Call.isSetListCount : Call → Bool
  | .setListCount _ _ => true
  | _ => false

/-- The state after one call; `none` when the behaviour of `tick` is
undefined. -/
def perform (p : Platform F D) (s : State F D) : Call → Option (State F D)
  | .executionStart channel => some (executionStart s channel)
  | .tick tick_usec => tick p tick_usec s
  | .abort => some (abort p s)
  | .setListCount channel value => some (setListCount s channel value)

/-- The state after a sequence of calls. -/
def runCalls (p : Platform F D) (s : State F D) : List Call → Option (State F D)
  | [] => some s
  | c :: cs => (perform p s c).bind fun s => runCalls p s cs

/-- Channel overload of `areListLengthsEquivalent` (list.cpp:139). -/
def areListLengthsEquivalentChannel (s : State F D) (channel : Channel) : Bool :=
  areListLengthsEquivalent3
    (s.g_channelsLists (channel.index - 1)).dwellListLength
    (s.g_channelsLists (channel.index - 1)).voltageListLength
    (s.g_channelsLists (channel.index - 1)).currentListLength

/-- The state `s` with the execution state of every channel `j ≥ k` replaced
by `g j`. -/
def State.withExecutionFrom (s : State F D) (k : Nat) (g : Nat → Execution) : State F D :=
  { s with g_execution := fun j => if k ≤ j then g j else s.g_execution j }

/-- Example for C17: two channels. The first one is idle. The second one has
voltage `[1.0, 2.0]`, current `[0.1, 0.2, 0.3]` and dwell `[0.001]` (lengths 2,
3 and 1, which the compatibility check rejects), runs forever (counter 0), is
at step index 1 and has its next step due at time 1000. -/
def c17State : State Int (Nat → ChannelSettings) where
  g_channelsLists := fun j =>
    if j = 1 then ChannelLists.ofLists [1000] [1000000, 2000000] [100000, 200000, 300000] 0
    else ChannelLists.ofLists [] [] [] 1
  g_execution := fun j =>
    if j = 1 then { counter := 0, it := 1, nextPointTime := 1000 }
    else { counter := -1, it := 0, nextPointTime := 0 }
  g_active := true
  dispatcher := fun _ => exampleSettings
  log := []

/-- Whether each of the three lists has a length in `1 .. maxLen`. -/
def ChannelLists.nonEmptyWithin (l : ChannelLists F) (maxLen : Nat) : Bool :=
  decide (0 < l.voltageListLength ∧ l.voltageListLength ≤ maxLen ∧
    0 < l.currentListLength ∧ l.currentListLength ≤ maxLen ∧
    0 < l.dwellListLength ∧ l.dwellListLength ≤ maxLen)

/-- The step-index invariant: every channel with a counter `≥ 0` has three
non-empty lists of at most `MAX_LIST_LENGTH` elements and a step index in
`-1 .. span - 1`, the span being `maxListsSize`. -/
@[reducible] def StepIndexOk (p : Platform F D) (s : State F D) : Prop :=
  ∀ j, j < p.CH_NUM → 0 ≤ (s.g_execution j).counter →
    (s.g_channelsLists j).nonEmptyWithin p.MAX_LIST_LENGTH = true ∧
    -1 ≤ (s.g_execution j).it ∧
    (s.g_execution j).it < (maxListsSize s (Channel.get j) : Int)

/-- Whether a call may be made under the precondition "a channel that is
started has three non-empty lists": an `executionStart` is for one of the
`CH_NUM` channels, whose lists in `s` have lengths in `1 .. MAX_LIST_LENGTH`. -/
def Call.startOk (p : Platform F D) (s : State F D) : Call → Bool
  | .executionStart channel =>
    decide (1 ≤ channel.index ∧ channel.index ≤ p.CH_NUM) &&
      (s.g_channelsLists (channel.index - 1)).nonEmptyWithin p.MAX_LIST_LENGTH
  | _ => true

/-- Example for C19: two channels. The first one (voltage `[1.0]`, current
`[0.5]`, dwell `[0.001]`) is in the last cycle of its run: counter 1, step
index 0, next step due at time 1000. The second one is idle. -/
def c19State : State Int (Nat → ChannelSettings) :=
  { exampleState (fun j =>
      if j = 0 then ChannelLists.ofLists [1000] [1000000] [500000] 1
      else ChannelLists.ofLists [] [] [] 1) with
    g_execution := fun j =>
      if j = 0 then { counter := 1, it := 0, nextPointTime := 1000 }
      else { counter := -1, it := 0, nextPointTime := 0 }
    g_active := true }

/-- What one block of the loop of `loadList` may do to the local variables, for
column `c` in row `i`: the column's length stays, or goes from `i` to `i + 1`;
its array changes at index `i` at most; the other columns are untouched; one
field is added to what was read. -/
def LoadLocals.ColStep (c : Column) (i : Nat) (l l' : LoadLocals File F) : Prop :=
  (l'.length c = l.length c ∨ (l.length c = i ∧ l'.length c = i + 1)) ∧
  (∀ c', c' ≠ c → l'.length c' = l.length c' ∧ l'.list c' = l.list c') ∧
  (∀ k, k ≠ i → l'.list c k = l.list c k) ∧
  ∃ f, l'.trace = l.trace ++ [(c, f)]

/-- What one iteration of the loop of `loadList` may do to the local variables,
for row `i`: each length stays, or goes from `i` to `i + 1`; each array changes
at index `i` at most; at most one field is read for each column. -/
def LoadLocals.RowStep (i : Nat) (l l' : LoadLocals File F) : Prop :=
  (∀ c, l'.length c = l.length c ∨ (l.length c = i ∧ l'.length c = i + 1)) ∧
  (∀ c k, k ≠ i → l'.list c k = l.list c k) ∧
  ∃ tr, l'.trace = l.trace ++ tr ∧ ∀ c, (columnFields c tr).length ≤ 1

/-! ## Theorems -/

theorem areListLengthsEquivalent_iff (a b : Nat) :
    areListLengthsEquivalent a b = true ↔ 0 < a ∧ 0 < b ∧ (a = 1 ∨ b = 1 ∨ a = b) := by
  simp [areListLengthsEquivalent, Nat.pos_iff_ne_zero, and_assoc, or_assoc]

/-- C1: the pairwise length check is true exactly when both lengths are
positive and one of them is 1 or they are equal; it is symmetric, false as soon
as one argument is 0, true for `(1, n)` with `n > 0`, true for `(5, 5)` and
false for `(5, 7)`. -/
theorem C1_areListLengthsEquivalent_spec :
    (∀ a b : Nat, areListLengthsEquivalent a b = true ↔
        0 < a ∧ 0 < b ∧ (a = 1 ∨ b = 1 ∨ a = b)) ∧
    (∀ a b : Nat, areListLengthsEquivalent a b = areListLengthsEquivalent b a) ∧
    (∀ n : Nat, areListLengthsEquivalent 0 n = false ∧
        areListLengthsEquivalent n 0 = false) ∧
    (∀ n : Nat, areListLengthsEquivalent 1 (n + 1) = true) ∧
    areListLengthsEquivalent 5 5 = true ∧
    areListLengthsEquivalent 5 7 = false := by
  refine ⟨areListLengthsEquivalent_iff, ?_, ?_, ?_, by decide, by decide⟩
  · intro a b
    rw [Bool.eq_iff_iff, areListLengthsEquivalent_iff, areListLengthsEquivalent_iff]
    constructor <;> rintro ⟨h1, h2, h3⟩ <;> refine ⟨h2, h1, ?_⟩ <;> omega
  · intro n
    simp [areListLengthsEquivalent]
  · intro n
    simp [areListLengthsEquivalent]

theorem areListLengthsEquivalent3_iff (a b c : Nat) :
    areListLengthsEquivalent3 a b c = true ↔
      (0 < a ∧ 0 < b ∧ 0 < c) ∧
      (a = 1 ∨ a = max a (max b c)) ∧ (b = 1 ∨ b = max a (max b c)) ∧
      (c = 1 ∨ c = max a (max b c)) := by
  simp only [areListLengthsEquivalent3, Bool.and_eq_true, areListLengthsEquivalent_iff]
  omega

/-- C2: the three-way length check is the conjunction of the three pairwise
checks; it holds exactly when all three lengths are non-zero and each of them
is 1 or the maximum of the three; it is false when a length is 0, false when
two of the lengths are different and both greater than 1, and it does not
depend on the order of its arguments. -/
theorem C2_areListLengthsEquivalent3_spec :
    (∀ a b c : Nat, areListLengthsEquivalent3 a b c =
        (areListLengthsEquivalent a b && areListLengthsEquivalent a c &&
          areListLengthsEquivalent b c)) ∧
    (∀ a b c : Nat, areListLengthsEquivalent3 a b c = true ↔
        (0 < a ∧ 0 < b ∧ 0 < c) ∧
        (a = 1 ∨ a = max a (max b c)) ∧ (b = 1 ∨ b = max a (max b c)) ∧
        (c = 1 ∨ c = max a (max b c))) ∧
    (∀ a b c : Nat, (a = 0 ∨ b = 0 ∨ c = 0) → areListLengthsEquivalent3 a b c = false) ∧
    (∀ a b c : Nat,
        ((1 < a ∧ 1 < b ∧ a ≠ b) ∨ (1 < a ∧ 1 < c ∧ a ≠ c) ∨ (1 < b ∧ 1 < c ∧ b ≠ c)) →
        areListLengthsEquivalent3 a b c = false) ∧
    (∀ a b c : Nat,
        areListLengthsEquivalent3 a b c = areListLengthsEquivalent3 b a c ∧
        areListLengthsEquivalent3 a b c = areListLengthsEquivalent3 a c b ∧
        areListLengthsEquivalent3 a b c = areListLengthsEquivalent3 c b a ∧
        areListLengthsEquivalent3 a b c = areListLengthsEquivalent3 b c a ∧
        areListLengthsEquivalent3 a b c = areListLengthsEquivalent3 c a b) := by
  refine ⟨fun _ _ _ => rfl, areListLengthsEquivalent3_iff, ?_, ?_, ?_⟩
  · intro a b c h
    rw [← Bool.not_eq_true, areListLengthsEquivalent3_iff]
    omega
  · intro a b c h
    rw [← Bool.not_eq_true, areListLengthsEquivalent3_iff]
    omega
  · intro a b c
    refine ⟨?_, ?_, ?_, ?_, ?_⟩ <;>
      (rw [Bool.eq_iff_iff, areListLengthsEquivalent3_iff, areListLengthsEquivalent3_iff]
       omega)

/-- C2 at concrete lengths: a zero length and two different lengths above 1
both make the three-way check false. -/
theorem C2_areListLengthsEquivalent3_spec_witness :
    areListLengthsEquivalent3 0 4 4 = false ∧ areListLengthsEquivalent3 2 3 1 = false :=
  ⟨C2_areListLengthsEquivalent3_spec.2.2.1 0 4 4 (Or.inl rfl),
   C2_areListLengthsEquivalent3_spec.2.2.2.1 2 3 1 (Or.inl (by decide))⟩


/-! ### The execution engine: one step of one channel -/

section Engine

variable {F D : Type}

@[simp] theorem Channel.get_index_sub_one (i : Nat) : (Channel.get i).index - 1 = i := rfl

@[simp] theorem State.setExecution_same (s : State F D) (i : Nat) (e : Execution) :
    (s.setExecution i e).g_execution i = e := by
  simp [State.setExecution]

theorem State.setExecution_other (s : State F D) {i j : Nat} (e : Execution) (h : j ≠ i) :
    (s.setExecution i e).g_execution j = s.g_execution j := by
  simp [State.setExecution, h]

@[simp] theorem State.setExecution_setExecution (s : State F D) (i : Nat) (e e' : Execution) :
    (s.setExecution i e).setExecution i e' = s.setExecution i e' := by
  simp only [State.setExecution]
  congr 1
  funext j
  split_ifs <;> rfl

@[simp] theorem State.setExecution_lists (s : State F D) (i : Nat) (e : Execution) :
    (s.setExecution i e).g_channelsLists = s.g_channelsLists := rfl

@[simp] theorem State.setExecution_log (s : State F D) (i : Nat) (e : Execution) :
    (s.setExecution i e).log = s.log := rfl

@[simp] theorem State.setExecution_active (s : State F D) (i : Nat) (e : Execution) :
    (s.setExecution i e).g_active = s.g_active := rfl

@[simp] theorem State.setExecution_dispatcher (s : State F D) (i : Nat) (e : Execution) :
    (s.setExecution i e).dispatcher = s.dispatcher := rfl

@[simp] theorem State.setActive_execution (s : State F D) (b : Bool) :
    (s.setActive b).g_execution = s.g_execution := rfl

@[simp] theorem State.setActive_lists (s : State F D) (b : Bool) :
    (s.setActive b).g_channelsLists = s.g_channelsLists := rfl

@[simp] theorem State.setActive_log (s : State F D) (b : Bool) :
    (s.setActive b).log = s.log := rfl

@[simp] theorem State.setActive_active (s : State F D) (b : Bool) :
    (s.setActive b).g_active = b := rfl

@[simp] theorem State.setActive_dispatcher (s : State F D) (b : Bool) :
    (s.setActive b).dispatcher = s.dispatcher := rfl

@[simp] theorem State.emit_log (s : State F D) (e : Event F) :
    (s.emit e).log = s.log ++ [e] := rfl

@[simp] theorem State.emit_execution (s : State F D) (e : Event F) :
    (s.emit e).g_execution = s.g_execution := rfl

@[simp] theorem State.emit_lists (s : State F D) (e : Event F) :
    (s.emit e).g_channelsLists = s.g_channelsLists := rfl

@[simp] theorem State.emit_active (s : State F D) (e : Event F) :
    (s.emit e).g_active = s.g_active := rfl

@[simp] theorem State.emit_dispatcher (s : State F D) (e : Event F) :
    (s.emit e).dispatcher = s.dispatcher := rfl

@[simp] theorem abort_log (p : Platform F D) (s : State F D) : (abort p s).log = s.log := rfl

@[simp] theorem abort_lists (p : Platform F D) (s : State F D) :
    (abort p s).g_channelsLists = s.g_channelsLists := rfl

@[simp] theorem abort_active (p : Platform F D) (s : State F D) :
    (abort p s).g_active = s.g_active := rfl

@[simp] theorem abort_dispatcher (p : Platform F D) (s : State F D) :
    (abort p s).dispatcher = s.dispatcher := rfl

theorem abort_counter (p : Platform F D) (s : State F D) {j : Nat} (h : j < p.CH_NUM) :
    ((abort p s).g_execution j).counter = -1 := by
  simp [abort, h]

/-- The maximum of the three lengths, written with `max`. -/
theorem maxListsSize_eq (s : State F D) (i : Nat) :
    maxListsSize s (Channel.get i) =
      max (s.g_channelsLists i).voltageListLength
        (max (s.g_channelsLists i).currentListLength (s.g_channelsLists i).dwellListLength) := by
  simp only [maxListsSize, Channel.get_index_sub_one]
  split_ifs <;> omega

/-- A read at a non-negative step index of a non-empty list is defined. -/
theorem listAt_natCast (list : Nat → F) (r length : Nat) (h : 0 < length) :
    listAt list (r : Int) length = some (list (r % length)) := by
  have e : Int.tmod (r : Int) (length : Int) = ((r % length : Nat) : Int) := by
    rw [Int.tmod_eq_emod (by omega) (by omega)]; norm_cast
  unfold listAt
  rw [if_neg (by omega), e, if_neg (by omega), Int.toNat_ofNat]

end Engine


section Engine

variable {F D : Type}

theorem applyPoint_voltageLimit (p : Platform F D) (t i : Nat) (s : State F D) {v : F}
    (hv : listAt (s.g_channelsLists i).voltageList (s.g_execution i).it
      (s.g_channelsLists i).voltageListLength = some v)
    (h1 : p.gt v (p.getULimit s.dispatcher (Channel.get i)) = true) :
    applyPoint p t i s =
      .ret (abort p (s.emit (.generateError .SCPI_ERROR_VOLTAGE_LIMIT_EXCEEDED))) := by
  simp [applyPoint, hv, h1]

theorem applyPoint_voltagePower (p : Platform F D) (t i : Nat) (s : State F D) {v : F}
    (hv : listAt (s.g_channelsLists i).voltageList (s.g_execution i).it
      (s.g_channelsLists i).voltageListLength = some v)
    (h1 : p.gt v (p.getULimit s.dispatcher (Channel.get i)) = false)
    (h2 : p.gt (p.mul v (p.getISet s.dispatcher (Channel.get i)))
      (p.getPowerLimit s.dispatcher (Channel.get i)) = true) :
    applyPoint p t i s =
      .ret (abort p (s.emit (.generateError .SCPI_ERROR_POWER_LIMIT_EXCEEDED))) := by
  simp [applyPoint, hv, h1, h2]

theorem applyPoint_currentLimit (p : Platform F D) (t i : Nat) (s : State F D) {v c : F}
    (hv : listAt (s.g_channelsLists i).voltageList (s.g_execution i).it
      (s.g_channelsLists i).voltageListLength = some v)
    (hc : listAt (s.g_channelsLists i).currentList (s.g_execution i).it
      (s.g_channelsLists i).currentListLength = some c)
    (h1 : p.gt v (p.getULimit s.dispatcher (Channel.get i)) = false)
    (h2 : p.gt (p.mul v (p.getISet s.dispatcher (Channel.get i)))
      (p.getPowerLimit s.dispatcher (Channel.get i)) = false)
    (h3 : p.gt c (p.getILimit (voltageApplied p i s v).dispatcher (Channel.get i)) = true) :
    applyPoint p t i s =
      .ret (abort p ((voltageApplied p i s v).emit
        (.generateError .SCPI_ERROR_CURRENT_LIMIT_EXCEEDED))) := by
  simp only [voltageApplied] at h3
  simp [applyPoint, hv, hc, h1, h2, h3, voltageApplied]

theorem applyPoint_currentPower (p : Platform F D) (t i : Nat) (s : State F D) {v c : F}
    (hv : listAt (s.g_channelsLists i).voltageList (s.g_execution i).it
      (s.g_channelsLists i).voltageListLength = some v)
    (hc : listAt (s.g_channelsLists i).currentList (s.g_execution i).it
      (s.g_channelsLists i).currentListLength = some c)
    (h1 : p.gt v (p.getULimit s.dispatcher (Channel.get i)) = false)
    (h2 : p.gt (p.mul v (p.getISet s.dispatcher (Channel.get i)))
      (p.getPowerLimit s.dispatcher (Channel.get i)) = false)
    (h3 : p.gt c (p.getILimit (voltageApplied p i s v).dispatcher (Channel.get i)) = false)
    (h4 : p.gt (p.mul c (p.getUSet (voltageApplied p i s v).dispatcher (Channel.get i)))
      (p.getPowerLimit (voltageApplied p i s v).dispatcher (Channel.get i)) = true) :
    applyPoint p t i s =
      .ret (abort p ((voltageApplied p i s v).emit
        (.generateError .SCPI_ERROR_POWER_LIMIT_EXCEEDED))) := by
  simp only [voltageApplied] at h3 h4
  simp [applyPoint, hv, hc, h1, h2, h3, h4, voltageApplied]

theorem applyPoint_ok (p : Platform F D) (t i : Nat) (s : State F D) {v c d : F}
    (hv : listAt (s.g_channelsLists i).voltageList (s.g_execution i).it
      (s.g_channelsLists i).voltageListLength = some v)
    (hc : listAt (s.g_channelsLists i).currentList (s.g_execution i).it
      (s.g_channelsLists i).currentListLength = some c)
    (hd : listAt (s.g_channelsLists i).dwellList (s.g_execution i).it
      (s.g_channelsLists i).dwellListLength = some d)
    (h1 : p.gt v (p.getULimit s.dispatcher (Channel.get i)) = false)
    (h2 : p.gt (p.mul v (p.getISet s.dispatcher (Channel.get i)))
      (p.getPowerLimit s.dispatcher (Channel.get i)) = false)
    (h3 : p.gt c (p.getILimit (voltageApplied p i s v).dispatcher (Channel.get i)) = false)
    (h4 : p.gt (p.mul c (p.getUSet (voltageApplied p i s v).dispatcher (Channel.get i)))
      (p.getPowerLimit (voltageApplied p i s v).dispatcher (Channel.get i)) = false) :
    applyPoint p t i s = .next (pointApplied p t i s v c d) := by
  simp only [voltageApplied] at h3 h4
  simp [applyPoint, hv, hc, hd, h1, h2, h3, h4, voltageApplied, pointApplied]

/-- Shape of the result of `applyPoint` when the three reads are defined:
either the point is applied, or an error is reported after at most the voltage
has been applied and every channel is aborted. -/
theorem applyPoint_cases (p : Platform F D) (t i : Nat) (s : State F D) {v c d : F}
    (hv : listAt (s.g_channelsLists i).voltageList (s.g_execution i).it
      (s.g_channelsLists i).voltageListLength = some v)
    (hc : listAt (s.g_channelsLists i).currentList (s.g_execution i).it
      (s.g_channelsLists i).currentListLength = some c)
    (hd : listAt (s.g_channelsLists i).dwellList (s.g_execution i).it
      (s.g_channelsLists i).dwellListLength = some d) :
    applyPoint p t i s = .next (pointApplied p t i s v c d) ∨
    (∃ code, applyPoint p t i s = .ret (abort p (s.emit (.generateError code)))) ∨
    (∃ code, applyPoint p t i s =
      .ret (abort p ((voltageApplied p i s v).emit (.generateError code)))) := by
  cases h1 : p.gt v (p.getULimit s.dispatcher (Channel.get i))
  · cases h2 : p.gt (p.mul v (p.getISet s.dispatcher (Channel.get i)))
        (p.getPowerLimit s.dispatcher (Channel.get i))
    · cases h3 : p.gt c (p.getILimit (voltageApplied p i s v).dispatcher (Channel.get i))
      · cases h4 : p.gt (p.mul c (p.getUSet (voltageApplied p i s v).dispatcher (Channel.get i)))
            (p.getPowerLimit (voltageApplied p i s v).dispatcher (Channel.get i))
        · exact Or.inl (applyPoint_ok p t i s hv hc hd h1 h2 h3 h4)
        · exact Or.inr (Or.inr ⟨_, applyPoint_currentPower p t i s hv hc h1 h2 h3 h4⟩)
      · exact Or.inr (Or.inr ⟨_, applyPoint_currentLimit p t i s hv hc h1 h2 h3⟩)
    · exact Or.inr (Or.inl ⟨_, applyPoint_voltagePower p t i s hv h1 h2⟩)
  · exact Or.inr (Or.inl ⟨_, applyPoint_voltageLimit p t i s hv h1⟩)

end Engine


section Engine

variable {F D : Type}

/-- What a normal end of `applyPoint` leaves unchanged. -/
theorem applyPoint_next_frame (p : Platform F D) (t i : Nat) (s s' : State F D)
    (h : applyPoint p t i s = .next s') :
    s'.g_channelsLists = s.g_channelsLists ∧
    (∀ j, j ≠ i → s'.g_execution j = s.g_execution j) ∧
    (s'.g_execution i).counter = (s.g_execution i).counter ∧
    (s'.g_execution i).it = (s.g_execution i).it ∧
    s'.g_active = s.g_active ∧
    ∃ v c, s'.log = s.log ++ [.setVoltage (Channel.get i) v, .setCurrent (Channel.get i) c] := by
  rcases hv : listAt (s.g_channelsLists i).voltageList (s.g_execution i).it
      (s.g_channelsLists i).voltageListLength with _ | v
  · simp [applyPoint, hv] at h
  rcases hc : listAt (s.g_channelsLists i).currentList (s.g_execution i).it
      (s.g_channelsLists i).currentListLength with _ | c
  · simp only [applyPoint, hv] at h
    split_ifs at h
    simp [State.emit, hc] at h
  rcases hd : listAt (s.g_channelsLists i).dwellList (s.g_execution i).it
      (s.g_channelsLists i).dwellListLength with _ | d
  · simp only [applyPoint, hv] at h
    split_ifs at h
    simp only [State.emit, hc] at h
    split_ifs at h
    simp [hd] at h
  rcases applyPoint_cases p t i s hv hc hd with h' | ⟨code, h'⟩ | ⟨code, h'⟩
  · rw [h'] at h
    cases h
    refine ⟨rfl, ?_, ?_, ?_, rfl, v, c, ?_⟩
    · intro j hj
      simp [pointApplied, voltageApplied, State.setExecution, hj]
    · simp [pointApplied, voltageApplied]
    · simp [pointApplied, voltageApplied]
    · simp [pointApplied, voltageApplied]
  · rw [h'] at h; cases h
  · rw [h'] at h; cases h

end Engine


/-! ### The loop over the channels -/

section Engine

variable {F D : Type}

theorem tickChannel_idle (p : Platform F D) (t i : Nat) (s : State F D)
    (h : (s.g_execution i).counter < 0) : tickChannel p t i s = .next s := by
  simp [tickChannel, not_le.mpr h]

theorem tickChannel_notDue (p : Platform F D) (t i : Nat) (s : State F D)
    (h : 0 ≤ (s.g_execution i).counter) (hd : isDue (s.g_execution i) t = false) :
    tickChannel p t i s = .next (s.setActive true) := by
  simp [tickChannel, h, hd]

theorem tickChannel_due (p : Platform F D) (t i : Nat) (s : State F D)
    (h : 0 ≤ (s.g_execution i).counter) (hd : isDue (s.g_execution i) t = true) :
    tickChannel p t i s = stepChannel p t i (s.setActive true) := by
  simp [tickChannel, h, hd]

theorem tickLoop_idle (p : Platform F D) (t : Nat) :
    ∀ (n i : Nat) (s : State F D),
      (∀ j, i ≤ j → j < i + n → (s.g_execution j).counter < 0) →
      tickLoop p t n i s = .next s
  | 0, _, _, _ => rfl
  | n + 1, i, s, h => by
    rw [tickLoop, tickChannel_idle p t i s (h i (le_refl i) (by omega))]
    exact tickLoop_idle p t n (i + 1) s (fun j h1 h2 => h j (by omega) (by omega))

theorem tickLoop_add (p : Platform F D) (t : Nat) :
    ∀ (a b i : Nat) (s : State F D),
      tickLoop p t (a + b) i s =
        match tickLoop p t a i s with
        | .next s' => tickLoop p t b (i + a) s'
        | .ret s' => .ret s'
        | .undefined => .undefined
  | 0, b, i, s => by simp [tickLoop]
  | a + 1, b, i, s => by
    have e : a + 1 + b = (a + b) + 1 := by omega
    rw [e, tickLoop, tickLoop]
    cases h : tickChannel p t i s with
    | next s' =>
      simp only []
      rw [tickLoop_add p t a b (i + 1) s']
      have e2 : i + 1 + a = i + (a + 1) := by omega
      rw [e2]
    | ret s' => rfl
    | undefined => rfl

/-- The loop seen from channel `i`: the channels before it, then its own
body, then the channels after it. -/
theorem tickLoop_at (p : Platform F D) (t i : Nat) (s : State F D) (hi : i < p.CH_NUM) :
    tickLoop p t p.CH_NUM 0 s =
      match tickLoop p t i 0 s with
      | .next s1 =>
        match tickChannel p t i s1 with
        | .next s2 => tickLoop p t (p.CH_NUM - i - 1) (i + 1) s2
        | .ret s2 => .ret s2
        | .undefined => .undefined
      | .ret s1 => .ret s1
      | .undefined => .undefined := by
  have e : p.CH_NUM = i + ((p.CH_NUM - i - 1) + 1) := by omega
  conv_lhs => rw [e, tickLoop_add]
  cases tickLoop p t i 0 s with
  | next s1 => simp [tickLoop]
  | ret s1 => rfl
  | undefined => rfl

end Engine


/-! ### A due step, case by case -/

section Engine

variable {F D : Type}

/-- A due step inside a cycle: the index advances by one. -/
theorem stepChannel_advance (p : Platform F D) (t i : Nat) (s : State F D)
    (h1 : -1 ≤ (s.g_execution i).it)
    (h2 : (s.g_execution i).it + 1 < (maxListsSize s (Channel.get i) : Int))
    (h3 : maxListsSize s (Channel.get i) ≤ 32767) :
    stepChannel p t i s =
      applyPoint p t i (s.setExecution i
        { s.g_execution i with it := (s.g_execution i).it + 1 }) := by
  have hw : wrapInt16 ((s.g_execution i).it + 1) = (s.g_execution i).it + 1 := by
    unfold wrapInt16; omega
  have hm : ∀ e, maxListsSize (s.setExecution i e) (Channel.get i) =
      maxListsSize s (Channel.get i) := fun _ => rfl
  simp only [stepChannel, advanceStep, State.setExecution_same, hm, hw]
  rw [if_neg (by omega)]

/-- A due step at the end of a cycle that is not the last one: the counter is
decremented when it is positive and the index goes back to 0. -/
theorem stepChannel_wrap (p : Platform F D) (t i : Nat) (s : State F D)
    (h1 : (s.g_execution i).it + 1 = (maxListsSize s (Channel.get i) : Int))
    (h3 : maxListsSize s (Channel.get i) ≤ 32767)
    (hc : (s.g_execution i).counter ≠ 1) :
    stepChannel p t i s =
      applyPoint p t i (s.setExecution i
        { s.g_execution i with
          it := 0
          counter := if (s.g_execution i).counter > 0 then (s.g_execution i).counter - 1
            else (s.g_execution i).counter }) := by
  have hw : wrapInt16 ((s.g_execution i).it + 1) = (s.g_execution i).it + 1 := by
    unfold wrapInt16; omega
  have hm : ∀ e, maxListsSize (s.setExecution i e) (Channel.get i) =
      maxListsSize s (Channel.get i) := fun _ => rfl
  simp only [stepChannel, advanceStep, State.setExecution_same, hm, hw]
  rw [if_pos h1]
  by_cases hpos : (s.g_execution i).counter > 0
  · rw [if_pos hpos, if_neg (by omega), if_pos hpos]
    simp
  · rw [if_neg hpos, if_neg hpos]
    simp

/-- A due step at the end of the last cycle: the run ends. -/
theorem stepChannel_finish (p : Platform F D) (t i : Nat) (s : State F D)
    (h1 : (s.g_execution i).it + 1 = (maxListsSize s (Channel.get i) : Int))
    (h3 : maxListsSize s (Channel.get i) ≤ 32767)
    (hc : (s.g_execution i).counter = 1) :
    stepChannel p t i s =
      .ret ((s.setExecution i
        { s.g_execution i with
          it := (s.g_execution i).it + 1
          counter := -1 }).emit (.setTriggerFinished (Channel.get i))) := by
  have hw : wrapInt16 ((s.g_execution i).it + 1) = (s.g_execution i).it + 1 := by
    unfold wrapInt16; omega
  have hm : ∀ e, maxListsSize (s.setExecution i e) (Channel.get i) =
      maxListsSize s (Channel.get i) := fun _ => rfl
  simp only [stepChannel, advanceStep, State.setExecution_same, hm, hw]
  rw [if_pos h1, if_pos (by omega), if_pos (by omega)]
  simp

end Engine


/-! ### What one channel's step leaves unchanged -/

section Engine

variable {F D : Type}

/-- What a due step that does not return leaves unchanged, and how it moves
the counter and the step index. -/
theorem stepChannel_next_frame (p : Platform F D) (t i : Nat) (s s' : State F D)
    (h : stepChannel p t i s = .next s') :
    s'.g_channelsLists = s.g_channelsLists ∧
    (∀ j, j ≠ i → s'.g_execution j = s.g_execution j) ∧
    s'.g_active = s.g_active ∧
    (∃ v c, s'.log = s.log ++ [.setVoltage (Channel.get i) v, .setCurrent (Channel.get i) c]) ∧
    ((s'.g_execution i).counter = (s.g_execution i).counter ∨
      (1 < (s.g_execution i).counter ∧
        (s'.g_execution i).counter = (s.g_execution i).counter - 1)) ∧
    (((s'.g_execution i).it = wrapInt16 ((s.g_execution i).it + 1) ∧
        (s'.g_execution i).it ≠ (maxListsSize s (Channel.get i) : Int)) ∨
      ((s'.g_execution i).it = 0 ∧
        wrapInt16 ((s.g_execution i).it + 1) = (maxListsSize s (Channel.get i) : Int))) := by
  have hm : ∀ e, maxListsSize (s.setExecution i e) (Channel.get i) =
      maxListsSize s (Channel.get i) := fun _ => rfl
  simp only [stepChannel, advanceStep, State.setExecution_same, hm,
    State.setExecution_setExecution] at h
  split_ifs at h with h1 h2 h3
  · obtain ⟨a1, a2, a3, a4, a5, a6⟩ := applyPoint_next_frame p t i _ _ h
    simp only [State.setExecution_same, State.setExecution_lists, State.setExecution_active,
      State.setExecution_log] at a1 a3 a4 a5 a6
    refine ⟨a1, ?_, a5, a6, Or.inr ⟨by omega, a3⟩, Or.inr ⟨a4, h1⟩⟩
    intro j hj
    rw [a2 j hj, State.setExecution_other _ _ hj]
  · obtain ⟨a1, a2, a3, a4, a5, a6⟩ := applyPoint_next_frame p t i _ _ h
    simp only [State.setExecution_same, State.setExecution_lists, State.setExecution_active,
      State.setExecution_log] at a1 a3 a4 a5 a6
    refine ⟨a1, ?_, a5, a6, Or.inl a3, Or.inr ⟨a4, h1⟩⟩
    intro j hj
    rw [a2 j hj, State.setExecution_other _ _ hj]
  · obtain ⟨a1, a2, a3, a4, a5, a6⟩ := applyPoint_next_frame p t i _ _ h
    simp only [State.setExecution_same, State.setExecution_lists, State.setExecution_active,
      State.setExecution_log] at a1 a3 a4 a5 a6
    refine ⟨a1, ?_, a5, a6, Or.inl a3, Or.inl ⟨a4, ?_⟩⟩
    · intro j hj
      rw [a2 j hj, State.setExecution_other _ _ hj]
    · rw [a4]; exact h1

/-- What the body of the loop, when it does not return, leaves unchanged. -/
theorem tickChannel_next_frame (p : Platform F D) (t i : Nat) (s s' : State F D)
    (h : tickChannel p t i s = .next s') :
    s'.g_channelsLists = s.g_channelsLists ∧
    (∀ j, j ≠ i → s'.g_execution j = s.g_execution j) ∧
    ((s.g_execution i).counter < 0 → s' = s) ∧
    (0 ≤ (s.g_execution i).counter → s'.g_active = true) ∧
    (s'.log = s.log ∨
      ∃ v c, s'.log = s.log ++ [.setVoltage (Channel.get i) v, .setCurrent (Channel.get i) c]) := by
  by_cases hc : (s.g_execution i).counter < 0
  · rw [tickChannel_idle p t i s hc] at h
    cases h
    exact ⟨rfl, fun _ _ => rfl, fun _ => rfl, fun h0 => absurd hc (not_lt.mpr h0), Or.inl rfl⟩
  · have hc' : 0 ≤ (s.g_execution i).counter := not_lt.mp hc
    cases hd : isDue (s.g_execution i) t
    · rw [tickChannel_notDue p t i s hc' hd] at h
      cases h
      exact ⟨rfl, fun _ _ => rfl, fun h0 => absurd h0 hc, fun _ => rfl, Or.inl rfl⟩
    · rw [tickChannel_due p t i s hc' hd] at h
      obtain ⟨a1, a2, a3, a4, _, _⟩ := stepChannel_next_frame p t i _ _ h
      exact ⟨a1, a2, fun h0 => absurd h0 hc, fun _ => a3, Or.inr a4⟩

/-- A tick in which only channel `i` can be active is the body of the loop for
channel `i`. -/
theorem tick_single (p : Platform F D) (t i : Nat) (s : State F D) (hi : i < p.CH_NUM)
    (hidle : ∀ j, j < p.CH_NUM → j ≠ i → (s.g_execution j).counter < 0) :
    tick p t s = (tickChannel p t i (s.setActive false)).result := by
  unfold tick
  rw [tickLoop_at p t i _ hi, tickLoop_idle p t i 0 (s.setActive false)
    (fun j _ h2 => hidle j (by omega) (by omega))]
  simp only []
  cases h : tickChannel p t i (s.setActive false) with
  | next s2 =>
    simp only []
    obtain ⟨_, a2, _⟩ := tickChannel_next_frame p t i _ _ h
    rw [tickLoop_idle p t _ _ s2]
    intro j h1 h2
    rw [a2 j (by omega)]
    exact hidle j (by omega) (by omega)
  | ret s2 => rfl
  | undefined => rfl

end Engine


/-! ### A run of one channel alone -/

section Engine

variable {F D : Type}

theorem expectedLog_succ_of_lt (l : ChannelLists F) (i n span k : Nat) (h : k < n * span) :
    expectedLog l i n span (k + 1) = expectedLog l i n span k ++ pointEvents l i span k := by
  unfold expectedLog
  have e1 : min (k + 1) (n * span) = k + 1 := by omega
  have e2 : min k (n * span) = k := by omega
  rw [e1, e2, if_neg (by omega), if_neg (by omega), List.range_succ, List.flatMap_append]
  simp

theorem expectedLog_succ_of_eq (l : ChannelLists F) (i n span k : Nat) (h : k = n * span) :
    expectedLog l i n span (k + 1) =
      expectedLog l i n span k ++ [.setTriggerFinished (Channel.get i)] := by
  unfold expectedLog
  have e1 : min (k + 1) (n * span) = n * span := by omega
  have e2 : min k (n * span) = n * span := by omega
  rw [e1, e2, if_pos (by omega), if_neg (by omega)]
  simp

theorem expectedLog_succ_of_gt (l : ChannelLists F) (i n span k : Nat) (h : n * span < k) :
    expectedLog l i n span (k + 1) = expectedLog l i n span k := by
  unfold expectedLog
  have e1 : min (k + 1) (n * span) = n * span := by omega
  have e2 : min k (n * span) = n * span := by omega
  rw [e1, e2, if_pos (by omega), if_pos (by omega)]

/-- The outcome of `applyPoint` at step index `r` of non-empty lists: the
point of index `r` is applied, or an error is reported and the body returns. -/
theorem applyPoint_at (p : Platform F D) (t i : Nat) (s : State F D) (r : Nat)
    (hit : (s.g_execution i).it = (r : Int))
    (hv : 0 < (s.g_channelsLists i).voltageListLength)
    (hc : 0 < (s.g_channelsLists i).currentListLength)
    (hd : 0 < (s.g_channelsLists i).dwellListLength) :
    (∃ s', applyPoint p t i s = .next s' ∧
      s'.g_channelsLists = s.g_channelsLists ∧
      (∀ j, j ≠ i → s'.g_execution j = s.g_execution j) ∧
      (s'.g_execution i).it = (r : Int) ∧
      (s'.g_execution i).counter = (s.g_execution i).counter ∧
      (s'.g_execution i).nextPointTime = addUInt32 t (p.toUsec
        ((s.g_channelsLists i).dwellList (r % (s.g_channelsLists i).dwellListLength))
          % 4294967296) ∧
      s'.g_active = s.g_active ∧
      s'.log = s.log ++
        [.setVoltage (Channel.get i)
          ((s.g_channelsLists i).voltageList (r % (s.g_channelsLists i).voltageListLength)),
         .setCurrent (Channel.get i)
          ((s.g_channelsLists i).currentList (r % (s.g_channelsLists i).currentListLength))]) ∨
    (∃ s' pre code, applyPoint p t i s = .ret s' ∧
      s'.log = s.log ++ pre ++ [.generateError code]) := by
  have hv' := listAt_natCast (s.g_channelsLists i).voltageList r _ hv
  have hc' := listAt_natCast (s.g_channelsLists i).currentList r _ hc
  have hd' := listAt_natCast (s.g_channelsLists i).dwellList r _ hd
  rw [← hit] at hv' hc' hd'
  rcases applyPoint_cases p t i s hv' hc' hd' with h | ⟨code, h⟩ | ⟨code, h⟩
  · refine Or.inl ⟨_, h, rfl, ?_, ?_, ?_, ?_, rfl, ?_⟩
    · intro j hj
      simp [pointApplied, voltageApplied, State.setExecution, hj]
    · simp [pointApplied, voltageApplied, hit]
    · simp [pointApplied, voltageApplied]
    · simp [pointApplied, voltageApplied]
    · simp [pointApplied, voltageApplied]
  · exact Or.inr ⟨_, [], code, h, by simp⟩
  · exact Or.inr ⟨_, [.setVoltage (Channel.get i)
      ((s.g_channelsLists i).voltageList (r % (s.g_channelsLists i).voltageListLength))],
      code, h, by simp [voltageApplied]⟩

end Engine


section Engine

variable {F D : Type}

theorem succ_div_mod_of_lt (m S : Nat) (h : m % S + 1 < S) :
    (m + 1) % S = m % S + 1 ∧ (m + 1) / S = m / S := by
  have hS : 0 < S := by omega
  have e : m + 1 = S * (m / S) + (m % S + 1) := by
    have := Nat.div_add_mod m S
    omega
  constructor
  · rw [e, Nat.mul_add_mod, Nat.mod_eq_of_lt h]
  · rw [e, Nat.mul_add_div hS, Nat.div_eq_of_lt h, Nat.add_zero]

theorem succ_div_mod_of_eq (m S : Nat) (h : m % S + 1 = S) :
    (m + 1) % S = 0 ∧ (m + 1) / S = m / S + 1 := by
  have hS : 0 < S := by omega
  have e : m + 1 = S * (m / S + 1) := by
    have := Nat.div_add_mod m S
    rw [Nat.mul_add, Nat.mul_one]
    omega
  constructor
  · rw [e]; exact Nat.mul_mod_right _ _
  · rw [e]; exact Nat.mul_div_cancel_left _ hS

/-- The part common to every tick of a single-channel run that applies a
point: the bookkeeping of the step leaves channel `i` at index `k % span` with
`n - k / span` cycles to go, and `applyPoint` follows. -/
theorem SingleRun.tick_apply (p : Platform F D) (i n span : Nat) (log0 : List (Event F))
    (l : ChannelLists F) (k : Nat) (s : State F D) (t : Nat) (e2 : Execution)
    (hi : i < p.CH_NUM) (hv : 0 < l.voltageListLength) (hc : 0 < l.currentListLength)
    (hd : 0 < l.dwellListLength)
    (h : SingleRun p i n span log0 l k s)
    (hk : k < n * span) (he : e2.it = ((k % span : Nat) : Int))
    (hcnt : e2.counter = (n : Int) - ((k / span : Nat) : Int))
    (hstep : tickChannel p t i (s.setActive false) =
      applyPoint p t i (((s.setActive false).setActive true).setExecution i e2)) :
    ∃ s1, tick p t s = some s1 ∧
      ((SingleRun p i n span log0 l (k + 1) s1 ∧ s1.g_active = true ∧
          (s1.g_execution i).nextPointTime = addUInt32 t
            (p.toUsec (l.dwellList ((k % span) % l.dwellListLength)) % 4294967296)) ∨
        ∃ X ev, s1.log = log0 ++ X ∧ ev ∈ X ∧ ev.isError = true) := by
  rw [tick_single p t i s hi h.idle, hstep]
  have hl : (((s.setActive false).setActive true).setExecution i e2).g_channelsLists i = l := by
    simpa using h.lists_eq
  rcases applyPoint_at p t i (((s.setActive false).setActive true).setExecution i e2)
      (k % span) (by simpa using he) (by rw [hl]; exact hv) (by rw [hl]; exact hc)
      (by rw [hl]; exact hd) with
    ⟨s1, h1, a1, a2, a3, a4, a5, a6, a7⟩ | ⟨s1, pre, code, h1, a1⟩
  · refine ⟨s1, by rw [h1]; rfl, Or.inl ⟨⟨?_, ?_, ?_, ?_, ?_, ?_⟩, ?_, ?_⟩⟩
    · rw [a1]; exact hl
    · intro j hj hne
      rw [a2 j hne, State.setExecution_other _ _ hne]
      exact h.idle j hj hne
    · rw [a7, hl, expectedLog_succ_of_lt l i n span k hk, ← List.append_assoc]
      simp [h.log_eq, pointEvents]
    · intro h0; omega
    · intro _ _
      simp only [Nat.add_sub_cancel]
      rw [a3, a4]
      simpa using hcnt
    · intro h0; omega
    · rw [a6]; rfl
    · rw [a5, hl]
  · refine ⟨s1, by rw [h1]; rfl, Or.inr ⟨expectedLog l i n span k ++ pre ++ [.generateError code],
      .generateError code, ?_, by simp, rfl⟩⟩
    rw [a1]
    simp [h.log_eq]

end Engine


section Engine

variable {F D : Type}

/-- One tick of a single-channel run: the description of the state moves from
`k` to `k + 1` ticks, unless an error is reported. The active flag after the
tick tells whether the channel was active when the tick began. -/
theorem SingleRun.tick_step (p : Platform F D) (i n span : Nat) (log0 : List (Event F))
    (l : ChannelLists F) (k : Nat) (s : State F D) (t : Nat)
    (hi : i < p.CH_NUM) (hv : 0 < l.voltageListLength) (hc : 0 < l.currentListLength)
    (hd : 0 < l.dwellListLength)
    (hspan : span = max l.voltageListLength (max l.currentListLength l.dwellListLength))
    (hs : span ≤ 32767) (hn : 1 ≤ n)
    (h : SingleRun p i n span log0 l k s)
    (hdue : 0 ≤ (s.g_execution i).counter → isDue (s.g_execution i) t = true) :
    ∃ s1, tick p t s = some s1 ∧
      ((SingleRun p i n span log0 l (k + 1) s1 ∧ s1.g_active = decide (k ≤ n * span) ∧
          (k < n * span → (s1.g_execution i).nextPointTime = addUInt32 t
            (p.toUsec (l.dwellList ((k % span) % l.dwellListLength)) % 4294967296))) ∨
        ∃ X ev, s1.log = log0 ++ X ∧ ev ∈ X ∧ ev.isError = true) := by
  have hS : 0 < span := by omega
  have hnS : 0 < n * span := Nat.mul_pos hn hS
  have hms : maxListsSize ((s.setActive false).setActive true) (Channel.get i) = span := by
    rw [maxListsSize_eq, hspan]
    simp [h.lists_eq]
  rcases Nat.lt_or_ge (n * span) k with hk | hk
  · -- the run is over
    have hcnt := h.finished hk
    refine ⟨s.setActive false, ?_, Or.inl ⟨⟨h.lists_eq, h.idle, ?_, ?_, ?_, ?_⟩, ?_,
      fun h0 => absurd h0 (by omega)⟩⟩
    · rw [tick_single p t i s hi h.idle, tickChannel_idle]
      · rfl
      · simp [hcnt]
    · rw [expectedLog_succ_of_gt l i n span k hk]; exact h.log_eq
    · intro h0; omega
    · intro _ h0; omega
    · intro _; exact hcnt
    · simp; omega
  have hdec : decide (k ≤ n * span) = true := by simpa using hk
  rw [hdec]
  rcases Nat.eq_zero_or_pos k with hk0 | hk0
  · -- first tick after the start
    subst hk0
    obtain ⟨hit, hcnt⟩ := h.start rfl
    have hc0 : 0 ≤ (s.g_execution i).counter := by omega
    have hstep := tickChannel_due p t i (s.setActive false) hc0 (hdue hc0)
    rw [stepChannel_advance p t i _ (by simp [hit]) (by rw [hms]; simp [hit]; omega)
      (by rw [hms]; exact hs)] at hstep
    obtain ⟨s1, b1, b2⟩ := SingleRun.tick_apply p i n span log0 l 0 s t _ hi hv hc hd h hnS
      (by simp [hit]) (by simp [hcnt]) hstep
    exact ⟨s1, b1, b2.imp (fun b => ⟨b.1, b.2.1, fun _ => b.2.2⟩) id⟩
  · obtain ⟨hit, hcnt⟩ := h.running hk0 hk
    obtain ⟨m, rfl⟩ : ∃ m, k = m + 1 := ⟨k - 1, by omega⟩
    simp only [Nat.add_sub_cancel] at hit hcnt
    have hq : m / span < n := (Nat.div_lt_iff_lt_mul hS).mpr (by omega)
    have hr : m % span < span := Nat.mod_lt _ hS
    have hc0 : 0 ≤ (s.g_execution i).counter := by omega
    have hstep := tickChannel_due p t i (s.setActive false) hc0 (hdue hc0)
    rcases Nat.lt_or_ge (m % span + 1) span with hlt | hge
    · -- inside a cycle
      obtain ⟨e1, e2⟩ := succ_div_mod_of_lt m span hlt
      have hlt' : m + 1 < n * span := (Nat.div_lt_iff_lt_mul hS).mp (by omega)
      rw [stepChannel_advance p t i _ (by simp [hit]; omega) (by rw [hms]; simp [hit]; omega)
        (by rw [hms]; exact hs)] at hstep
      obtain ⟨s1, b1, b2⟩ := SingleRun.tick_apply p i n span log0 l (m + 1) s t _ hi hv hc hd h
        hlt' (by simp [hit, e1]) (by simp [hcnt, e2]) hstep
      exact ⟨s1, b1, b2.imp (fun b => ⟨b.1, b.2.1, fun _ => b.2.2⟩) id⟩
    · -- end of a cycle
      have heq : m % span + 1 = span := by omega
      obtain ⟨e1, e2⟩ := succ_div_mod_of_eq m span heq
      have hend : ((((s.setActive false).setActive true).g_execution i).it + 1 : Int) =
          (maxListsSize ((s.setActive false).setActive true) (Channel.get i) : Int) := by
        rw [hms]; simp only [State.setActive_execution, hit]; omega
      by_cases hlast : (s.g_execution i).counter = 1
      · -- end of the last cycle
        have hkn : m + 1 = n * span := by
          have h1 : m / span + 1 = n := by omega
          have h2 := Nat.div_add_mod m span
          rw [← h1, Nat.add_mul, Nat.one_mul, Nat.mul_comm]
          omega
        rw [stepChannel_finish p t i _ hend (by rw [hms]; exact hs) (by simpa using hlast)]
          at hstep
        refine ⟨_, by rw [tick_single p t i s hi h.idle, hstep]; rfl,
          Or.inl ⟨⟨?_, ?_, ?_, ?_, ?_, ?_⟩, ?_, fun h0 => absurd h0 (by omega)⟩⟩
        · simpa using h.lists_eq
        · intro j hj hne
          simp only [State.emit_execution]
          rw [State.setExecution_other _ _ hne]
          exact h.idle j hj hne
        · rw [expectedLog_succ_of_eq l i n span (m + 1) hkn, ← List.append_assoc]
          simp [h.log_eq]
        · intro h0; omega
        · intro _ h0; omega
        · intro _; simp
        · simp
      · -- end of a cycle that is not the last one
        have hlt' : m + 1 < n * span := (Nat.div_lt_iff_lt_mul hS).mp (by omega)
        rw [stepChannel_wrap p t i _ hend (by rw [hms]; exact hs) (by simpa using hlast)]
          at hstep
        obtain ⟨s1, b1, b2⟩ := SingleRun.tick_apply p i n span log0 l (m + 1) s t _ hi hv hc hd h
          hlt' (by simp [e1]) (by
            simp only [State.setActive_execution]
            rw [if_pos (by omega), hcnt, e2]
            push_cast
            omega) hstep
        exact ⟨s1, b1, b2.imp (fun b => ⟨b.1, b.2.1, fun _ => b.2.2⟩) id⟩

end Engine


section Engine

variable {F D : Type}

theorem runTicks_cons (p : Platform F D) (s s1 : State F D) (t : Nat) (ts : List Nat)
    (h : tick p t s = some s1) : runTicks p s (t :: ts) = runTicks p s1 ts := by
  simp [runTicks, h]

/-- A run of one channel alone, tick after tick: as long as every tick is due
and no error is reported, the state after the ticks `ts` is the one described
by `SingleRun`. -/
theorem SingleRun.run (p : Platform F D) (i n span : Nat) (log0 : List (Event F))
    (l : ChannelLists F)
    (hi : i < p.CH_NUM) (hv : 0 < l.voltageListLength) (hc : 0 < l.currentListLength)
    (hd : 0 < l.dwellListLength)
    (hspan : span = max l.voltageListLength (max l.currentListLength l.dwellListLength))
    (hs : span ≤ 32767) (hn : 1 ≤ n) :
    ∀ (ts : List Nat) (k : Nat) (s : State F D), SingleRun p i n span log0 l k s →
      (∀ m (hm : m < ts.length) s', runTicks p s (ts.take m) = some s' →
        0 ≤ (s'.g_execution i).counter → isDue (s'.g_execution i) (ts.get ⟨m, hm⟩) = true) →
      (∀ m s' X, m ≤ ts.length → runTicks p s (ts.take m) = some s' → s'.log = log0 ++ X →
        ∀ ev ∈ X, ev.isError = false) →
      ∃ s', runTicks p s ts = some s' ∧ SingleRun p i n span log0 l (k + ts.length) s' ∧
        (ts ≠ [] → s'.g_active = decide (k + ts.length ≤ n * span + 1))
  | [], k, s, h, _, _ => ⟨s, rfl, h, fun h0 => absurd rfl h0⟩
  | t :: ts, k, s, h, hdue, hok => by
    obtain ⟨s1, h1, h2⟩ := SingleRun.tick_step p i n span log0 l k s t hi hv hc hd hspan hs hn h
      (hdue 0 (by simp) s rfl)
    rcases h2 with ⟨h2, hact, _⟩ | ⟨X, ev, hX, hev, herr⟩
    · obtain ⟨s', a1, a2, a3⟩ := SingleRun.run p i n span log0 l hi hv hc hd hspan hs hn ts (k + 1) s1 h2
        (fun m hm s' hr => by
          have := hdue (m + 1) (by simpa using hm) s' (by
            rw [List.take_succ_cons, runTicks_cons p s s1 t _ h1]; exact hr)
          simpa using this)
        (fun m s' X hm hr => hok (m + 1) s' X (by simpa using hm) (by
            rw [List.take_succ_cons, runTicks_cons p s s1 t _ h1]; exact hr))
      refine ⟨s', by rw [runTicks_cons p s s1 t ts h1]; exact a1, ?_, ?_⟩
      · have e : k + (t :: ts).length = k + 1 + ts.length := by simp; omega
        rw [e]; exact a2
      · intro _
        by_cases hts : ts = []
        · subst hts
          simp only [runTicks, Option.some.injEq] at a1
          subst a1
          rw [hact]; simp
        · rw [a3 hts]
          have e : k + (t :: ts).length = k + 1 + ts.length := by simp; omega
          rw [e]
    · have := hok 1 s1 X (by simp) (by simp [runTicks, h1]) hX ev hev
      rw [this] at herr
      cases herr

end Engine


section Engine

variable {F D : Type}

/-- C7: the repeat count is the number of full cycles executed. Channel `i`
has three non-empty lists whose longest length `span` fits the 16-bit step
index, and repeat count `n ≥ 1`; it is started and `tick` is called at the
times `ts`, every other channel being idle, every tick being due for the
channel while it is active, and no error being reported. Then the run is
defined and the calls made are exactly: for each of the first `n * span` ticks
one voltage and one current setpoint, the `k`-th tick (from 0) using step index
`k % span`; then, at tick number `n * span + 1`, one `setTriggerFinished` and
nothing afterwards. The counter is positive up to tick `n * span` and `-1` from
tick `n * span + 1` on. -/
theorem C7_repeat_count_is_number_of_cycles (p : Platform F D) (s0 : State F D) (i n : Nat)
    (ts : List Nat)
    (hi : i < p.CH_NUM)
    (hv : 0 < (s0.g_channelsLists i).voltageListLength)
    (hc : 0 < (s0.g_channelsLists i).currentListLength)
    (hd : 0 < (s0.g_channelsLists i).dwellListLength)
    (hs : maxListsSize s0 (Channel.get i) ≤ 32767)
    (hn : 1 ≤ n) (hcount : (s0.g_channelsLists i).count = n)
    (hidle : ∀ j, j < p.CH_NUM → j ≠ i → (s0.g_execution j).counter < 0)
    (hdue : ∀ m (hm : m < ts.length),
      ∀ s ∈ runTicks p (executionStart s0 (Channel.get i)) (ts.take m),
        0 ≤ (s.g_execution i).counter → isDue (s.g_execution i) (ts.get ⟨m, hm⟩) = true)
    (hok : ∀ m, m ≤ ts.length →
      ∀ s ∈ runTicks p (executionStart s0 (Channel.get i)) (ts.take m),
        ∀ ev ∈ s.log.drop s0.log.length, ev.isError = false) :
    ∃ s, runTicks p (executionStart s0 (Channel.get i)) ts = some s ∧
      s.log = s0.log ++
        (List.range (min ts.length (n * maxListsSize s0 (Channel.get i)))).flatMap (fun k =>
          [Event.setVoltage (Channel.get i) ((s0.g_channelsLists i).voltageList
              ((k % maxListsSize s0 (Channel.get i)) % (s0.g_channelsLists i).voltageListLength)),
           Event.setCurrent (Channel.get i) ((s0.g_channelsLists i).currentList
              ((k % maxListsSize s0 (Channel.get i)) % (s0.g_channelsLists i).currentListLength))])
        ++ (if n * maxListsSize s0 (Channel.get i) < ts.length
            then [Event.setTriggerFinished (Channel.get i)] else []) ∧
      (ts.length ≤ n * maxListsSize s0 (Channel.get i) → 0 < (s.g_execution i).counter) ∧
      (n * maxListsSize s0 (Channel.get i) < ts.length → (s.g_execution i).counter = -1) := by
  have hspan := maxListsSize_eq s0 i
  have hS : 0 < maxListsSize s0 (Channel.get i) := by omega
  have h0 : SingleRun p i n (maxListsSize s0 (Channel.get i)) s0.log (s0.g_channelsLists i) 0
      (executionStart s0 (Channel.get i)) := by
    refine ⟨rfl, ?_, ?_, ?_, ?_, ?_⟩
    · intro j hj hne
      simp only [executionStart, Channel.get_index_sub_one]
      rw [State.setExecution_other _ _ hne, State.setExecution_other _ _ hne]
      exact hidle j hj hne
    · simp [executionStart, expectedLog]
    · intro _
      simp [executionStart, hcount]
    · intro h1 _; omega
    · intro h1; omega
  obtain ⟨s, a1, a2, _⟩ := SingleRun.run p i n _ s0.log (s0.g_channelsLists i) hi hv hc hd
    hspan hs hn ts 0 _ h0
    (fun m hm s' hr => hdue m hm s' hr)
    (fun m s' X hm hr hX ev hev => hok m hm s' hr ev (by rw [hX, List.drop_left]; exact hev))
  refine ⟨s, a1, ?_, ?_, ?_⟩
  · rw [a2.log_eq, List.append_assoc, Nat.zero_add]
    rfl
  · intro hk
    simp only [Nat.zero_add] at a2
    rcases Nat.eq_zero_or_pos ts.length with h1 | h1
    · have := (a2.start h1).2
      omega
    · have := (a2.running h1 hk).2
      have hq : (ts.length - 1) / maxListsSize s0 (Channel.get i) < n :=
        (Nat.div_lt_iff_lt_mul hS).mpr (by omega)
      omega
  · intro hk
    exact a2.finished (by omega)

end Engine


/-! ### Ticks paced by the dwell times -/

section Engine

variable {F D : Type}

/-- The wrap-safe test of `tick`: `el` microseconds after a step with dwell
`dw` was applied, the channel is due exactly when `dw ≤ el`, as long as both
are below `2^31`, whatever the value of the 32-bit clock. -/
theorem isDue_elapsed (e : Execution) (t dw el : Nat) (hit : e.it ≠ -1)
    (hnpt : e.nextPointTime = addUInt32 t dw) (hdw : dw < 2147483648)
    (hel : el < 2147483648) :
    isDue e (addUInt32 t el) = decide (dw ≤ el) := by
  unfold isDue
  rw [if_neg hit, hnpt]
  congr 1
  unfold wrapInt32 subUInt32 addUInt32
  apply propext
  omega

theorem tickTimes_length (t0 : Nat) (es : List Nat) : (tickTimes t0 es).length = es.length + 1 := by
  induction es generalizing t0 with
  | nil => rfl
  | cons e es ih => simp [tickTimes, ih]

/-- A run of one channel alone in which each tick comes, after the one before
it, no sooner than the dwell of the step then applied (and less than `2^31`
microseconds later): every tick is due, so the state after the ticks is the one
described by `SingleRun`. -/
theorem SingleRun.run_paced (p : Platform F D) (i n span : Nat) (log0 : List (Event F))
    (l : ChannelLists F)
    (hi : i < p.CH_NUM) (hv : 0 < l.voltageListLength) (hc : 0 < l.currentListLength)
    (hd : 0 < l.dwellListLength)
    (hspan : span = max l.voltageListLength (max l.currentListLength l.dwellListLength))
    (hs : span ≤ 32767) (hn : 1 ≤ n) :
    ∀ (es : List Nat) (k : Nat) (s : State F D) (t : Nat), SingleRun p i n span log0 l k s →
      (0 ≤ (s.g_execution i).counter → isDue (s.g_execution i) t = true) →
      (∀ m (hm : m < es.length), k + m < n * span →
        dwellUsec p l span (k + m) ≤ es.get ⟨m, hm⟩ ∧ es.get ⟨m, hm⟩ < 2147483648) →
      (∀ m s' X, m ≤ es.length + 1 → runTicks p s ((tickTimes t es).take m) = some s' →
        s'.log = log0 ++ X → ∀ ev ∈ X, ev.isError = false) →
      ∃ s', runTicks p s (tickTimes t es) = some s' ∧
        SingleRun p i n span log0 l (k + es.length + 1) s' ∧
        s'.g_active = decide (k + es.length ≤ n * span)
  | [], k, s, t, h, hdue, _, hok => by
    obtain ⟨s1, h1, h2⟩ := SingleRun.tick_step p i n span log0 l k s t hi hv hc hd hspan hs hn h hdue
    rcases h2 with ⟨h2, hact, _⟩ | ⟨X, ev, hX, hev, herr⟩
    · exact ⟨s1, by simp [tickTimes, runTicks, h1], h2, hact⟩
    · have := hok 1 s1 X (by simp) (by simp [tickTimes, runTicks, h1]) hX ev hev
      rw [this] at herr
      cases herr
  | e :: es, k, s, t, h, hdue, hgap, hok => by
    obtain ⟨s1, h1, h2⟩ := SingleRun.tick_step p i n span log0 l k s t hi hv hc hd hspan hs hn h hdue
    rcases h2 with ⟨h2, _, hnpt⟩ | ⟨X, ev, hX, hev, herr⟩
    · have hdue1 : 0 ≤ (s1.g_execution i).counter →
          isDue (s1.g_execution i) (addUInt32 t e) = true := by
        intro hc1
        have hk : k < n * span := by
          by_contra hk
          have := h2.finished (by omega)
          omega
        obtain ⟨g1, g2⟩ := hgap 0 (by simp) (by simpa using hk)
        simp only [Nat.add_zero, List.get_eq_getElem, List.getElem_cons_zero] at g1 g2
        have hit : (s1.g_execution i).it ≠ -1 := by
          have := (h2.running (by omega) (by omega)).1
          omega
        rw [isDue_elapsed (s1.g_execution i) t (dwellUsec p l span k) e hit (hnpt hk)
          (by omega) g2]
        simpa using g1
      obtain ⟨s', a1, a2, a3⟩ := SingleRun.run_paced p i n span log0 l hi hv hc hd hspan hs hn
        es (k + 1) s1 (addUInt32 t e) h2 hdue1
        (fun m hm hkm => by
          have := hgap (m + 1) (by simpa using hm) (by omega)
          have e1 : k + (m + 1) = k + 1 + m := by omega
          simpa [e1] using this)
        (fun m s' X hm hr => hok (m + 1) s' X (by simpa using hm) (by
          rw [tickTimes, List.take_succ_cons, runTicks_cons p s s1 t _ h1]; exact hr))
      refine ⟨s', by rw [tickTimes, runTicks_cons p s s1 t _ h1]; exact a1, ?_, ?_⟩
      · have e1 : k + (e :: es).length + 1 = k + 1 + es.length + 1 := by simp; omega
        rw [e1]; exact a2
      · rw [a3]
        have e1 : k + (e :: es).length = k + 1 + es.length := by simp; omega
        rw [e1]
    · have := hok 1 s1 X (by simp) (by simp [tickTimes, runTicks, h1]) hX ev hev
      rw [this] at herr
      cases herr

end Engine

/-- C7 on a concrete run: two cycles of a two-step list take four ticks, the
fifth tick ends the run and the sixth does nothing. -/
theorem C7_repeat_count_is_number_of_cycles_witness :
    ∃ s, runTicks (fixedPoint 2 256) (executionStart c7State (Channel.get 1))
        [0, 1000, 2000, 3000, 4000, 5000] = some s ∧
      s.log =
        [.setVoltage ⟨2⟩ 1000000, .setCurrent ⟨2⟩ 500000,
         .setVoltage ⟨2⟩ 2000000, .setCurrent ⟨2⟩ 500000,
         .setVoltage ⟨2⟩ 1000000, .setCurrent ⟨2⟩ 500000,
         .setVoltage ⟨2⟩ 2000000, .setCurrent ⟨2⟩ 500000,
         .setTriggerFinished ⟨2⟩] ∧
      (s.g_execution 1).counter = -1 := by
  obtain ⟨s, h1, h2, _, h4⟩ := C7_repeat_count_is_number_of_cycles (fixedPoint 2 256) c7State 1 2
    [0, 1000, 2000, 3000, 4000, 5000] (by decide) (by decide) (by decide) (by decide)
    (by decide) (by decide) (by decide) (by decide) (by decide) (by decide)
  exact ⟨s, h1, by rw [h2]; decide, h4 (by decide)⟩


section Engine

variable {F D : Type}

/-- Right after `executionStart` of channel `i`, with the other channels idle,
the state is the one `SingleRun` describes after 0 ticks. -/
theorem SingleRun.of_executionStart (p : Platform F D) (s0 : State F D) (i n span : Nat)
    (hcount : (s0.g_channelsLists i).count = n)
    (hidle : ∀ j, j < p.CH_NUM → j ≠ i → (s0.g_execution j).counter < 0) :
    SingleRun p i n span s0.log (s0.g_channelsLists i) 0 (executionStart s0 (Channel.get i)) := by
  refine ⟨rfl, ?_, ?_, ?_, ?_, ?_⟩
  · intro j hj hne
    simp only [executionStart, Channel.get_index_sub_one]
    rw [State.setExecution_other _ _ hne, State.setExecution_other _ _ hne]
    exact hidle j hj hne
  · simp [executionStart, expectedLog]
  · intro _
    simp [executionStart, hcount]
  · intro h1 _; omega
  · intro h1; omega

/-- C8 (amended): the scenario voltage `[v]`, current `[c]`, dwell of 1000
microseconds, repeat count 3, other channels idle, no error reported; ticks at
least 1 ms (and less than `2^31` microseconds) apart. Each of the first three
ticks applies the point; after the third tick the counter is 1, `isActive()` is
true and `setTriggerFinished` has not been called. The fourth tick applies
nothing, sets the counter to `-1` and calls `setTriggerFinished`, once;
`isActive()` is still true after it and false after a fifth tick. -/
theorem C8_scenario_three_cycles (p : Platform F D) (s0 : State F D) (i : Nat)
    (t0 e1 e2 e3 e4 : Nat)
    (hi : i < p.CH_NUM)
    (hv : (s0.g_channelsLists i).voltageListLength = 1)
    (hc : (s0.g_channelsLists i).currentListLength = 1)
    (hd : (s0.g_channelsLists i).dwellListLength = 1)
    (hdw : p.toUsec ((s0.g_channelsLists i).dwellList 0) = 1000)
    (hcount : (s0.g_channelsLists i).count = 3)
    (hidle : ∀ j, j < p.CH_NUM → j ≠ i → (s0.g_execution j).counter < 0)
    (h1 : 1000 ≤ e1 ∧ e1 < 2147483648) (h2 : 1000 ≤ e2 ∧ e2 < 2147483648)
    (h3 : 1000 ≤ e3 ∧ e3 < 2147483648)
    (hok : ∀ m, m ≤ 5 →
      ∀ s ∈ runTicks p (executionStart s0 (Channel.get i))
          ((tickTimes t0 [e1, e2, e3, e4]).take m),
        ∀ ev ∈ s.log.drop s0.log.length, ev.isError = false) :
    (∃ s, runTicks p (executionStart s0 (Channel.get i)) (tickTimes t0 [e1, e2]) = some s ∧
      s.log = s0.log ++
        [Event.setVoltage (Channel.get i) ((s0.g_channelsLists i).voltageList 0),
         Event.setCurrent (Channel.get i) ((s0.g_channelsLists i).currentList 0),
         Event.setVoltage (Channel.get i) ((s0.g_channelsLists i).voltageList 0),
         Event.setCurrent (Channel.get i) ((s0.g_channelsLists i).currentList 0),
         Event.setVoltage (Channel.get i) ((s0.g_channelsLists i).voltageList 0),
         Event.setCurrent (Channel.get i) ((s0.g_channelsLists i).currentList 0)] ∧
      (s.g_execution i).counter = 1 ∧ isActive s = true) ∧
    (∃ s, runTicks p (executionStart s0 (Channel.get i)) (tickTimes t0 [e1, e2, e3]) = some s ∧
      s.log = s0.log ++
        [Event.setVoltage (Channel.get i) ((s0.g_channelsLists i).voltageList 0),
         Event.setCurrent (Channel.get i) ((s0.g_channelsLists i).currentList 0),
         Event.setVoltage (Channel.get i) ((s0.g_channelsLists i).voltageList 0),
         Event.setCurrent (Channel.get i) ((s0.g_channelsLists i).currentList 0),
         Event.setVoltage (Channel.get i) ((s0.g_channelsLists i).voltageList 0),
         Event.setCurrent (Channel.get i) ((s0.g_channelsLists i).currentList 0),
         Event.setTriggerFinished (Channel.get i)] ∧
      (s.g_execution i).counter = -1 ∧ isActive s = true) ∧
    (∃ s, runTicks p (executionStart s0 (Channel.get i)) (tickTimes t0 [e1, e2, e3, e4]) = some s ∧
      s.log = s0.log ++
        [Event.setVoltage (Channel.get i) ((s0.g_channelsLists i).voltageList 0),
         Event.setCurrent (Channel.get i) ((s0.g_channelsLists i).currentList 0),
         Event.setVoltage (Channel.get i) ((s0.g_channelsLists i).voltageList 0),
         Event.setCurrent (Channel.get i) ((s0.g_channelsLists i).currentList 0),
         Event.setVoltage (Channel.get i) ((s0.g_channelsLists i).voltageList 0),
         Event.setCurrent (Channel.get i) ((s0.g_channelsLists i).currentList 0),
         Event.setTriggerFinished (Channel.get i)] ∧
      (s.g_execution i).counter = -1 ∧ isActive s = false) := by
  have h0 := SingleRun.of_executionStart p s0 i 3 1 hcount hidle
  have hdue0 : 0 ≤ ((executionStart s0 (Channel.get i)).g_execution i).counter →
      isDue ((executionStart s0 (Channel.get i)).g_execution i) t0 = true := by
    intro _; simp [executionStart, isDue]
  have hdwell : ∀ k, dwellUsec p (s0.g_channelsLists i) 1 k = 1000 := by
    intro k; simp [dwellUsec, hd, Nat.mod_one, hdw]
  have hrun : ∀ es : List Nat, es.length ≤ 4 →
      tickTimes t0 es = (tickTimes t0 [e1, e2, e3, e4]).take (es.length + 1) →
      (∀ m (hm : m < es.length), 0 + m < 3 * 1 →
        dwellUsec p (s0.g_channelsLists i) 1 (0 + m) ≤ es.get ⟨m, hm⟩ ∧
          es.get ⟨m, hm⟩ < 2147483648) →
      ∃ s', runTicks p (executionStart s0 (Channel.get i)) (tickTimes t0 es) = some s' ∧
        SingleRun p i 3 1 s0.log (s0.g_channelsLists i) (0 + es.length + 1) s' ∧
        s'.g_active = decide (0 + es.length ≤ 3 * 1) := by
    intro es hlen htk hgap
    refine SingleRun.run_paced p i 3 1 s0.log (s0.g_channelsLists i) hi (by omega) (by omega)
      (by omega) (by rw [hv, hc, hd]; rfl) (by omega) (by omega) es 0 _ t0 h0 hdue0 hgap ?_
    intro m s' X hm hr hX ev hev
    refine hok m (by omega) s' ?_ ev (by rw [hX, List.drop_left]; exact hev)
    rw [htk, List.take_take, min_eq_left hm] at hr
    exact hr
  refine ⟨?_, ?_, ?_⟩
  · obtain ⟨s, a1, a2, a3⟩ := hrun [e1, e2] (by simp) (by simp [tickTimes]) (by
      intro m hm _
      rw [hdwell]
      have : m = 0 ∨ m = 1 := by simp at hm; omega
      rcases this with rfl | rfl
      · exact h1
      · exact h2)
    refine ⟨s, a1, ?_, ?_, ?_⟩
    · rw [a2.log_eq]; simp [expectedLog, pointEvents, List.range_succ, hv, hc]
    · have := (a2.running (by simp) (by simp)).2
      simpa using this
    · simpa [isActive] using a3
  · obtain ⟨s, a1, a2, a3⟩ := hrun [e1, e2, e3] (by simp) (by simp [tickTimes]) (by
      intro m hm _
      rw [hdwell]
      have : m = 0 ∨ m = 1 ∨ m = 2 := by simp at hm; omega
      rcases this with rfl | rfl | rfl
      · exact h1
      · exact h2
      · exact h3)
    refine ⟨s, a1, ?_, ?_, ?_⟩
    · rw [a2.log_eq]; simp [expectedLog, pointEvents, List.range_succ, hv, hc]
    · exact a2.finished (by simp)
    · simpa [isActive] using a3
  · obtain ⟨s, a1, a2, a3⟩ := hrun [e1, e2, e3, e4] (by simp) (by simp [tickTimes]) (by
      intro m hm hlt
      rw [hdwell]
      have : m = 0 ∨ m = 1 ∨ m = 2 := by omega
      rcases this with rfl | rfl | rfl
      · exact h1
      · exact h2
      · exact h3)
    refine ⟨s, a1, ?_, ?_, ?_⟩
    · rw [a2.log_eq]; simp [expectedLog, pointEvents, List.range_succ, hv, hc]
    · exact a2.finished (by simp)
    · simpa [isActive] using a3

end Engine

/-- C8, as stated, fails on the code: in the scenario (voltage `[1.0]`, current
`[0.5]`, dwell `[0.001]`, repeat count 3, generous limits, the other channel
idle), after `executionStart` and three ticks 1 ms apart the run is defined,
`isActive()` is true, `setTriggerFinished` has been called 0 times and the
counter is 1. -/
theorem C8_three_ticks_counterexample :
    (runTicks (fixedPoint 2 256) (executionStart c8State (Channel.get 0)) [0, 1000, 2000]).map
      (fun s => (isActive s, s.log.count (.setTriggerFinished (Channel.get 0)),
        (s.g_execution 0).counter)) = some (true, 0, 1) := by
  decide

/-- C8 (amended) on the concrete scenario, ticks exactly 1 ms apart. -/
theorem C8_scenario_three_cycles_witness :
    (∃ s, runTicks (fixedPoint 2 256) (executionStart c8State (Channel.get 0))
        [0, 1000, 2000] = some s ∧ (s.g_execution 0).counter = 1 ∧ isActive s = true) ∧
    (∃ s, runTicks (fixedPoint 2 256) (executionStart c8State (Channel.get 0))
        [0, 1000, 2000, 3000] = some s ∧ (s.g_execution 0).counter = -1 ∧ isActive s = true) ∧
    (∃ s, runTicks (fixedPoint 2 256) (executionStart c8State (Channel.get 0))
        [0, 1000, 2000, 3000, 4000] = some s ∧ (s.g_execution 0).counter = -1 ∧
          isActive s = false) := by
  obtain ⟨⟨s3, a1, _, a3, a4⟩, ⟨s4, b1, _, b3, b4⟩, ⟨s5, c1, _, c3, c4⟩⟩ :=
    C8_scenario_three_cycles (fixedPoint 2 256) c8State 0 0 1000 1000 1000 1000
      (by decide) (by decide) (by decide) (by decide) (by decide) (by decide) (by decide)
      (by decide) (by decide) (by decide) (by decide)
  exact ⟨⟨s3, a1, a3, a4⟩, ⟨s4, b1, b3, b4⟩, ⟨s5, c1, c3, c4⟩⟩


/-! ### Limit violations -/

section Engine

variable {F D : Type}

/-- A step bookkeeping that does not return only assigns to `g_execution[i]`. -/
theorem advanceStep_next (i : Nat) (s s' : State F D) (h : advanceStep i s = .next s') :
    ∃ e, s' = s.setExecution i e ∧ e.nextPointTime = (s.g_execution i).nextPointTime ∧
      (e.counter = (s.g_execution i).counter ∨
        (1 < (s.g_execution i).counter ∧ e.counter = (s.g_execution i).counter - 1)) ∧
      ((e.it = wrapInt16 ((s.g_execution i).it + 1) ∧
          e.it ≠ (maxListsSize s (Channel.get i) : Int)) ∨
        (e.it = 0 ∧ wrapInt16 ((s.g_execution i).it + 1) = (maxListsSize s (Channel.get i) : Int) ∧
          (s.g_execution i).counter ≠ 1)) := by
  have hm : ∀ e, maxListsSize (s.setExecution i e) (Channel.get i) =
      maxListsSize s (Channel.get i) := fun _ => rfl
  simp only [advanceStep, State.setExecution_same, hm, State.setExecution_setExecution] at h
  split_ifs at h with h1 h2 h3
  · cases h
    exact ⟨_, rfl, rfl, Or.inr ⟨by omega, rfl⟩, Or.inr ⟨rfl, h1, by omega⟩⟩
  · cases h
    exact ⟨_, rfl, rfl, Or.inl rfl, Or.inr ⟨rfl, h1, by omega⟩⟩
  · cases h
    exact ⟨_, rfl, rfl, Or.inl rfl, Or.inl ⟨rfl, h1⟩⟩

/-- A step bookkeeping that returns ends the run of channel `i`: its counter
was 1 and is now `-1`, and `setTriggerFinished` is called. -/
theorem advanceStep_ret (i : Nat) (s s' : State F D) (h : advanceStep i s = .ret s') :
    ∃ e, s' = (s.setExecution i e).emit (.setTriggerFinished (Channel.get i)) ∧
      e.counter = -1 ∧ (s.g_execution i).counter = 1 ∧
      wrapInt16 ((s.g_execution i).it + 1) = (maxListsSize s (Channel.get i) : Int) := by
  have hm : ∀ e, maxListsSize (s.setExecution i e) (Channel.get i) =
      maxListsSize s (Channel.get i) := fun _ => rfl
  simp only [advanceStep, State.setExecution_same, hm, State.setExecution_setExecution] at h
  split_ifs at h with h1 h2 h3
  cases h
  exact ⟨_, rfl, rfl, by omega, h1⟩

theorem advanceStep_ne_undefined (i : Nat) (s : State F D) : advanceStep i s ≠ .undefined := by
  simp only [advanceStep]
  split_ifs <;> simp

/-- The part of the loop that ran without returning logged setpoints only. -/
theorem tickLoop_next_log (p : Platform F D) (t : Nat) :
    ∀ (n i : Nat) (s s' : State F D), tickLoop p t n i s = .next s' →
      ∃ pre, s'.log = s.log ++ pre ∧ ∀ ev ∈ pre, ev.isError = false
  | 0, _, s, s', h => by
    simp only [tickLoop, Flow.next.injEq] at h
    subst h
    exact ⟨[], by simp, by simp⟩
  | n + 1, i, s, s', h => by
    rw [tickLoop] at h
    cases h1 : tickChannel p t i s with
    | next s1 =>
      rw [h1] at h
      obtain ⟨pre, a1, a2⟩ := tickLoop_next_log p t n (i + 1) s1 s' h
      obtain ⟨_, _, _, _, a3⟩ := tickChannel_next_frame p t i s s1 h1
      rcases a3 with a3 | ⟨v, c, a3⟩
      · exact ⟨pre, by rw [a1, a3], a2⟩
      · refine ⟨[.setVoltage (Channel.get i) v, .setCurrent (Channel.get i) c] ++ pre,
          by rw [a1, a3, List.append_assoc], ?_⟩
        intro ev hev
        simp only [List.mem_append, List.mem_cons, List.mem_singleton, List.not_mem_nil,
          or_false] at hev
        rcases hev with (rfl | rfl) | hev
        · rfl
        · rfl
        · exact a2 ev hev
    | ret s1 => rw [h1] at h; cases h
    | undefined => rw [h1] at h; cases h

/-- If the loop reaches channel `k`, which is active and due, and its step
does not end the run, the tick is what `applyPoint` makes of the state `sp`
left by the step bookkeeping, whenever `applyPoint` returns. -/
theorem tick_of_applyPoint_ret (p : Platform F D) (s : State F D) (t k : Nat)
    (sk sp s' : State F D) (hk : k < p.CH_NUM)
    (hreach : tickLoop p t k 0 (s.setActive false) = .next sk)
    (hact : 0 ≤ (sk.g_execution k).counter)
    (hdue : isDue (sk.g_execution k) t = true)
    (hstep : advanceStep k (sk.setActive true) = .next sp)
    (happly : applyPoint p t k sp = .ret s') :
    tick p t s = some s' := by
  unfold tick
  rw [tickLoop_at p t k _ hk, hreach]
  simp only []
  rw [tickChannel_due p t k sk hact hdue, stepChannel, hstep]
  simp only []
  rw [happly]
  rfl

end Engine


section Engine

variable {F D : Type}

/-- C9: a limit violation halts every channel. In a tick at time `t` from
state `s`, let the loop reach channel `k` in state `sk` (no earlier channel
returned), let the channel be active and due, let its step bookkeeping leave
the state `sp` without ending the run, and let `v` be the voltage selected
there. Up to that point the tick has reported no error. Then
* if `v` exceeds the upper voltage limit, the tick logs exactly the
  voltage-limit error after that point, applies nothing, and returns with the
  counter of every channel at `-1`;
* otherwise, if `v` times the present current setpoint exceeds the power
  limit, the same with the power-limit error;
* otherwise `v` is applied and, `c` being the selected current: if `c` exceeds
  the current limit, the tick logs the current-limit error and nothing else,
  `c` is not applied, and every counter is `-1`; otherwise, if `c` times the
  present voltage setpoint exceeds the power limit, the same with the
  power-limit error. -/
theorem C9_limit_violation_halts_every_channel (p : Platform F D) (s : State F D) (t k : Nat)
    (sk sp : State F D) (v : F) (hk : k < p.CH_NUM)
    (hreach : tickLoop p t k 0 (s.setActive false) = .next sk)
    (hact : 0 ≤ (sk.g_execution k).counter)
    (hdue : isDue (sk.g_execution k) t = true)
    (hstep : advanceStep k (sk.setActive true) = .next sp)
    (hv : listAt (sp.g_channelsLists k).voltageList (sp.g_execution k).it
      (sp.g_channelsLists k).voltageListLength = some v) :
    (∃ pre, sp.log = s.log ++ pre ∧ ∀ ev ∈ pre, ev.isError = false) ∧
    (p.gt v (p.getULimit sp.dispatcher (Channel.get k)) = true →
      ∃ s', tick p t s = some s' ∧
        s'.log = sp.log ++ [.generateError .SCPI_ERROR_VOLTAGE_LIMIT_EXCEEDED] ∧
        s'.dispatcher = sp.dispatcher ∧
        ∀ j, j < p.CH_NUM → (s'.g_execution j).counter = -1) ∧
    (p.gt v (p.getULimit sp.dispatcher (Channel.get k)) = false →
      p.gt (p.mul v (p.getISet sp.dispatcher (Channel.get k)))
        (p.getPowerLimit sp.dispatcher (Channel.get k)) = true →
      ∃ s', tick p t s = some s' ∧
        s'.log = sp.log ++ [.generateError .SCPI_ERROR_POWER_LIMIT_EXCEEDED] ∧
        s'.dispatcher = sp.dispatcher ∧
        ∀ j, j < p.CH_NUM → (s'.g_execution j).counter = -1) ∧
    (∀ c, listAt (sp.g_channelsLists k).currentList (sp.g_execution k).it
        (sp.g_channelsLists k).currentListLength = some c →
      p.gt v (p.getULimit sp.dispatcher (Channel.get k)) = false →
      p.gt (p.mul v (p.getISet sp.dispatcher (Channel.get k)))
        (p.getPowerLimit sp.dispatcher (Channel.get k)) = false →
      (p.gt c (p.getILimit (p.setVoltage sp.dispatcher (Channel.get k) v) (Channel.get k))
          = true →
        ∃ s', tick p t s = some s' ∧
          s'.log = sp.log ++ [.setVoltage (Channel.get k) v,
            .generateError .SCPI_ERROR_CURRENT_LIMIT_EXCEEDED] ∧
          s'.dispatcher = p.setVoltage sp.dispatcher (Channel.get k) v ∧
          ∀ j, j < p.CH_NUM → (s'.g_execution j).counter = -1) ∧
      (p.gt c (p.getILimit (p.setVoltage sp.dispatcher (Channel.get k) v) (Channel.get k))
          = false →
        p.gt (p.mul c (p.getUSet (p.setVoltage sp.dispatcher (Channel.get k) v) (Channel.get k)))
          (p.getPowerLimit (p.setVoltage sp.dispatcher (Channel.get k) v) (Channel.get k))
          = true →
        ∃ s', tick p t s = some s' ∧
          s'.log = sp.log ++ [.setVoltage (Channel.get k) v,
            .generateError .SCPI_ERROR_POWER_LIMIT_EXCEEDED] ∧
          s'.dispatcher = p.setVoltage sp.dispatcher (Channel.get k) v ∧
          ∀ j, j < p.CH_NUM → (s'.g_execution j).counter = -1)) := by
  refine ⟨?_, ?_, ?_, ?_⟩
  · obtain ⟨pre, a1, a2⟩ := tickLoop_next_log p t k 0 _ sk hreach
    obtain ⟨e, rfl, _⟩ := advanceStep_next k _ sp hstep
    exact ⟨pre, by simpa using a1, a2⟩
  · intro h1
    exact ⟨_, tick_of_applyPoint_ret p s t k sk sp _ hk hreach hact hdue hstep
      (applyPoint_voltageLimit p t k sp hv h1), by simp, by simp,
      fun j hj => abort_counter p _ hj⟩
  · intro h1 h2
    exact ⟨_, tick_of_applyPoint_ret p s t k sk sp _ hk hreach hact hdue hstep
      (applyPoint_voltagePower p t k sp hv h1 h2), by simp, by simp,
      fun j hj => abort_counter p _ hj⟩
  · intro c hc h1 h2
    constructor
    · intro h3
      exact ⟨_, tick_of_applyPoint_ret p s t k sk sp _ hk hreach hact hdue hstep
        (applyPoint_currentLimit p t k sp hv hc h1 h2 h3), by simp [voltageApplied],
        by simp [voltageApplied], fun j hj => abort_counter p _ hj⟩
    · intro h3 h4
      exact ⟨_, tick_of_applyPoint_ret p s t k sk sp _ hk hreach hact hdue hstep
        (applyPoint_currentPower p t k sp hv hc h1 h2 h3 h4), by simp [voltageApplied],
        by simp [voltageApplied], fun j hj => abort_counter p _ hj⟩

end Engine

/-- C9 on the scenario of the spec: voltage `[1.0, 50.0]` with the limit at
10.0; the tick that selects 50.0 reports the voltage-limit error, applies
nothing, and leaves both channels, the second one included although it was in
the middle of its own run, with counter `-1`. -/
theorem C9_limit_violation_halts_every_channel_witness :
    ∃ s', tick (fixedPoint 2 256) 1000 c9State = some s' ∧
      s'.log = [.generateError .SCPI_ERROR_VOLTAGE_LIMIT_EXCEEDED] ∧
      (s'.g_execution 0).counter = -1 ∧ (s'.g_execution 1).counter = -1 := by
  obtain ⟨_, h, _⟩ := C9_limit_violation_halts_every_channel (fixedPoint 2 256) c9State 1000 0
    (c9State.setActive false)
    (((c9State.setActive false).setActive true).setExecution 0
      { counter := 1, it := 1, nextPointTime := 1000 })
    50000000 (by decide) rfl (by decide) (by decide) rfl (by decide)
  obtain ⟨s', a1, a2, _, a4⟩ := h (by decide)
  exact ⟨s', a1, a2, a4 0 (by decide), a4 1 (by decide)⟩


/-! ### What one tick does to each channel -/

section Engine

variable {F D : Type}

theorem Channel.get_injective {i j : Nat} (h : Channel.get i = Channel.get j) : i = j := by
  simpa [Channel.get] using h

/-- When `applyPoint` returns, an error was the last thing logged. -/
theorem applyPoint_ret (p : Platform F D) (t i : Nat) (s s' : State F D)
    (h : applyPoint p t i s = .ret s') :
    ∃ pre code, s'.log = s.log ++ pre ++ [.generateError code] := by
  rcases hv : listAt (s.g_channelsLists i).voltageList (s.g_execution i).it
      (s.g_channelsLists i).voltageListLength with _ | v
  · simp [applyPoint, hv] at h
  by_cases h1 : p.gt v (p.getULimit s.dispatcher (Channel.get i)) = true
  · rw [applyPoint_voltageLimit p t i s hv h1] at h
    cases h
    exact ⟨[], .SCPI_ERROR_VOLTAGE_LIMIT_EXCEEDED, by simp⟩
  by_cases h2 : p.gt (p.mul v (p.getISet s.dispatcher (Channel.get i)))
      (p.getPowerLimit s.dispatcher (Channel.get i)) = true
  · rw [applyPoint_voltagePower p t i s hv (by simpa using h1) h2] at h
    cases h
    exact ⟨[], .SCPI_ERROR_POWER_LIMIT_EXCEEDED, by simp⟩
  rcases hc : listAt (s.g_channelsLists i).currentList (s.g_execution i).it
      (s.g_channelsLists i).currentListLength with _ | c
  · simp [applyPoint, hv, h1, h2, State.emit, hc] at h
  by_cases h3 : p.gt c (p.getILimit (voltageApplied p i s v).dispatcher (Channel.get i)) = true
  · rw [applyPoint_currentLimit p t i s hv hc (by simpa using h1) (by simpa using h2) h3] at h
    cases h
    exact ⟨[.setVoltage (Channel.get i) v], .SCPI_ERROR_CURRENT_LIMIT_EXCEEDED,
      by simp [voltageApplied]⟩
  by_cases h4 : p.gt (p.mul c (p.getUSet (voltageApplied p i s v).dispatcher (Channel.get i)))
      (p.getPowerLimit (voltageApplied p i s v).dispatcher (Channel.get i)) = true
  · rw [applyPoint_currentPower p t i s hv hc (by simpa using h1) (by simpa using h2)
      (by simpa using h3) h4] at h
    cases h
    exact ⟨[.setVoltage (Channel.get i) v], .SCPI_ERROR_POWER_LIMIT_EXCEEDED,
      by simp [voltageApplied]⟩
  rcases hd : listAt (s.g_channelsLists i).dwellList (s.g_execution i).it
      (s.g_channelsLists i).dwellListLength with _ | d
  · simp only [voltageApplied] at h3 h4
    simp [applyPoint, hv, h1, h2, State.emit, hc, hd, h3, h4] at h
  · rw [applyPoint_ok p t i s hv hc hd (by simpa using h1) (by simpa using h2)
      (by simpa using h3) (by simpa using h4)] at h
    cases h

/-- The effect of the body of the loop for channel `j`, whenever it is
defined: it appends `X` to the log, and unless `X` reports an error, the lists
and the other channels are untouched, an idle channel stays as it is, the
active flag is raised for an active channel and never lowered, `X` holds calls
about channel `j` only, a `return` means that the run of channel `j` has just
ended, and a normal end keeps an active channel active. -/
theorem tickChannel_result (p : Platform F D) (t j : Nat) (s s' : State F D)
    (r : Flow (State F D)) (h : tickChannel p t j s = r) (hr : r.result = some s') :
    ∃ X, s'.log = s.log ++ X ∧
      ((∃ ev ∈ X, ev.isError = true) ∨
        (s'.g_channelsLists = s.g_channelsLists ∧
          (∀ j', j' ≠ j → s'.g_execution j' = s.g_execution j') ∧
          ((s.g_execution j).counter < 0 → s'.g_execution j = s.g_execution j) ∧
          (0 ≤ (s.g_execution j).counter → s'.g_active = true) ∧
          (s.g_active = true → s'.g_active = true) ∧
          (∀ ev ∈ X, ev = .setTriggerFinished (Channel.get j) ∨
            ∃ v, ev = .setVoltage (Channel.get j) v ∨ ev = .setCurrent (Channel.get j) v) ∧
          (∀ sr, r = .ret sr → 0 ≤ (s.g_execution j).counter ∧
            (s'.g_execution j).counter = -1 ∧ X = [.setTriggerFinished (Channel.get j)]) ∧
          (∀ sn, r = .next sn →
            (0 ≤ (s.g_execution j).counter → 0 ≤ (s'.g_execution j).counter) ∧
            Event.setTriggerFinished (Channel.get j) ∉ X))) := by
  by_cases hc : (s.g_execution j).counter < 0
  · rw [tickChannel_idle p t j s hc] at h
    subst h
    cases hr
    exact ⟨[], by simp, Or.inr ⟨rfl, fun _ _ => rfl, fun _ => rfl, fun h0 => by omega,
      fun h0 => h0, by simp, by simp, by simp⟩⟩
  have hc' : 0 ≤ (s.g_execution j).counter := not_lt.mp hc
  cases hd : isDue (s.g_execution j) t
  · rw [tickChannel_notDue p t j s hc' hd] at h
    subst h
    cases hr
    exact ⟨[], by simp, Or.inr ⟨rfl, fun _ _ => rfl, fun _ => rfl, fun _ => rfl,
      fun _ => rfl, by simp, by simp, by simp⟩⟩
  rw [tickChannel_due p t j s hc' hd] at h
  cases ha : advanceStep j (s.setActive true) with
  | undefined => exact absurd ha (advanceStep_ne_undefined j _)
  | ret sf =>
    simp only [stepChannel, ha] at h
    subst h
    cases hr
    obtain ⟨e, rfl, e1, e2, _⟩ := advanceStep_ret j _ _ ha
    refine ⟨[.setTriggerFinished (Channel.get j)], by simp, Or.inr ⟨rfl, ?_, fun h0 => by omega,
      fun _ => rfl, fun _ => rfl, by simp, ?_, by simp⟩⟩
    · intro j' hj'
      simp [State.setExecution, hj']
    · intro sr _
      exact ⟨hc', by simp [e1], rfl⟩
  | next sa =>
    simp only [stepChannel, ha] at h
    cases hp : applyPoint p t j sa with
    | undefined => rw [hp] at h; subst h; cases hr
    | ret sr =>
      rw [hp] at h; subst h; cases hr
      obtain ⟨pre, code, a1⟩ := applyPoint_ret p t j sa _ hp
      obtain ⟨e, rfl, _⟩ := advanceStep_next j _ _ ha
      exact ⟨pre ++ [.generateError code], by simpa using a1,
        Or.inl ⟨.generateError code, by simp, rfl⟩⟩
    | next sn =>
      rw [hp] at h; subst h; cases hr
      obtain ⟨b1, b2, b3, b4, b5, v, c, b6⟩ := applyPoint_next_frame p t j sa _ hp
      obtain ⟨e, rfl, _, e2, _⟩ := advanceStep_next j _ _ ha
      simp only [State.setExecution_lists, State.setActive_lists, State.setExecution_same,
        State.setExecution_active, State.setActive_active, State.setExecution_log,
        State.setActive_log, State.setActive_execution] at b1 b3 b4 b5 b6 e2
      refine ⟨[.setVoltage (Channel.get j) v, .setCurrent (Channel.get j) c], b6,
        Or.inr ⟨b1, ?_, fun h0 => by omega, fun _ => b5, fun _ => b5, ?_, by simp, ?_⟩⟩
      · intro j' hj'
        rw [b2 j' hj', State.setExecution_other _ _ hj']
        rfl
      · intro ev hev
        simp only [List.mem_cons, List.mem_singleton, List.not_mem_nil, or_false] at hev
        rcases hev with rfl | rfl
        · exact Or.inr ⟨v, Or.inl rfl⟩
        · exact Or.inr ⟨c, Or.inr rfl⟩
      · intro _ _
        refine ⟨fun _ => ?_, by simp⟩
        rw [b3]
        omega

end Engine


section Engine

variable {F D : Type}

/-- The effect of `n` iterations of the loop starting with channel `a`,
whenever it is defined: it appends `X` to the log, and unless `X` reports an
error, the lists and the channels outside `a .. a + n - 1` are untouched, no
idle channel becomes active, no `setTriggerFinished` is issued for a channel
outside that range, the active flag is never lowered, and a `return` means that
the run of one of these channels has just ended. -/
theorem tickLoop_result (p : Platform F D) (t : Nat) :
    ∀ (n a : Nat) (s s' : State F D) (r : Flow (State F D)),
      tickLoop p t n a s = r → r.result = some s' →
      ∃ X, s'.log = s.log ++ X ∧
        ((∃ ev ∈ X, ev.isError = true) ∨
          (s'.g_channelsLists = s.g_channelsLists ∧
            (∀ j, (j < a ∨ a + n ≤ j) → s'.g_execution j = s.g_execution j) ∧
            (∀ j, (s.g_execution j).counter < 0 → (s'.g_execution j).counter < 0) ∧
            (∀ j, (j < a ∨ a + n ≤ j) → Event.setTriggerFinished (Channel.get j) ∉ X) ∧
            (s.g_active = true → s'.g_active = true) ∧
            (∀ sr, r = .ret sr → s'.g_active = true ∧
              ∃ j, a ≤ j ∧ j < a + n ∧ 0 ≤ (s.g_execution j).counter ∧
                (s'.g_execution j).counter < 0)))
  | 0, a, s, s', r, h, hr => by
    rw [tickLoop] at h
    subst h
    cases hr
    exact ⟨[], by simp, Or.inr ⟨rfl, fun _ _ => rfl, fun _ h0 => h0, by simp, fun h0 => h0,
      by simp⟩⟩
  | n + 1, a, s, s', r, h, hr => by
    rw [tickLoop] at h
    cases h1 : tickChannel p t a s with
    | undefined => rw [h1] at h; subst h; cases hr
    | ret s1 =>
      rw [h1] at h
      simp only [] at h
      subst h
      obtain ⟨X, a1, a2⟩ := tickChannel_result p t a s s' _ h1 hr
      refine ⟨X, a1, a2.imp id ?_⟩
      rintro ⟨c1, c2, c3, c4, c5, _, c7, _⟩
      obtain ⟨d1, d2, d3⟩ := c7 s1 rfl
      refine ⟨c1, fun j hj => c2 j (by omega), ?_, ?_, c5, ?_⟩
      · intro j hj
        by_cases hja : j = a
        · subst hja; rw [c3 hj]; exact hj
        · rw [c2 j hja]; exact hj
      · intro j hj hmem
        rw [d3] at hmem
        simp only [List.mem_singleton, Event.setTriggerFinished.injEq] at hmem
        have := Channel.get_injective hmem
        omega
      · intro sr _
        exact ⟨c4 d1, a, le_refl a, by omega, d1, by omega⟩
    | next s1 =>
      rw [h1] at h
      simp only [] at h
      obtain ⟨X1, a1, a2⟩ := tickChannel_result p t a s s1 _ h1 rfl
      obtain ⟨X2, b1, b2⟩ := tickLoop_result p t n (a + 1) s1 s' r h hr
      refine ⟨X1 ++ X2, by rw [b1, a1, List.append_assoc], ?_⟩
      rcases a2 with ⟨ev, hev, herr⟩ | ⟨c1, c2, c3, c4, c5, c6, _, _⟩
      · exact Or.inl ⟨ev, by simp [hev], herr⟩
      rcases b2 with ⟨ev, hev, herr⟩ | ⟨d1, d2, d3, d4, d5, d6⟩
      · exact Or.inl ⟨ev, by simp [hev], herr⟩
      have hsign : ∀ j, (s.g_execution j).counter < 0 → (s1.g_execution j).counter < 0 := by
        intro j hj
        by_cases hja : j = a
        · subst hja; rw [c3 hj]; exact hj
        · rw [c2 j hja]; exact hj
      refine Or.inr ⟨by rw [d1, c1], ?_, fun j hj => d3 j (hsign j hj), ?_,
        fun h0 => d5 (c5 h0), ?_⟩
      · intro j hj
        rw [d2 j (by omega), c2 j (by omega)]
      · intro j hj hmem
        rcases List.mem_append.mp hmem with hmem | hmem
        · rcases c6 _ hmem with h2 | ⟨v, h2 | h2⟩
          · simp only [Event.setTriggerFinished.injEq] at h2
            have := Channel.get_injective h2
            omega
          · cases h2
          · cases h2
        · exact d4 j (by omega) hmem
      · intro sr hsr
        obtain ⟨e1, jr, e2, e3, e4, e5⟩ := d6 sr hsr
        refine ⟨e1, jr, by omega, by omega, ?_, e5⟩
        rw [← c2 jr (by omega)]
        exact e4

/-- A tick only appends to the log. -/
theorem tick_log (p : Platform F D) (t : Nat) (s s' : State F D) (h : tick p t s = some s') :
    ∃ X, s'.log = s.log ++ X := by
  obtain ⟨X, a1, _⟩ := tickLoop_result p t p.CH_NUM 0 (s.setActive false) s' _ rfl h
  exact ⟨X, a1⟩

/-- Ticks only append to the log. -/
theorem runTicks_log (p : Platform F D) :
    ∀ (ts : List Nat) (s s' : State F D), runTicks p s ts = some s' → ∃ X, s'.log = s.log ++ X
  | [], s, s', h => by
    simp only [runTicks, Option.some.injEq] at h
    subst h
    exact ⟨[], by simp⟩
  | t :: ts, s, s', h => by
    cases h1 : tick p t s with
    | none => simp [runTicks, h1] at h
    | some s1 =>
      rw [runTicks_cons p s s1 t ts h1] at h
      obtain ⟨X1, a1⟩ := tick_log p t s s1 h1
      obtain ⟨X2, a2⟩ := runTicks_log p ts s1 s' h
      exact ⟨X1 ++ X2, by rw [a2, a1, List.append_assoc]⟩

end Engine


/-! ### A channel that runs forever -/

section Engine

variable {F D : Type}

/-- The body of the loop for a channel with counter 0 (run forever), non-empty
lists and a step index in `-1 .. span - 1`: either an error is reported, or the
counter is still 0 and the index, now in `0 .. span - 1`, is the same or the
next one modulo `span`. -/
theorem tickChannel_forever (p : Platform F D) (t i : Nat) (s : State F D) (span : Nat)
    (hv : 0 < (s.g_channelsLists i).voltageListLength)
    (hc : 0 < (s.g_channelsLists i).currentListLength)
    (hd : 0 < (s.g_channelsLists i).dwellListLength)
    (hspan : maxListsSize s (Channel.get i) = span) (hs : span ≤ 32767)
    (hcnt : (s.g_execution i).counter = 0)
    (hit : -1 ≤ (s.g_execution i).it ∧ (s.g_execution i).it < span) :
    (∃ s', tickChannel p t i s = .next s' ∧ (s'.g_execution i).counter = 0 ∧
      0 ≤ (s'.g_execution i).it ∧ (s'.g_execution i).it < span ∧
      ((s'.g_execution i).it = (s.g_execution i).it ∨
        (s'.g_execution i).it = ((s.g_execution i).it + 1) % (span : Int))) ∨
    (∃ s' pre code, tickChannel p t i s = .ret s' ∧
      s'.log = s.log ++ pre ++ [.generateError code]) := by
  have hS : 0 < span := by
    rw [← hspan, maxListsSize_eq]; omega
  have hc0 : 0 ≤ (s.g_execution i).counter := by omega
  cases hdue : isDue (s.g_execution i) t
  · rw [tickChannel_notDue p t i s hc0 hdue]
    have hne : (s.g_execution i).it ≠ -1 := by
      intro h0
      simp [isDue, h0] at hdue
    exact Or.inl ⟨_, rfl, hcnt, by simp only [State.setActive_execution]; omega, hit.2,
      Or.inl rfl⟩
  rw [tickChannel_due p t i s hc0 hdue]
  have hms : maxListsSize (s.setActive true) (Channel.get i) = span := hspan
  rcases lt_or_ge ((s.g_execution i).it + 1) (span : Int) with hlt | hge
  · rw [stepChannel_advance p t i _ (by simpa using hit.1) (by rw [hms]; simpa using hlt)
      (by rw [hms]; exact hs)]
    obtain ⟨r, hr⟩ : ∃ r : Nat, (s.g_execution i).it + 1 = (r : Int) :=
      ⟨((s.g_execution i).it + 1).toNat, by omega⟩
    rcases applyPoint_at p t i ((s.setActive true).setExecution i
        { (s.setActive true).g_execution i with it := ((s.setActive true).g_execution i).it + 1 })
        r (by simpa using hr) (by simpa using hv) (by simpa using hc) (by simpa using hd) with
      ⟨s', h1, _, _, a3, a4, _⟩ | ⟨s', pre, code, h1, a1⟩
    · refine Or.inl ⟨s', h1, ?_, ?_, ?_, Or.inr ?_⟩
      · rw [a4]; simpa using hcnt
      · omega
      · omega
      · rw [a3, ← hr, Int.emod_eq_of_lt (by omega) hlt]
    · exact Or.inr ⟨s', pre, code, h1, by simpa using a1⟩
  · have heq : (s.g_execution i).it + 1 = (span : Int) := by omega
    rw [stepChannel_wrap p t i _ (by rw [hms]; simpa using heq) (by rw [hms]; exact hs)
      (by simp [hcnt])]
    rcases applyPoint_at p t i ((s.setActive true).setExecution i
        { (s.setActive true).g_execution i with
          it := 0
          counter := if ((s.setActive true).g_execution i).counter > 0
            then ((s.setActive true).g_execution i).counter - 1
            else ((s.setActive true).g_execution i).counter })
        0 (by simp) (by simpa using hv) (by simpa using hc) (by simpa using hd) with
      ⟨s', h1, _, _, a3, a4, _⟩ | ⟨s', pre, code, h1, a1⟩
    · refine Or.inl ⟨s', h1, ?_, ?_, ?_, Or.inr ?_⟩
      · rw [a4]; simp [hcnt]
      · rw [a3]; simp
      · rw [a3]; simpa using hS
      · rw [a3, heq]; simp
    · exact Or.inr ⟨s', pre, code, h1, by simpa using a1⟩

theorem activeBelow_le (s : State F D) : ∀ i, activeBelow s i ≤ i
  | 0 => le_refl 0
  | i + 1 => by
    have := activeBelow_le s i
    rw [activeBelow]
    split_ifs <;> omega

theorem activeBelow_mono (s s' : State F D) :
    ∀ i, (∀ j, j < i → (s.g_execution j).counter < 0 → (s'.g_execution j).counter < 0) →
      activeBelow s' i ≤ activeBelow s i
  | 0, _ => le_refl 0
  | i + 1, h => by
    have h1 := activeBelow_mono s s' i (fun j hj => h j (by omega))
    have h2 := h i (by omega)
    rw [activeBelow, activeBelow]
    split_ifs <;> omega

theorem activeBelow_strict (s s' : State F D) :
    ∀ i, (∀ j, j < i → (s.g_execution j).counter < 0 → (s'.g_execution j).counter < 0) →
      (∃ j, j < i ∧ 0 ≤ (s.g_execution j).counter ∧ (s'.g_execution j).counter < 0) →
      activeBelow s' i < activeBelow s i
  | 0, _, ⟨j, hj, _⟩ => by omega
  | i + 1, h, ⟨j, hj, h1, h2⟩ => by
    have hm := activeBelow_mono s s' i (fun j hj => h j (by omega))
    have hi := h i (by omega)
    rw [activeBelow, activeBelow]
    by_cases hji : j = i
    · subst hji
      rw [if_pos h1, if_neg (by omega)]
      omega
    · have := activeBelow_strict s s' i (fun j hj => h j (by omega)) ⟨j, by omega, h1, h2⟩
      split_ifs <;> omega

end Engine


section Engine

variable {F D : Type}

/-- One tick seen from a channel `i` that runs forever (counter 0, non-empty
lists, step index in `-1 .. span - 1`), whatever the other channels do: unless
the tick reports an error, the lists are unchanged, the counter is still 0, the
index is the same or the next one modulo `span`, no `setTriggerFinished` is
issued for the channel, the active flag is set, no idle channel has become
active, and either the index is now in `0 .. span - 1` or the run of a channel
before `i` has just ended. -/
theorem tick_forever (p : Platform F D) (t i : Nat) (s s' : State F D) (span : Nat)
    (hi : i < p.CH_NUM)
    (hv : 0 < (s.g_channelsLists i).voltageListLength)
    (hc : 0 < (s.g_channelsLists i).currentListLength)
    (hd : 0 < (s.g_channelsLists i).dwellListLength)
    (hspan : maxListsSize s (Channel.get i) = span) (hs : span ≤ 32767)
    (hcnt : (s.g_execution i).counter = 0)
    (hit : -1 ≤ (s.g_execution i).it ∧ (s.g_execution i).it < span)
    (h : tick p t s = some s') :
    ∃ X, s'.log = s.log ++ X ∧
      ((∃ ev ∈ X, ev.isError = true) ∨
        (s'.g_channelsLists = s.g_channelsLists ∧
          (s'.g_execution i).counter = 0 ∧
          -1 ≤ (s'.g_execution i).it ∧ (s'.g_execution i).it < span ∧
          ((s'.g_execution i).it = (s.g_execution i).it ∨
            (s'.g_execution i).it = ((s.g_execution i).it + 1) % (span : Int)) ∧
          Event.setTriggerFinished (Channel.get i) ∉ X ∧
          s'.g_active = true ∧
          (∀ j, (s.g_execution j).counter < 0 → (s'.g_execution j).counter < 0) ∧
          (0 ≤ (s'.g_execution i).it ∨
            ∃ j, j < i ∧ 0 ≤ (s.g_execution j).counter ∧ (s'.g_execution j).counter < 0))) := by
  unfold tick at h
  rw [tickLoop_at p t i _ hi] at h
  cases h1 : tickLoop p t i 0 (s.setActive false) with
  | undefined => rw [h1] at h; cases h
  | ret s1 =>
    rw [h1] at h
    have hs1 : s1 = s' := by simpa [Flow.result] using h
    subst hs1
    obtain ⟨X, a1, a2⟩ := tickLoop_result p t i 0 (s.setActive false) s1 _ h1 rfl
    refine ⟨X, a1, a2.imp id ?_⟩
    rintro ⟨c1, c2, c3, c4, _, c6⟩
    obtain ⟨d1, j, _, d2, d3, d4⟩ := c6 s1 rfl
    have e := c2 i (Or.inr (by omega))
    simp only [State.setActive_execution] at e c3 d3
    refine ⟨c1, by rw [e]; exact hcnt, by rw [e]; exact hit.1, by rw [e]; exact hit.2,
      Or.inl (by rw [e]), c4 i (Or.inr (by omega)), d1, c3, Or.inr ⟨j, by omega, d3, d4⟩⟩
  | next s1 =>
    rw [h1] at h
    simp only [] at h
    obtain ⟨X1, a1, a2⟩ := tickLoop_result p t i 0 (s.setActive false) s1 _ h1 rfl
    simp only [State.setActive_log] at a1
    rcases a2 with ⟨ev, hev, herr⟩ | ⟨c1, c2, c3, c4, _, _⟩
    · -- an error before channel `i`: impossible without a return, but harmless
      cases h2 : tickChannel p t i s1 with
      | undefined => rw [h2] at h; cases h
      | ret s2 =>
        rw [h2] at h
        have hs2 : s2 = s' := by simpa [Flow.result] using h
        subst hs2
        obtain ⟨X2, b1, _⟩ := tickChannel_result p t i s1 s2 _ h2 rfl
        exact ⟨X1 ++ X2, by rw [b1, a1, List.append_assoc],
          Or.inl ⟨ev, by simp [hev], herr⟩⟩
      | next s2 =>
        rw [h2] at h
        simp only [] at h
        obtain ⟨X2, b1, _⟩ := tickChannel_result p t i s1 s2 _ h2 rfl
        obtain ⟨X3, g1, _⟩ := tickLoop_result p t _ _ s2 s' _ rfl h
        exact ⟨X1 ++ X2 ++ X3, by rw [g1, b1, a1]; simp [List.append_assoc],
          Or.inl ⟨ev, by simp [hev], herr⟩⟩
    have e := c2 i (Or.inr (by omega))
    simp only [State.setActive_execution, State.setActive_lists] at e c1 c3
    have hl : s1.g_channelsLists i = s.g_channelsLists i := by rw [c1]
    rcases tickChannel_forever p t i s1 span (by rw [hl]; exact hv) (by rw [hl]; exact hc)
        (by rw [hl]; exact hd) (by rw [maxListsSize_eq, hl, ← maxListsSize_eq]; exact hspan) hs
        (by rw [e]; exact hcnt) (by rw [e]; exact hit) with
      ⟨s2, h2, f1, f2, f3, f4⟩ | ⟨s2, pre, code, h2, f1⟩
    · rw [h2] at h
      simp only [] at h
      obtain ⟨X2, b1, b2⟩ := tickChannel_result p t i s1 s2 _ h2 rfl
      obtain ⟨X3, g1, g2⟩ := tickLoop_result p t _ _ s2 s' _ rfl h
      refine ⟨X1 ++ X2 ++ X3, by rw [g1, b1, a1]; simp [List.append_assoc], ?_⟩
      rcases b2 with ⟨ev, hev, herr⟩ | ⟨k1, k2, k3, k4, _, _, _, k8⟩
      · exact Or.inl ⟨ev, by simp [hev], herr⟩
      rcases g2 with ⟨ev, hev, herr⟩ | ⟨m1, m2, m3, m4, m5, _⟩
      · exact Or.inl ⟨ev, by simp [hev], herr⟩
      have e3 := m2 i (Or.inl (by omega))
      rw [e] at f4
      refine Or.inr ⟨by rw [m1, k1, c1], by rw [e3]; exact f1, by rw [e3]; omega,
        by rw [e3]; exact f3, by rw [e3]; exact f4, ?_, m5 (k4 (by rw [e]; omega)), ?_,
        Or.inl (by rw [e3]; exact f2)⟩
      · intro hmem
        simp only [List.mem_append] at hmem
        rcases hmem with (hmem | hmem) | hmem
        · exact c4 i (Or.inr (by omega)) hmem
        · exact (k8 s2 rfl).2 hmem
        · exact m4 i (Or.inl (by omega)) hmem
      · intro j hj
        apply m3
        by_cases hji : j = i
        · subst hji; omega
        · rw [k2 j hji]; exact c3 j hj
    · rw [h2] at h
      have hs2 : s2 = s' := by simpa [Flow.result] using h
      subst hs2
      exact ⟨X1 ++ (pre ++ [.generateError code]),
        by rw [f1, a1]; simp [List.append_assoc],
        Or.inl ⟨.generateError code, by simp, rfl⟩⟩

end Engine


section Engine

variable {F D : Type}

theorem runTicks_append (p : Platform F D) :
    ∀ (a b : List Nat) (s : State F D),
      runTicks p s (a ++ b) = (runTicks p s a).bind fun s => runTicks p s b
  | [], _, _ => rfl
  | t :: a, b, s => by
    cases h : tick p t s with
    | none => simp [runTicks, h]
    | some s1 =>
      rw [List.cons_append, runTicks_cons p s s1 t _ h, runTicks_cons p s s1 t _ h]
      exact runTicks_append p a b s1

/-- A run seen from a channel `i` that runs forever, whatever the other
channels do, as long as no error is reported. -/
theorem runTicks_forever (p : Platform F D) (i span : Nat) (l : ChannelLists F)
    (hi : i < p.CH_NUM) (hv : 0 < l.voltageListLength) (hc : 0 < l.currentListLength)
    (hd : 0 < l.dwellListLength)
    (hspan : span = max l.voltageListLength (max l.currentListLength l.dwellListLength))
    (hs : span ≤ 32767) :
    ∀ (ts : List Nat) (s s' : State F D), s.g_channelsLists i = l →
      (s.g_execution i).counter = 0 →
      (-1 ≤ (s.g_execution i).it ∧ (s.g_execution i).it < span) →
      runTicks p s ts = some s' →
      (∀ X, s'.log = s.log ++ X → ∀ ev ∈ X, ev.isError = false) →
      s'.g_channelsLists i = l ∧ (s'.g_execution i).counter = 0 ∧
      -1 ≤ (s'.g_execution i).it ∧ (s'.g_execution i).it < span ∧
      (∀ X, s'.log = s.log ++ X → Event.setTriggerFinished (Channel.get i) ∉ X) ∧
      (ts ≠ [] → s'.g_active = true) ∧
      (0 ≤ (s.g_execution i).it → 0 ≤ (s'.g_execution i).it) ∧
      (∀ j, (s.g_execution j).counter < 0 → (s'.g_execution j).counter < 0) ∧
      (0 ≤ (s'.g_execution i).it ∨ activeBelow s' i + ts.length ≤ activeBelow s i)
  | [], s, s', hl, hcnt, hit, hrun, _ => by
    simp only [runTicks, Option.some.injEq] at hrun
    subst hrun
    refine ⟨hl, hcnt, hit.1, hit.2, ?_, fun h0 => absurd rfl h0, fun h0 => h0, fun _ h0 => h0,
      Or.inr (by simp)⟩
    intro X hX
    have : X = [] := by simpa using hX
    simp [this]
  | t :: ts, s, s', hl, hcnt, hit, hrun, hok => by
    cases h1 : tick p t s with
    | none => simp [runTicks, h1] at hrun
    | some s1 =>
      rw [runTicks_cons p s s1 t ts h1] at hrun
      obtain ⟨X2, a2⟩ := runTicks_log p ts s1 s' hrun
      obtain ⟨X1, a1, a3⟩ := tick_forever p t i s s1 span hi (by rw [hl]; exact hv)
        (by rw [hl]; exact hc) (by rw [hl]; exact hd)
        (by rw [maxListsSize_eq, hl, hspan]) hs hcnt hit h1
      have hlog : s'.log = s.log ++ (X1 ++ X2) := by rw [a2, a1, List.append_assoc]
      rcases a3 with ⟨ev, hev, herr⟩ | ⟨c1, c2, c3, c4, c5, c6, c7, c8, c9⟩
      · have := hok (X1 ++ X2) hlog ev (by simp [hev])
        rw [this] at herr
        cases herr
      obtain ⟨d1, d2, d3, d4, d5, d6, d7, d8, d9⟩ := runTicks_forever p i span l hi hv hc hd
        hspan hs ts s1 s' (by rw [c1]; exact hl) c2 ⟨c3, c4⟩ hrun
        (fun X hX ev hev => hok (X1 ++ X) (by rw [hX, a1, List.append_assoc]) ev
          (by simp [hev]))
      have hpos : 0 ≤ (s.g_execution i).it → 0 ≤ (s1.g_execution i).it := by
        intro h0
        have hS : (0 : Int) < span := by omega
        rcases c5 with c5 | c5
        · omega
        · rw [c5]; exact Int.emod_nonneg _ (by omega)
      refine ⟨d1, d2, d3, d4, ?_, ?_, fun h0 => d7 (hpos h0), fun j hj => d8 j (c8 j hj), ?_⟩
      · intro X hX
        have : X = X1 ++ X2 := by
          rw [hlog] at hX
          exact (List.append_cancel_left hX).symm
        rw [this]
        intro hmem
        rcases List.mem_append.mp hmem with hmem | hmem
        · exact c6 hmem
        · exact d5 X2 a2 hmem
      · intro _
        by_cases hts : ts = []
        · subst hts
          simp only [runTicks, Option.some.injEq] at hrun
          subst hrun
          exact c7
        · exact d6 hts
      · rcases c9 with c9 | c9
        · exact Or.inl (d7 c9)
        · rcases d9 with d9 | d9
          · exact Or.inl d9
          · have := activeBelow_strict s s1 i (fun j _ hj => c8 j hj) c9
            refine Or.inr ?_
            simp only [List.length_cons]
            omega

end Engine


section Engine

variable {F D : Type}

/-- C10 (amended): a repeat count of 0 runs forever. Channel `i` (`i`
channels come before it in channel order) has three non-empty lists whose
longest length `span` fits the 16-bit step index and repeat count 0; it is
started and `tick` is called at the times `ts`, the other channels being in any
state, with no error reported. After every tick of the run (that is, in the
state reached after any `m` first ticks): the counter is 0, no
`setTriggerFinished` has been issued for the channel, `isActive()` is true, the
step index is in `-1 .. span - 1`, and it is in `0 .. span - 1` as soon as more
than `i` ticks have been made. From one tick to the next the index stays or
moves to the next one modulo `span`, so from `span - 1` back to 0. -/
theorem C10_repeat_count_zero_runs_forever (p : Platform F D) (s0 : State F D) (i : Nat)
    (ts : List Nat)
    (hi : i < p.CH_NUM)
    (hv : 0 < (s0.g_channelsLists i).voltageListLength)
    (hc : 0 < (s0.g_channelsLists i).currentListLength)
    (hd : 0 < (s0.g_channelsLists i).dwellListLength)
    (hs : maxListsSize s0 (Channel.get i) ≤ 32767)
    (hcount : (s0.g_channelsLists i).count = 0)
    (hok : ∀ m, m ≤ ts.length →
      ∀ s ∈ runTicks p (executionStart s0 (Channel.get i)) (ts.take m),
        ∀ ev ∈ s.log.drop s0.log.length, ev.isError = false) :
    (∀ m, m ≤ ts.length →
      ∀ s ∈ runTicks p (executionStart s0 (Channel.get i)) (ts.take m),
        (s.g_execution i).counter = 0 ∧
        Event.setTriggerFinished (Channel.get i) ∉ s.log.drop s0.log.length ∧
        (0 < m → isActive s = true) ∧
        -1 ≤ (s.g_execution i).it ∧
        (s.g_execution i).it < (maxListsSize s0 (Channel.get i) : Int) ∧
        (i < m → 0 ≤ (s.g_execution i).it)) ∧
    (∀ m, m < ts.length →
      ∀ sa ∈ runTicks p (executionStart s0 (Channel.get i)) (ts.take m),
      ∀ sb ∈ runTicks p (executionStart s0 (Channel.get i)) (ts.take (m + 1)),
        (sb.g_execution i).it = (sa.g_execution i).it ∨
        (sb.g_execution i).it =
          ((sa.g_execution i).it + 1) % (maxListsSize s0 (Channel.get i) : Int)) := by
  have hspan := maxListsSize_eq s0 i
  have hS : 0 < maxListsSize s0 (Channel.get i) := by omega
  have hstart : ((executionStart s0 (Channel.get i)).g_execution i).counter = 0 ∧
      ((executionStart s0 (Channel.get i)).g_execution i).it = -1 := by
    simp [executionStart, hcount]
  have hmain : ∀ m, m ≤ ts.length →
      ∀ s, runTicks p (executionStart s0 (Channel.get i)) (ts.take m) = some s →
        s.g_channelsLists i = s0.g_channelsLists i ∧ (s.g_execution i).counter = 0 ∧
        -1 ≤ (s.g_execution i).it ∧
        (s.g_execution i).it < (maxListsSize s0 (Channel.get i) : Int) ∧
        Event.setTriggerFinished (Channel.get i) ∉ s.log.drop s0.log.length ∧
        (0 < m → s.g_active = true) ∧ (i < m → 0 ≤ (s.g_execution i).it) := by
    intro m hm s hrun
    obtain ⟨X0, hX0⟩ := runTicks_log p _ _ s hrun
    have hX0' : s.log = s0.log ++ X0 := hX0
    obtain ⟨d1, d2, d3, d4, d5, d6, _, _, d9⟩ := runTicks_forever p i _ (s0.g_channelsLists i)
      hi hv hc hd hspan hs (ts.take m) (executionStart s0 (Channel.get i)) s rfl hstart.1
      (by rw [hstart.2]; omega) hrun
      (fun X hX ev hev => hok m hm s hrun ev (by
        have hX' : s.log = s0.log ++ X := hX
        rw [hX', List.drop_left]; exact hev))
    refine ⟨d1, d2, d3, d4, ?_, ?_, ?_⟩
    · rw [hX0', List.drop_left]
      exact d5 X0 hX0
    · intro h0
      apply d6
      intro h1
      have hlen : (ts.take m).length = m := by rw [List.length_take]; omega
      rw [h1] at hlen
      simp at hlen
      omega
    · intro h0
      rcases d9 with d9 | d9
      · exact d9
      · have := activeBelow_le (executionStart s0 (Channel.get i)) i
        rw [List.length_take, min_eq_left hm] at d9
        omega
  constructor
  · intro m hm s hrun
    obtain ⟨_, a2, a3, a4, a5, a6, a7⟩ := hmain m hm s hrun
    exact ⟨a2, a5, a6, a3, a4, a7⟩
  · intro m hm sa ha sb hb
    obtain ⟨a1, a2, a3, a4, _, _, _⟩ := hmain m (by omega) sa ha
    have e : ts.take (m + 1) = ts.take m ++ [ts.get ⟨m, hm⟩] := by
      rw [List.take_succ]
      simp [List.getElem?_eq_getElem hm]
    have hb' : runTicks p (executionStart s0 (Channel.get i)) (ts.take (m + 1)) = some sb := hb
    have ha' : runTicks p (executionStart s0 (Channel.get i)) (ts.take m) = some sa := ha
    rw [e, runTicks_append, ha'] at hb'
    have h1 : tick p ts[m] sa = some sb := by simpa [runTicks] using hb'
    obtain ⟨X1, b1, b2⟩ := tick_forever p _ i sa sb _ hi (by rw [a1]; exact hv)
      (by rw [a1]; exact hc) (by rw [a1]; exact hd)
      (by rw [maxListsSize_eq, a1, ← maxListsSize_eq]) hs a2 ⟨a3, a4⟩ h1
    rcases b2 with ⟨ev, hev, herr⟩ | ⟨_, _, _, _, c5, _⟩
    · obtain ⟨Xa, hXa⟩ := runTicks_log p _ _ sa ha'
      have hXa' : sa.log = s0.log ++ Xa := hXa
      have := hok (m + 1) (by omega) sb hb ev (by
        rw [b1, hXa', List.append_assoc, List.drop_left]
        simp [hev])
      rw [this] at herr
      cases herr
    · exact c5

end Engine

/-- C10, as stated, fails on the code once two channels come before the one
that runs forever. Three channels are idle; the first two (one point, repeat
count 1) are started and a tick at time 0 applies their point; the third
(two points, repeat count 0) is started; ticks follow at times 1000 and 2000.
The first of them ends the run of the first channel and returns, the second
ends the run of the second channel and returns: after the second tick that
follows its start the step index of the third channel is still `-1`, its
counter is 0 and no error was reported. -/
theorem C10_step_index_counterexample :
    ((tick (fixedPoint 3 256) 0
        (executionStart (executionStart c10State (Channel.get 0)) (Channel.get 1))).bind
      (fun s => runTicks (fixedPoint 3 256) (executionStart s (Channel.get 2)) [1000, 2000])).map
      (fun s => ((s.g_execution 2).it, (s.g_execution 2).counter, s.log.any Event.isError))
      = some (-1, 0, false) := by
  decide

/-- C10 (amended) on a concrete run: the third of three channels runs forever
while the first two end their runs; after four ticks (more than the two
channels before it) the counter is 0, `isActive()` is true and the step index
is not negative. -/
theorem C10_repeat_count_zero_runs_forever_witness :
    ∃ s, runTicks (fixedPoint 3 256) (executionStart c10Running (Channel.get 2))
        [1000, 2000, 3000, 4000] = some s ∧
      (s.g_execution 2).counter = 0 ∧ isActive s = true ∧ 0 ≤ (s.g_execution 2).it := by
  obtain ⟨s, hs⟩ := Option.isSome_iff_exists.mp
    (by decide : (runTicks (fixedPoint 3 256) (executionStart c10Running (Channel.get 2))
      [1000, 2000, 3000, 4000]).isSome = true)
  obtain ⟨a1, _, a3, _, _, a6⟩ := (C10_repeat_count_zero_runs_forever (fixedPoint 3 256)
    c10Running 2 [1000, 2000, 3000, 4000] (by decide) (by decide) (by decide) (by decide)
    (by decide) (by decide) (by decide)).1 4 (by decide) s hs
  exact ⟨s, hs, a1, a3 (by decide), a6 (by decide)⟩


/-! ### Loading a list file -/

section Codec

variable {F D File : Type}

/-- The three assignments at the end of a successful `loadList`, on the lists
of the channel. -/
theorem commit_lists (s : State F D) (channel : Channel) (dl vl cl : Nat → F) (dn vn cn : Nat) :
    (setCurrentList (setVoltageList (setDwellList s channel dl dn) channel vl vn)
        channel cl cn).g_channelsLists (channel.index - 1) =
      { dwellList := memcpy (s.g_channelsLists (channel.index - 1)).dwellList dl dn
        dwellListLength := dn
        voltageList := memcpy (s.g_channelsLists (channel.index - 1)).voltageList vl vn
        voltageListLength := vn
        currentList := memcpy (s.g_channelsLists (channel.index - 1)).currentList cl cn
        currentListLength := cn
        count := (s.g_channelsLists (channel.index - 1)).count
        changed := true } := by
  simp [setCurrentList, setVoltageList, setDwellList, State.setChannelLists]

/-- The three assignments at the end of a successful `loadList` touch nothing
but the lists of the channel. -/
theorem commit_frame (s : State F D) (channel : Channel) (dl vl cl : Nat → F) (dn vn cn : Nat) :
    (∀ j, j ≠ channel.index - 1 →
      (setCurrentList (setVoltageList (setDwellList s channel dl dn) channel vl vn)
        channel cl cn).g_channelsLists j = s.g_channelsLists j) ∧
    (setCurrentList (setVoltageList (setDwellList s channel dl dn) channel vl vn)
        channel cl cn).g_execution = s.g_execution ∧
    (setCurrentList (setVoltageList (setDwellList s channel dl dn) channel vl vn)
        channel cl cn).g_active = s.g_active ∧
    (setCurrentList (setVoltageList (setDwellList s channel dl dn) channel vl vn)
        channel cl cn).dispatcher = s.dispatcher ∧
    (setCurrentList (setVoltageList (setDwellList s channel dl dn) channel vl vn)
        channel cl cn).log = s.log := by
  refine ⟨fun j hj => ?_, rfl, rfl, rfl, rfl⟩
  simp [setCurrentList, setVoltageList, setDwellList, State.setChannelLists, hj]

/-- C4: `loadList` is all-or-nothing. If it returns false the state is exactly
the one before the call, and (in a build with the SD card option) the code is
the generic execution error. If it returns true the file was opened and read
without failure, and the three sequences and lengths of the channel are the
ones read, the dirty flag is true and the repeat count is kept. In both cases
the lists of the other channels, the execution state of all channels, the
active flag, the dispatcher and the log are unchanged. -/
theorem C4_loadList_all_or_nothing (p : Platform F D) (sd : SdCard File F) (s : State F D)
    (channel : Channel) (filePath : String) (uninit : Nat → F) :
    ((loadList p sd s channel filePath uninit).success = false →
      (loadList p sd s channel filePath uninit).state = s ∧
      (sd.OPTION_SD_CARD = true →
        (loadList p sd s channel filePath uninit).err = some .SCPI_ERROR_EXECUTION_ERROR)) ∧
    ((loadList p sd s channel filePath uninit).success = true →
      ∃ file, sd.openRead filePath = some file ∧
        (loadRows p sd file uninit).success = true ∧
        ((loadList p sd s channel filePath uninit).state.g_channelsLists
            (channel.index - 1)).dwellListLength = (loadRows p sd file uninit).dwellListLength ∧
        ((loadList p sd s channel filePath uninit).state.g_channelsLists
            (channel.index - 1)).voltageListLength =
          (loadRows p sd file uninit).voltageListLength ∧
        ((loadList p sd s channel filePath uninit).state.g_channelsLists
            (channel.index - 1)).currentListLength =
          (loadRows p sd file uninit).currentListLength ∧
        (∀ k, k < (loadRows p sd file uninit).dwellListLength →
          ((loadList p sd s channel filePath uninit).state.g_channelsLists
            (channel.index - 1)).dwellList k = (loadRows p sd file uninit).dwellList k) ∧
        (∀ k, k < (loadRows p sd file uninit).voltageListLength →
          ((loadList p sd s channel filePath uninit).state.g_channelsLists
            (channel.index - 1)).voltageList k = (loadRows p sd file uninit).voltageList k) ∧
        (∀ k, k < (loadRows p sd file uninit).currentListLength →
          ((loadList p sd s channel filePath uninit).state.g_channelsLists
            (channel.index - 1)).currentList k = (loadRows p sd file uninit).currentList k) ∧
        ((loadList p sd s channel filePath uninit).state.g_channelsLists
            (channel.index - 1)).changed = true ∧
        ((loadList p sd s channel filePath uninit).state.g_channelsLists
            (channel.index - 1)).count = (s.g_channelsLists (channel.index - 1)).count) ∧
    (∀ j, j ≠ channel.index - 1 →
      (loadList p sd s channel filePath uninit).state.g_channelsLists j = s.g_channelsLists j) ∧
    (loadList p sd s channel filePath uninit).state.g_execution = s.g_execution ∧
    (loadList p sd s channel filePath uninit).state.g_active = s.g_active ∧
    (loadList p sd s channel filePath uninit).state.dispatcher = s.dispatcher ∧
    (loadList p sd s channel filePath uninit).state.log = s.log := by
  unfold loadList
  cases hopt : sd.OPTION_SD_CARD
  · simp
  cases hopen : sd.openRead filePath with
  | none => simp
  | some file =>
    cases hsucc : (loadRows p sd file uninit).success
    · simp [hsucc]
    · have hf := commit_frame s channel (loadRows p sd file uninit).dwellList
        (loadRows p sd file uninit).voltageList (loadRows p sd file uninit).currentList
        (loadRows p sd file uninit).dwellListLength (loadRows p sd file uninit).voltageListLength
        (loadRows p sd file uninit).currentListLength
      have hl := commit_lists s channel (loadRows p sd file uninit).dwellList
        (loadRows p sd file uninit).voltageList (loadRows p sd file uninit).currentList
        (loadRows p sd file uninit).dwellListLength (loadRows p sd file uninit).voltageListLength
        (loadRows p sd file uninit).currentListLength
      simp only [hsucc, if_true, Bool.true_eq_false, false_implies, true_and, true_implies,
        Option.some.injEq, exists_eq_left', hl]
      refine ⟨⟨?_, ?_, ?_, trivial⟩, hf⟩
      · intro k hk; simp [memcpy, hk]
      · intro k hk; simp [memcpy, hk]
      · intro k hk; simp [memcpy, hk]

end Codec


section Codec

variable {F D File : Type}

theorem columnFields_append (c : Column) (t1 t2 : List (Column × Field F)) :
    columnFields c (t1 ++ t2) = columnFields c t1 ++ columnFields c t2 := by
  simp [columnFields]

theorem columnFields_single_same (c : Column) (f : Field F) :
    columnFields c [(c, f)] = [f] := by
  simp [columnFields]

theorem columnFields_single_other {c c' : Column} (f : Field F) (h : c' ≠ c) :
    columnFields c [(c', f)] = [] := by
  simp [columnFields, h]

theorem LoadLocals.length_store_other (l : LoadLocals File F) {c c' : Column} (i : Nat)
    (v : F) (h : c' ≠ c) : (l.store c' i v).length c = l.length c := by
  cases c <;> cases c' <;> first | exact absurd rfl h | rfl

theorem LoadLocals.list_store_other (l : LoadLocals File F) {c c' : Column} (i : Nat)
    (v : F) (h : c' ≠ c) : (l.store c' i v).list c = l.list c := by
  cases c <;> cases c' <;> first | exact absurd rfl h | rfl

theorem LoadLocals.trace_store (l : LoadLocals File F) (c : Column) (i : Nat) (v : F) :
    (l.store c i v).trace = l.trace := by
  cases c <;> rfl

theorem LoadLocals.success_store (l : LoadLocals File F) (c : Column) (i : Nat) (v : F) :
    (l.store c i v).success = l.success := by
  cases c <;> rfl

theorem LoadLocals.length_store_same (l : LoadLocals File F) (c : Column) (i : Nat) (v : F)
    (h : i = l.length c) : (l.store c i v).length c = l.length c + 1 := by
  cases c <;> simp [LoadLocals.store, LoadLocals.length] at h ⊢
  exact h

theorem LoadLocals.list_store_same (l : LoadLocals File F) (c : Column) (i : Nat) (v : F) :
    (l.store c i v).list c = Function.update (l.list c) i v := by
  cases c <;> rfl

/-- The outcomes of one block of the loop of `loadList`, by the field read. -/
theorem loadColumn_cases (sd : SdCard File F) (c : Column) (i : Nat) (l : LoadLocals File F) :
    ((readField sd l.file).1 = .noValue ∧ ¬ i < l.length c ∧
      loadColumn sd c i l = .cont { l with file := (readField sd l.file).2
                                           trace := l.trace ++ [(c, .noValue)] }) ∨
    ((readField sd l.file).1 = .noValue ∧ i < l.length c ∧
      loadColumn sd c i l = .brk { l with file := (readField sd l.file).2
                                          trace := l.trace ++ [(c, .noValue)]
                                          success := false }) ∨
    (∃ v, (readField sd l.file).1 = .number v ∧ i = l.length c ∧
      loadColumn sd c i l = .cont (LoadLocals.store
        { l with file := (readField sd l.file).2
                 trace := l.trace ++ [(c, .number v)] } c i v)) ∨
    (∃ v, (readField sd l.file).1 = .number v ∧ i ≠ l.length c ∧
      loadColumn sd c i l = .brk { l with file := (readField sd l.file).2
                                          trace := l.trace ++ [(c, .number v)]
                                          success := false }) ∨
    ((readField sd l.file).1 = .other ∧
      loadColumn sd c i l = .brk { l with file := (readField sd l.file).2
                                          trace := l.trace ++ [(c, .other)]
                                          success := false }) := by
  have hlen : ∀ (f : File) (t : List (Column × Field F)),
      LoadLocals.length { l with file := f, trace := t } c = l.length c := by
    intro f t; cases c <;> rfl
  unfold loadColumn
  cases hf : (readField sd l.file).1 with
  | noValue =>
    simp only [hlen]
    by_cases h : i < l.length c
    · exact Or.inr (Or.inl ⟨trivial, h, by rw [if_pos h]⟩)
    · exact Or.inl ⟨trivial, h, by rw [if_neg h]⟩
  | number v =>
    simp only [hlen]
    by_cases h : i = l.length c
    · exact Or.inr (Or.inr (Or.inl ⟨v, rfl, h, by rw [if_pos h]⟩))
    · exact Or.inr (Or.inr (Or.inr (Or.inl ⟨v, rfl, h, by rw [if_neg h]⟩)))
  | other =>
    exact Or.inr (Or.inr (Or.inr (Or.inr ⟨rfl, rfl⟩)))

end Codec


section Codec

variable {F D File : Type}

theorem ColumnOk.of_file (c : Column) (i : Nat) (l : LoadLocals File F) (f : File)
    (h : ColumnOk c i l) : ColumnOk c i { l with file := f } := by
  cases c <;> exact h

theorem ColumnOk.init (c : Column) (file : File) (uninit : Nat → F) :
    ColumnOk c 0 (loadInit file uninit) := by
  refine ⟨[], ?_, ?_, ?_, ?_⟩
  · cases c <;> rfl
  · cases c <;> simp [loadInit, LoadLocals.length]
  · simp [loadInit, columnFields]
  · intro k hk; simp at hk

/-- A block of the loop that does not leave the loop has read one more field
of its column and accepted it; the other columns are as before. -/
theorem loadColumn_cont (sd : SdCard File F) (c : Column) (i : Nat) (l l' : LoadLocals File F)
    (h : loadColumn sd c i l = .cont l') (hok : ColumnOk c i l) :
    ColumnOk c (i + 1) l' ∧ (∀ c' r, c' ≠ c → ColumnOk c' r l → ColumnOk c' r l') ∧
      l'.success = l.success := by
  obtain ⟨vs, h1, h2, h3, h4⟩ := hok
  rcases loadColumn_cases sd c i l with ⟨_, _, e⟩ | ⟨_, _, e⟩ | ⟨v, _, hi, e⟩ | ⟨v, _, _, e⟩ |
      ⟨_, e⟩
  · rw [e] at h
    cases h
    refine ⟨⟨vs, ?_, ?_, ?_, ?_⟩, ?_, rfl⟩
    · cases c <;> exact h1
    · have : l.length c ≤ i + 1 := by omega
      cases c <;> exact this
    · simp only [columnFields_append, columnFields_single_same, h3, List.append_assoc]
      congr 1
      have e1 : i + 1 - vs.length = (i - vs.length) + 1 := by omega
      rw [e1, List.replicate_succ']
    · intro k hk
      have := h4 k hk
      cases c <;> exact this
    · intro c' r hne ⟨ws, g1, g2, g3, g4⟩
      refine ⟨ws, ?_, ?_, ?_, ?_⟩
      · cases c' <;> exact g1
      · cases c' <;> exact g2
      · simp only [columnFields_append, columnFields_single_other _ hne.symm, List.append_nil]
        exact g3
      · intro k hk
        have := g4 k hk
        cases c' <;> exact this
  · rw [e] at h; cases h
  · rw [e] at h
    cases h
    have hlen : ∀ (f : File) (t : List (Column × Field F)),
        LoadLocals.length { l with file := f, trace := t } c = l.length c := by
      intro f t; cases c <;> rfl
    have hlist : ∀ (f : File) (t : List (Column × Field F)),
        LoadLocals.list { l with file := f, trace := t } c = l.list c := by
      intro f t; cases c <;> rfl
    refine ⟨⟨vs ++ [v], ?_, ?_, ?_, ?_⟩, ?_, ?_⟩
    · rw [LoadLocals.length_store_same _ _ _ _ (by rw [hlen]; exact hi), hlen]
      simp [h1]
    · rw [LoadLocals.length_store_same _ _ _ _ (by rw [hlen]; exact hi), hlen]
      omega
    · rw [LoadLocals.trace_store]
      simp only [columnFields_append, columnFields_single_same, h3]
      have e1 : i - vs.length = 0 := by omega
      have e2 : i + 1 - (vs ++ [v]).length = 0 := by simp; omega
      rw [e1, e2]
      simp
    · intro k hk
      rw [LoadLocals.list_store_same, hlist]
      by_cases hki : k = i
      · subst hki
        simp only [Function.update_same]
        have : k = vs.length := by omega
        subst this
        simp
      · rw [Function.update_noteq hki]
        have hk' : k < vs.length := by
          simp at hk
          omega
        rw [h4 k hk']
        simp [List.getElem_append_left hk']
    · intro c' r hne ⟨ws, g1, g2, g3, g4⟩
      refine ⟨ws, ?_, ?_, ?_, ?_⟩
      · rw [LoadLocals.length_store_other _ _ _ hne.symm]
        cases c' <;> exact g1
      · rw [LoadLocals.length_store_other _ _ _ hne.symm]
        cases c' <;> exact g2
      · rw [LoadLocals.trace_store]
        simp only [columnFields_append, columnFields_single_other _ hne.symm, List.append_nil]
        exact g3
      · intro k hk
        rw [LoadLocals.list_store_other _ _ _ hne.symm]
        have := g4 k hk
        cases c' <;> exact this
    · rw [LoadLocals.success_store]
  · rw [e] at h; cases h
  · rw [e] at h; cases h

/-- A block of the loop that leaves the loop has set `success` to false, and
when the recorded length of its column is at most the row index, the field it
read is not the "no value" marker. -/
theorem loadColumn_brk (sd : SdCard File F) (c : Column) (i : Nat) (l l' : LoadLocals File F)
    (h : loadColumn sd c i l = .brk l') :
    l'.success = false ∧
      (l.length c ≤ i → ∃ f, l'.trace = l.trace ++ [(c, f)] ∧ f ≠ .noValue) := by
  rcases loadColumn_cases sd c i l with ⟨_, _, e⟩ | ⟨_, hi, e⟩ | ⟨v, _, hi, e⟩ | ⟨v, _, _, e⟩ |
      ⟨_, e⟩
  · rw [e] at h; cases h
  · rw [e] at h
    cases h
    exact ⟨rfl, fun h0 => absurd hi (by omega)⟩
  · rw [e] at h; cases h
  · rw [e] at h
    cases h
    exact ⟨rfl, fun _ => ⟨.number v, rfl, by simp⟩⟩
  · rw [e] at h
    cases h
    exact ⟨rfl, fun _ => ⟨.other, rfl, by simp⟩⟩

end Codec


section Codec

variable {F D File : Type}

/-- The loop of `loadList`, entered at row `i` with every column in order:
if it ends with `success` true, every column is in order at the row reached,
and at most `n` rows were read; if it ends with `success` false, the field
read last is not the "no value" marker. -/
theorem loadLoop_inv (sd : SdCard File F) :
    ∀ (n i : Nat) (l : LoadLocals File F), l.success = true → (∀ c, ColumnOk c i l) →
      ((loadLoop sd n i l).success = true →
        ∃ i', i ≤ i' ∧ i' ≤ i + n ∧ ∀ c, ColumnOk c i' (loadLoop sd n i l)) ∧
      ((loadLoop sd n i l).success = false →
        ∃ tr c f, (loadLoop sd n i l).trace = tr ++ [(c, f)] ∧ f ≠ .noValue)
  | 0, i, l, hs, hok => by
    simp only [loadLoop]
    exact ⟨fun _ => ⟨i, le_refl i, by omega, hok⟩, fun h => by rw [hs] at h; cases h⟩
  | n + 1, i, l, hs, hok => by
    rw [loadLoop]
    simp only []
    have hok0 : ∀ c, ColumnOk c i { l with file := sd.matchZeroOrMoreSpaces l.file } :=
      fun c => ColumnOk.of_file c i l _ (hok c)
    by_cases hav : sd.available (sd.matchZeroOrMoreSpaces l.file) = true
    swap
    · simp only [hav, Bool.not_false, if_true]
      exact ⟨fun _ => ⟨i, le_refl i, by omega, hok0⟩, fun h => by rw [hs] at h; cases h⟩
    simp only [hav, Bool.not_true, Bool.false_eq_true, if_false]
    cases h1 : loadColumn sd .dwell i { l with file := sd.matchZeroOrMoreSpaces l.file } with
    | brk l1 =>
      obtain ⟨a1, a2⟩ := loadColumn_brk sd _ i _ l1 h1
      obtain ⟨f, a3, a4⟩ := a2 (by obtain ⟨_, _, g, _⟩ := hok .dwell; exact g)
      exact ⟨fun h => (by rw [a1] at h; cases h), fun _ => ⟨_, _, f, a3, a4⟩⟩
    | cont l1 =>
      obtain ⟨b1, b2, b3⟩ := loadColumn_cont sd _ i _ l1 h1 (hok0 .dwell)
      simp only []
      cases h2 : loadColumn sd .voltage i (skipSeparator sd l1) with
      | brk l2 =>
        obtain ⟨a1, a2⟩ := loadColumn_brk sd _ i _ l2 h2
        obtain ⟨f, a3, a4⟩ := a2 (by
          obtain ⟨_, _, g, _⟩ := b2 .voltage i (by simp) (hok0 .voltage); exact g)
        exact ⟨fun h => (by rw [a1] at h; cases h), fun _ => ⟨_, _, f, a3, a4⟩⟩
      | cont l2 =>
        obtain ⟨c1, c2, c3⟩ := loadColumn_cont sd _ i _ l2 h2
          (ColumnOk.of_file _ _ _ _ (b2 .voltage i (by simp) (hok0 .voltage)))
        simp only []
        cases h3 : loadColumn sd .current i (skipSeparator sd l2) with
        | brk l3 =>
          obtain ⟨a1, a2⟩ := loadColumn_brk sd _ i _ l3 h3
          obtain ⟨f, a3, a4⟩ := a2 (by
            obtain ⟨_, _, g, _⟩ := c2 .current i (by simp)
              (ColumnOk.of_file _ _ _ _ (b2 .current i (by simp) (hok0 .current)))
            exact g)
          exact ⟨fun h => (by rw [a1] at h; cases h), fun _ => ⟨_, _, f, a3, a4⟩⟩
        | cont l3 =>
          obtain ⟨d1, d2, d3⟩ := loadColumn_cont sd _ i _ l3 h3
            (ColumnOk.of_file _ _ _ _ (c2 .current i (by simp)
              (ColumnOk.of_file _ _ _ _ (b2 .current i (by simp) (hok0 .current)))))
          simp only []
          have hs3 : l3.success = true := by
            rw [d3]
            show l2.success = true
            rw [c3]
            show l1.success = true
            rw [b3]
            exact hs
          have hok3 : ∀ c, ColumnOk c (i + 1) l3 := by
            intro c
            cases c
            · exact d2 .dwell (i + 1) (by simp) (ColumnOk.of_file _ _ _ _
                (c2 .dwell (i + 1) (by simp) (ColumnOk.of_file _ _ _ _ b1)))
            · exact d2 .voltage (i + 1) (by simp) (ColumnOk.of_file _ _ _ _ c1)
            · exact d1
          obtain ⟨e1, e2⟩ := loadLoop_inv sd n (i + 1) l3 hs3 hok3
          refine ⟨fun h => ?_, e2⟩
          obtain ⟨i', g1, g2, g3⟩ := e1 h
          exact ⟨i', by omega, by omega, g3⟩

/-- In a column made of numbers followed by markers only, a number in row `i`
has numbers only before it. -/
theorem numbers_then_markers (vs : List F) (m i : Nat) (v : F)
    (h : (vs.map Field.number ++ List.replicate m Field.noValue)[i]? = some (.number v)) :
    ((vs.map Field.number ++ List.replicate m Field.noValue).take i).countP Field.isNumber
      = i := by
  by_cases hi : i < vs.length
  · rw [List.take_append_of_le_length (by simp; omega), ← List.map_take, List.countP_map]
    rw [List.countP_eq_length.mpr (by intro a _; rfl)]
    simp
    omega
  · rw [List.getElem?_append_right (by simp; omega)] at h
    rcases List.getElem?_eq_some.mp h with ⟨_, h'⟩
    simp at h'

end Codec


section Codec

variable {F D File : Type}

theorem loadList_success_eq (p : Platform F D) (sd : SdCard File F) (s : State F D)
    (channel : Channel) (filePath : String) (uninit : Nat → F) (file : File)
    (hopt : sd.OPTION_SD_CARD = true) (hopen : sd.openRead filePath = some file) :
    (loadList p sd s channel filePath uninit).success = (loadRows p sd file uninit).success := by
  unfold loadList
  rw [hopt, hopen]
  cases h : (loadRows p sd file uninit).success <;> simp [h]

/-- C5: out-of-order numbers are rejected. The file is opened and `c` is one of
the three columns; the fields read for it are taken in row order. If the field
of row `i` is a number while the fields of the rows before it are not `i`
numbers (a number follows a field that is not a number), `loadList` fails.
Conversely, when `loadList` succeeds, at most `MAX_LIST_LENGTH` rows were read,
and the fields of the column are numbers in rows `0 .. len - 1`, `len` being
the length stored for the column, followed by "no value" markers only; the
stored values are these numbers. -/
theorem C5_out_of_order_numbers_rejected (p : Platform F D) (sd : SdCard File F)
    (s : State F D) (channel : Channel) (filePath : String) (uninit : Nat → F) (file : File)
    (c : Column)
    (hopt : sd.OPTION_SD_CARD = true) (hopen : sd.openRead filePath = some file) :
    (∀ i v, (columnFields c (loadRows p sd file uninit).trace)[i]? = some (.number v) →
      ((columnFields c (loadRows p sd file uninit).trace).take i).countP Field.isNumber ≠ i →
      (loadList p sd s channel filePath uninit).success = false) ∧
    ((loadList p sd s channel filePath uninit).success = true →
      ∃ (vs : List F) (rows : Nat), rows ≤ p.MAX_LIST_LENGTH ∧
        vs.length = ((loadList p sd s channel filePath uninit).state.g_channelsLists
          (channel.index - 1)).lengthOf c ∧
        vs.length ≤ rows ∧
        columnFields c (loadRows p sd file uninit).trace =
          vs.map Field.number ++ List.replicate (rows - vs.length) Field.noValue ∧
        ∀ k (hk : k < vs.length),
          ((loadList p sd s channel filePath uninit).state.g_channelsLists
            (channel.index - 1)).listOf c k = vs.get ⟨k, hk⟩) := by
  have hsucc := loadList_success_eq p sd s channel filePath uninit file hopt hopen
  have hinv := (loadLoop_inv sd p.MAX_LIST_LENGTH 0 (loadInit file uninit) rfl
    (fun c => ColumnOk.init c file uninit)).1
  have hstruct : (loadRows p sd file uninit).success = true →
      ∃ (vs : List F) (rows : Nat), rows ≤ p.MAX_LIST_LENGTH ∧
        vs.length = (loadRows p sd file uninit).length c ∧ vs.length ≤ rows ∧
        columnFields c (loadRows p sd file uninit).trace =
          vs.map Field.number ++ List.replicate (rows - vs.length) Field.noValue ∧
        ∀ k (hk : k < vs.length), (loadRows p sd file uninit).list c k = vs.get ⟨k, hk⟩ := by
    intro h
    obtain ⟨i', _, g2, g3⟩ := hinv h
    obtain ⟨vs, a1, a2, a3, a4⟩ := g3 c
    exact ⟨vs, i', by omega, a1, by omega, a3, a4⟩
  constructor
  · intro i v hi hcount
    rw [hsucc]
    by_contra hne
    obtain ⟨vs, rows, _, _, _, a3, _⟩ := hstruct (by simpa using hne)
    rw [a3] at hi hcount
    exact hcount (numbers_then_markers vs _ i v hi)
  · intro h
    rw [hsucc] at h
    obtain ⟨vs, rows, a0, a1, a2, a3, a4⟩ := hstruct h
    have hstate : (loadList p sd s channel filePath uninit).state =
        setCurrentList (setVoltageList (setDwellList s channel
          (loadRows p sd file uninit).dwellList (loadRows p sd file uninit).dwellListLength)
          channel (loadRows p sd file uninit).voltageList
          (loadRows p sd file uninit).voltageListLength)
          channel (loadRows p sd file uninit).currentList
          (loadRows p sd file uninit).currentListLength := by
      unfold loadList
      rw [hopt, hopen]
      simp [h]
    rw [hstate, commit_lists]
    refine ⟨vs, rows, a0, ?_, a2, a3, ?_⟩
    · rw [a1]; cases c <;> rfl
    · intro k hk
      rw [← a4 k hk]
      have hk' : k < (loadRows p sd file uninit).length c := by omega
      cases c <;> simp [ChannelLists.listOf, memcpy, LoadLocals.list, LoadLocals.length] at hk' ⊢
      all_goals simp [hk']

/-- C6 (amended): a "no value" marker is never rejected. In any block of the
loop, a marker read in row `i` for a column whose recorded length is at most
`i` (less than `i` included) is accepted and leaves the length as it is; the
marker is rejected only when the recorded length exceeds `i`, which does not
happen in the loop. Hence when `loadList` fails after opening the file, the
field read last is a number out of order or a token that is neither marker nor
number; the code is the generic execution error and the state is unchanged. -/
theorem C6_marker_never_rejected (p : Platform F D) (sd : SdCard File F)
    (s : State F D) (channel : Channel) (filePath : String) (uninit : Nat → F) (file : File)
    (hopt : sd.OPTION_SD_CARD = true) (hopen : sd.openRead filePath = some file) :
    (∀ (c : Column) (i : Nat) (l : LoadLocals File F), l.length c ≤ i →
      (readField sd l.file).1 = .noValue →
      ∃ l', loadColumn sd c i l = .cont l' ∧ l'.length c = l.length c ∧
        l'.success = l.success) ∧
    ((loadList p sd s channel filePath uninit).success = false →
      (∃ tr c f, (loadRows p sd file uninit).trace = tr ++ [(c, f)] ∧ f ≠ .noValue) ∧
      (loadList p sd s channel filePath uninit).err = some .SCPI_ERROR_EXECUTION_ERROR ∧
      (loadList p sd s channel filePath uninit).state = s) := by
  constructor
  · intro c i l hlen hf
    rcases loadColumn_cases sd c i l with ⟨_, _, e⟩ | ⟨_, hi, _⟩ | ⟨v, hv, _, _⟩ |
        ⟨v, hv, _, _⟩ | ⟨ho, _⟩
    · exact ⟨_, e, by cases c <;> rfl, rfl⟩
    · omega
    · rw [hf] at hv; cases hv
    · rw [hf] at hv; cases hv
    · rw [hf] at ho; cases ho
  · intro h
    have hsucc := loadList_success_eq p sd s channel filePath uninit file hopt hopen
    rw [hsucc] at h
    refine ⟨(loadLoop_inv sd p.MAX_LIST_LENGTH 0 (loadInit file uninit) rfl
      (fun c => ColumnOk.init c file uninit)).2 h, ?_, ?_⟩
    · unfold loadList
      rw [hopt, hopen]
      simp [h]
    · unfold loadList
      rw [hopt, hopen]
      simp [h]

end Codec

/-- C4 on two files: a file with an illegal token in its second row is not
loaded, the state is the one before the call and the code is the execution
error; a well-formed file is loaded and the dirty flag is set. -/
theorem C4_loadList_all_or_nothing_witness :
    ((loadList (fixedPoint 2 256) (exampleCard "0.001,1.5,0.5\n0.002,x,0.5\n") c8State
        (Channel.get 0) "list.csv" (fun _ => 0)).state = c8State ∧
      (loadList (fixedPoint 2 256) (exampleCard "0.001,1.5,0.5\n0.002,x,0.5\n") c8State
        (Channel.get 0) "list.csv" (fun _ => 0)).err = some .SCPI_ERROR_EXECUTION_ERROR) ∧
    ((loadList (fixedPoint 2 256) (exampleCard "0.001,1.5,0.5\n=,2.5,=\n") c8State
        (Channel.get 0) "list.csv" (fun _ => 0)).state.g_channelsLists 0).changed = true := by
  obtain ⟨h1, _⟩ := C4_loadList_all_or_nothing (fixedPoint 2 256)
    (exampleCard "0.001,1.5,0.5\n0.002,x,0.5\n") c8State (Channel.get 0) "list.csv" (fun _ => 0)
  obtain ⟨_, h2, _⟩ := C4_loadList_all_or_nothing (fixedPoint 2 256)
    (exampleCard "0.001,1.5,0.5\n=,2.5,=\n") c8State (Channel.get 0) "list.csv" (fun _ => 0)
  obtain ⟨a1, a2⟩ := h1 (by decide)
  obtain ⟨_, _, _, _, _, _, _, _, _, b, _⟩ := h2 (by decide)
  exact ⟨⟨a1, a2 rfl⟩, b⟩

/-- C5 on a file whose dwell column is a number, a marker, a number: the
number of the third row follows a marker, and the load fails. -/
theorem C5_out_of_order_numbers_rejected_witness :
    (loadList (fixedPoint 2 256) (exampleCard "0.001,1.5,0.5\n=,2,=\n0.003,3,=") c8State
      (Channel.get 0) "list.csv" (fun _ => 0)).success = false :=
  (C5_out_of_order_numbers_rejected (fixedPoint 2 256)
    (exampleCard "0.001,1.5,0.5\n=,2,=\n0.003,3,=") c8State (Channel.get 0) "list.csv"
    (fun _ => 0) "0.001,1.5,0.5\n=,2,=\n0.003,3,=".toList .dwell (by decide) (by decide)).1
    2 3000 (by decide) (by decide)

/-- C6, as stated, fails on the code: in the file below the dwell column holds
the "no value" marker in row 1 while it has recorded no entry for row 0 (its
recorded length, 0, is less than 1); `loadList` succeeds and stores a dwell list
of length 0 and voltage and current lists of length 2. -/
theorem C6_premature_marker_counterexample :
    columnFields .dwell (loadRows (fixedPoint 2 256)
        (exampleCard "=,1.000000,0.500000\n=,2.000000,0.500000\n")
        "=,1.000000,0.500000\n=,2.000000,0.500000\n".toList (fun _ => 0)).trace
      = [.noValue, .noValue] ∧
    (loadList (fixedPoint 2 256) (exampleCard "=,1.000000,0.500000\n=,2.000000,0.500000\n")
      c8State (Channel.get 0) "list.csv" (fun _ => 0)).success = true ∧
    ((loadList (fixedPoint 2 256) (exampleCard "=,1.000000,0.500000\n=,2.000000,0.500000\n")
      c8State (Channel.get 0) "list.csv" (fun _ => 0)).state.g_channelsLists 0).dwellListLength
      = 0 ∧
    ((loadList (fixedPoint 2 256) (exampleCard "=,1.000000,0.500000\n=,2.000000,0.500000\n")
      c8State (Channel.get 0) "list.csv" (fun _ => 0)).state.g_channelsLists 0).voltageListLength
      = 2 := by
  decide

/-- C6 (amended) on a file that is not loaded: the field read last is the
number 0.003 of the dwell column, out of order after a marker. -/
theorem C6_marker_never_rejected_witness :
    (∃ tr c f, (loadRows (fixedPoint 2 256) (exampleCard "0.001,1.5,0.5\n=,2,=\n0.003,3,=")
        "0.001,1.5,0.5\n=,2,=\n0.003,3,=".toList (fun _ => 0)).trace = tr ++ [(c, f)] ∧
      f ≠ .noValue) ∧
    (loadList (fixedPoint 2 256) (exampleCard "0.001,1.5,0.5\n=,2,=\n0.003,3,=") c8State
      (Channel.get 0) "list.csv" (fun _ => 0)).state = c8State :=
  have h := (C6_marker_never_rejected (fixedPoint 2 256)
    (exampleCard "0.001,1.5,0.5\n=,2,=\n0.003,3,=") c8State (Channel.get 0) "list.csv"
    (fun _ => 0) "0.001,1.5,0.5\n=,2,=\n0.003,3,=".toList (by decide) (by decide)).2 (by decide)
  ⟨h.1, h.2.2⟩


/-! ### Saving and loading back -/

section RoundTrip

variable {F D : Type}

theorem saveLoop_eq (w : SdWriter F) (l : ChannelLists F) :
    ∀ (m i : Nat) (out : List Char),
      max l.dwellListLength (max l.voltageListLength l.currentListLength) = i + m →
      saveLoop w l i out = out ++ rowsText w l i m
  | 0, i, out, h => by
    rw [saveLoop, if_neg (by omega)]
    simp [rowsText]
  | m + 1, i, out, h => by
    rw [saveLoop, if_pos (by omega)]
    simp only []
    rw [saveLoop_eq w l m (i + 1) _ (by omega)]
    simp [rowsText, rowText, fieldText, List.append_assoc]

theorem digitChar_isDigit : ∀ d, d < 10 → (digitChar d).isDigit = true := by decide

theorem digitChar_toNat : ∀ d, d < 10 → (digitChar d).toNat - 48 = d := by decide

theorem decimalDigits_isDigit : ∀ (k v : Nat), ∀ c ∈ decimalDigits k v, c.isDigit = true
  | 0, _, c, h => by simp [decimalDigits] at h
  | k + 1, v, c, h => by
    simp only [decimalDigits, List.mem_cons] at h
    rcases h with rfl | h
    · exact digitChar_isDigit _ (Nat.mod_lt _ (by norm_num))
    · exact decimalDigits_isDigit k v c h

theorem decimalDigits_length : ∀ (k v : Nat), (decimalDigits k v).length = k
  | 0, _ => rfl
  | k + 1, v => by simp [decimalDigits, decimalDigits_length k v]

theorem foldl_decimalDigits : ∀ (k v a : Nat),
    (decimalDigits k v).foldl (fun acc c => acc * 10 + (c.toNat - 48)) a
      = a * 10 ^ k + v % 10 ^ k
  | 0, v, a => by simp [decimalDigits, Nat.mod_one]
  | k + 1, v, a => by
    rw [decimalDigits, List.foldl_cons, foldl_decimalDigits k v,
      digitChar_toNat _ (Nat.mod_lt _ (by norm_num)), Nat.mod_pow_succ]
    ring

theorem digitsValue_decimalDigits (k v : Nat) : digitsValue (decimalDigits k v) = v % 10 ^ k := by
  rw [digitsValue, foldl_decimalDigits]
  simp

theorem digitsValue_printNat (n : Nat) : digitsValue (printNat n) = n := by
  rw [printNat, digitsValue_decimalDigits]
  exact Nat.mod_eq_of_lt (Nat.lt_pow_succ_log_self (by norm_num) n)

end RoundTrip


section RoundTrip

variable {F D : Type}


theorem isSpace_of_isDigit (c : Char) (h : c.isDigit = true) : isSpace c = false := by
  by_contra hs
  simp only [isSpace, Bool.not_eq_false, Bool.or_eq_true, beq_iff_eq] at hs
  rcases hs with ((rfl | rfl) | rfl) | rfl <;> revert h <;> decide

theorem ne_dash_of_isDigit (c : Char) (h : c.isDigit = true) : c ≠ '-' := by
  intro h2; subst h2; revert h; decide

theorem skipSpaces_cons_of_not_space (c : Char) (cs : List Char) (h : isSpace c = false) :
    skipSpaces (c :: cs) = c :: cs := by
  simp [skipSpaces, h]

theorem skipSpaces_newline (cs : List Char) : skipSpaces ('\n' :: cs) = skipSpaces cs := by
  simp [skipSpaces, isSpace]

/-- Matching a number in front of a character that is not a digit. -/
theorem textMatchFloat_digits {F : Type} (ofDecimal : Bool → Nat → Nat → Nat → F)
    (d : Char) (ds fr rest : List Char) (c : Char)
    (hd : d.isDigit = true) (hds : ∀ a ∈ ds, a.isDigit = true)
    (hfr : ∀ a ∈ fr, a.isDigit = true) (hc : c.isDigit = false) :
    textMatchFloat ofDecimal (d :: ds ++ '.' :: fr ++ c :: rest) =
      (some (ofDecimal false (digitsValue (d :: ds)) (digitsValue fr) fr.length), c :: rest) := by
  have hall : ∀ a ∈ d :: ds, a.isDigit = true := by
    intro a ha
    rcases List.mem_cons.mp ha with rfl | ha
    · exact hd
    · exact hds a ha
  have e1 : d :: ds ++ '.' :: fr ++ c :: rest = (d :: ds) ++ ('.' :: (fr ++ c :: rest)) := by simp
  have hdot : ¬ ('.' : Char).isDigit = true := by decide
  have hc' : ¬ c.isDigit = true := by simp [hc]
  unfold textMatchFloat
  simp only []
  rw [e1, List.cons_append, skipSpaces_cons_of_not_space d _ (isSpace_of_isDigit d hd)]
  have hneg : ((d :: (ds ++ '.' :: (fr ++ c :: rest))).head? == some '-') = false := by
    simp [ne_dash_of_isDigit d hd]
  rw [hneg]
  simp only [Bool.false_eq_true, if_false]
  rw [← List.cons_append, List.takeWhile_append_of_pos hall, List.dropWhile_append_of_pos hall,
    List.takeWhile_cons_of_neg hdot, List.dropWhile_cons_of_neg hdot]
  simp only [List.head?_cons, beq_self_eq_true, if_true, List.tail_cons, List.append_nil]
  rw [List.takeWhile_append_of_pos hfr, List.dropWhile_append_of_pos hfr,
    List.takeWhile_cons_of_neg hc', List.dropWhile_cons_of_neg hc']
  simp

theorem textMatchFloat_neg_digits {F : Type} (ofDecimal : Bool → Nat → Nat → Nat → F)
    (d : Char) (ds fr rest : List Char) (c : Char)
    (hd : d.isDigit = true) (hds : ∀ a ∈ ds, a.isDigit = true)
    (hfr : ∀ a ∈ fr, a.isDigit = true) (hc : c.isDigit = false) :
    textMatchFloat ofDecimal ('-' :: (d :: ds ++ '.' :: fr ++ c :: rest)) =
      (some (ofDecimal true (digitsValue (d :: ds)) (digitsValue fr) fr.length), c :: rest) := by
  have hall : ∀ a ∈ d :: ds, a.isDigit = true := by
    intro a ha
    rcases List.mem_cons.mp ha with rfl | ha
    · exact hd
    · exact hds a ha
  have e1 : d :: ds ++ '.' :: fr ++ c :: rest = (d :: ds) ++ ('.' :: (fr ++ c :: rest)) := by simp
  have hdot : ¬ ('.' : Char).isDigit = true := by decide
  have hc' : ¬ c.isDigit = true := by simp [hc]
  unfold textMatchFloat
  simp only []
  rw [e1, skipSpaces_cons_of_not_space '-' _ (by decide)]
  simp only [List.head?_cons, beq_self_eq_true, if_true, List.tail_cons]
  rw [List.takeWhile_append_of_pos hall, List.dropWhile_append_of_pos hall,
    List.takeWhile_cons_of_neg hdot, List.dropWhile_cons_of_neg hdot]
  simp only [List.head?_cons, beq_self_eq_true, if_true, List.tail_cons, List.append_nil]
  rw [List.takeWhile_append_of_pos hfr, List.dropWhile_append_of_pos hfr,
    List.takeWhile_cons_of_neg hc', List.dropWhile_cons_of_neg hc']
  simp

theorem textMatchChar_hit (c : Char) (rest : List Char) (h : isSpace c = false) :
    textMatchChar (c :: rest) c = (true, rest) := by
  simp [textMatchChar, skipSpaces_cons_of_not_space c rest h]

theorem textMatchChar_miss (d c : Char) (rest : List Char) (h : isSpace d = false)
    (hne : d ≠ c) : textMatchChar (d :: rest) c = (false, d :: rest) := by
  simp [textMatchChar, skipSpaces_cons_of_not_space d rest h, hne]

/-- The value read back from the digits printed for a number. -/
theorem ratOfDecimal_printed (neg : Bool) (n : Nat) :
    ratOfDecimal neg (n / 10 ^ 6) (n % 10 ^ 6) 6 =
      (if neg then -1 else 1) * ((n : ℚ) / 10 ^ 6) := by
  unfold ratOfDecimal
  congr 1
  have h := Nat.div_add_mod n (10 ^ 6)
  have h' : ((10 ^ 6 * (n / 10 ^ 6) + n % 10 ^ 6 : Nat) : ℚ) = (n : ℚ) := by rw [h]
  push_cast at h'
  field_simp
  linarith

/-- Reading back a printed number that is followed by a character which is
not a digit. -/
theorem textMatchFloat_printRat (x : ℚ) (c : Char) (rest : List Char) (hc : c.isDigit = false) :
    textMatchFloat ratOfDecimal (printRat x 6 ++ c :: rest) = (some (roundTrip6 x), c :: rest) := by
  have hfr := decimalDigits_isDigit 6 (⌊|x| * 10 ^ 6 + 1 / 2⌋₊ % 10 ^ 6)
  have hds := decimalDigits_isDigit (Nat.log 10 (⌊|x| * 10 ^ 6 + 1 / 2⌋₊ / 10 ^ 6))
    (⌊|x| * 10 ^ 6 + 1 / 2⌋₊ / 10 ^ 6)
  have hd : (digitChar (⌊|x| * 10 ^ 6 + 1 / 2⌋₊ / 10 ^ 6 /
      10 ^ Nat.log 10 (⌊|x| * 10 ^ 6 + 1 / 2⌋₊ / 10 ^ 6) % 10)).isDigit = true :=
    digitChar_isDigit _ (Nat.mod_lt _ (by norm_num))
  have hval : digitsValue (digitChar (⌊|x| * 10 ^ 6 + 1 / 2⌋₊ / 10 ^ 6 /
      10 ^ Nat.log 10 (⌊|x| * 10 ^ 6 + 1 / 2⌋₊ / 10 ^ 6) % 10) ::
      decimalDigits (Nat.log 10 (⌊|x| * 10 ^ 6 + 1 / 2⌋₊ / 10 ^ 6))
        (⌊|x| * 10 ^ 6 + 1 / 2⌋₊ / 10 ^ 6)) = ⌊|x| * 10 ^ 6 + 1 / 2⌋₊ / 10 ^ 6 :=
    digitsValue_printNat _
  by_cases hx : x < 0
  · have e : printRat x 6 ++ c :: rest = '-' ::
        (digitChar (⌊|x| * 10 ^ 6 + 1 / 2⌋₊ / 10 ^ 6 /
          10 ^ Nat.log 10 (⌊|x| * 10 ^ 6 + 1 / 2⌋₊ / 10 ^ 6) % 10) ::
        decimalDigits (Nat.log 10 (⌊|x| * 10 ^ 6 + 1 / 2⌋₊ / 10 ^ 6))
          (⌊|x| * 10 ^ 6 + 1 / 2⌋₊ / 10 ^ 6) ++
        '.' :: decimalDigits 6 (⌊|x| * 10 ^ 6 + 1 / 2⌋₊ % 10 ^ 6) ++ c :: rest) := by
      simp [printRat, hx, printNat, decimalDigits]
    rw [e, textMatchFloat_neg_digits ratOfDecimal _ _ _ rest c hd hds hfr hc, hval,
      digitsValue_decimalDigits, Nat.mod_mod, decimalDigits_length, ratOfDecimal_printed]
    simp [roundTrip6, hx]
  · have e : printRat x 6 ++ c :: rest =
        (digitChar (⌊|x| * 10 ^ 6 + 1 / 2⌋₊ / 10 ^ 6 /
          10 ^ Nat.log 10 (⌊|x| * 10 ^ 6 + 1 / 2⌋₊ / 10 ^ 6) % 10) ::
        decimalDigits (Nat.log 10 (⌊|x| * 10 ^ 6 + 1 / 2⌋₊ / 10 ^ 6))
          (⌊|x| * 10 ^ 6 + 1 / 2⌋₊ / 10 ^ 6) ++
        '.' :: decimalDigits 6 (⌊|x| * 10 ^ 6 + 1 / 2⌋₊ % 10 ^ 6) ++ c :: rest) := by
      simp [printRat, hx, printNat, decimalDigits]
    rw [e, textMatchFloat_digits ratOfDecimal _ _ _ rest c hd hds hfr hc, hval,
      digitsValue_decimalDigits, Nat.mod_mod, decimalDigits_length, ratOfDecimal_printed]
    simp [roundTrip6, hx]

/-- A printed number starts with `-` or with a digit. -/
theorem printRat_head (x : ℚ) :
    ∃ d ds, printRat x 6 = d :: ds ∧ (d = '-' ∨ d.isDigit = true) := by
  by_cases hx : x < 0
  · exact ⟨'-', _, by unfold printRat; rw [if_pos hx]; rfl, Or.inl rfl⟩
  · exact ⟨digitChar (⌊|x| * 10 ^ 6 + 1 / 2⌋₊ / 10 ^ 6 /
      10 ^ Nat.log 10 (⌊|x| * 10 ^ 6 + 1 / 2⌋₊ / 10 ^ 6) % 10), _,
      by unfold printRat; rw [if_neg hx]; rfl,
      Or.inr (digitChar_isDigit _ (Nat.mod_lt _ (by norm_num)))⟩

/-- Printing with 6 decimals and reading back moves a value by at most half
of `10^-6`. -/
theorem roundTrip6_close (x : ℚ) : |roundTrip6 x - x| ≤ 1 / 10 ^ 6 := by
  have h0 : (0 : ℚ) ≤ |x| * 10 ^ 6 + 1 / 2 := by positivity
  have h1 := Nat.floor_le h0
  have h2 := Nat.lt_floor_add_one (|x| * 10 ^ 6 + 1 / 2)
  rw [abs_sub_le_iff]
  unfold roundTrip6
  by_cases hx : x < 0
  · rw [if_pos hx, abs_of_neg hx]
    rw [abs_of_neg hx] at h1 h2
    constructor <;> linarith
  · rw [if_neg hx, abs_of_nonneg (not_lt.mp hx)]
    rw [abs_of_nonneg (not_lt.mp hx)] at h1 h2
    constructor <;> linarith

end RoundTrip


section RoundTrip

theorem readField_number (nv sep : Char) (files : String → Option (List Char)) (x : ℚ) (c : Char)
    (rest : List Char) (hnv1 : nv.isDigit = false) (hnv2 : nv ≠ '-') (hc : c.isDigit = false) :
    readField (textCard ratOfDecimal nv sep files) (printRat x 6 ++ c :: rest) =
      (.number (roundTrip6 x), c :: rest) := by
  obtain ⟨d, ds, e, hd⟩ := printRat_head x
  have hsp : isSpace d = false := by
    rcases hd with rfl | hd
    · decide
    · exact isSpace_of_isDigit d hd
  have hne : d ≠ nv := by
    rcases hd with rfl | hd
    · exact fun h => hnv2 h.symm
    · intro h; subst h; rw [hd] at hnv1; cases hnv1
  have hm : textMatchChar (printRat x 6 ++ c :: rest) nv = (false, printRat x 6 ++ c :: rest) := by
    rw [e, List.cons_append]
    exact textMatchChar_miss d nv _ hsp hne
  simp only [readField, textCard, hm, Bool.false_eq_true, if_false,
    textMatchFloat_printRat x c rest hc]

theorem readField_marker (nv sep : Char) (files : String → Option (List Char))
    (rest : List Char) (hnv3 : isSpace nv = false) :
    readField (textCard ratOfDecimal nv sep files) (nv :: rest) = (.noValue, rest) := by
  simp only [readField, textCard, textMatchChar_hit nv rest hnv3, if_true]

/-- One block of the loop of `loadList` on the text of a saved field. -/
theorem loadColumn_roundTrip (nv sep : Char) (files : String → Option (List Char))
    (l0 : ChannelLists ℚ) (hnv1 : nv.isDigit = false) (hnv2 : nv ≠ '-')
    (hnv3 : isSpace nv = false) (c : Column) (i : Nat) (l : LoadLocals (List Char) ℚ)
    (ch : Char) (rest : List Char) (hch : ch.isDigit = false)
    (hfile : l.file = fieldText (ratWriter nv sep) (l0.listOf c) (l0.lengthOf c) i ++ ch :: rest)
    (hcol : ColumnRead l0 c i l) :
    ∃ l', loadColumn (textCard ratOfDecimal nv sep files) c i l = .cont l' ∧
      l'.file = ch :: rest ∧ l'.success = l.success ∧ ColumnRead l0 c (i + 1) l' ∧
      ∀ c' r, c' ≠ c → ColumnRead l0 c' r l → ColumnRead l0 c' r l' := by
  obtain ⟨h1, h2⟩ := hcol
  have hlen : ∀ (f : List Char) (t : List (Column × Field ℚ)),
      LoadLocals.length { l with file := f, trace := t } c = l.length c := by
    intro f t; cases c <;> rfl
  have hlist : ∀ (f : List Char) (t : List (Column × Field ℚ)),
      LoadLocals.list { l with file := f, trace := t } c = l.list c := by
    intro f t; cases c <;> rfl
  by_cases hi : i < l0.lengthOf c
  · have hr : readField (textCard ratOfDecimal nv sep files) l.file =
        (.number (roundTrip6 (l0.listOf c i)), ch :: rest) := by
      rw [hfile, fieldText, if_pos hi]
      exact readField_number nv sep files _ ch rest hnv1 hnv2 hch
    have hil : i = l.length c := by rw [h1]; omega
    rcases loadColumn_cases (textCard ratOfDecimal nv sep files) c i l with
      ⟨e, _⟩ | ⟨e, _⟩ | ⟨v, e, _, e2⟩ | ⟨v, _, e1, _⟩ | ⟨e, _⟩
    · rw [hr] at e; cases e
    · rw [hr] at e; cases e
    · rw [hr] at e e2
      simp only [Field.number.injEq] at e
      subst e
      refine ⟨_, e2, ?_, ?_, ⟨?_, ?_⟩, ?_⟩
      · cases c <;> rfl
      · rw [LoadLocals.success_store]
      · rw [LoadLocals.length_store_same _ _ _ _ (by rw [hlen]; exact hil), hlen, h1]
        omega
      · intro k hk
        rw [LoadLocals.list_store_same, hlist]
        by_cases hki : k = i
        · subst hki; simp
        · rw [Function.update_noteq hki]
          exact h2 k (by omega)
      · intro c' r hne ⟨g1, g2⟩
        refine ⟨?_, ?_⟩
        · rw [LoadLocals.length_store_other _ _ _ hne.symm, ← g1]
          cases c' <;> rfl
        · intro k hk
          rw [LoadLocals.list_store_other _ _ _ hne.symm, ← g2 k hk]
          cases c' <;> rfl
    · exact absurd hil e1
    · rw [hr] at e; cases e
  · have hr : readField (textCard ratOfDecimal nv sep files) l.file = (.noValue, ch :: rest) := by
      rw [hfile, fieldText, if_neg hi]
      exact readField_marker nv sep files _ hnv3
    rcases loadColumn_cases (textCard ratOfDecimal nv sep files) c i l with
      ⟨_, _, e2⟩ | ⟨_, e1, _⟩ | ⟨v, e, _⟩ | ⟨v, e, _⟩ | ⟨e, _⟩
    · rw [hr] at e2
      refine ⟨_, e2, rfl, rfl, ⟨?_, ?_⟩, ?_⟩
      · rw [hlen, h1]; omega
      · intro k hk
        rw [hlist]
        exact h2 k (by omega)
      · intro c' r hne ⟨g1, g2⟩
        refine ⟨?_, ?_⟩
        · rw [← g1]; cases c' <;> rfl
        · intro k hk
          rw [← g2 k hk]; cases c' <;> rfl
    · rw [h1] at e1; omega
    · rw [hr] at e; cases e
    · rw [hr] at e; cases e
    · rw [hr] at e; cases e

end RoundTrip


section RoundTrip

theorem ColumnRead.with_file {l0 : ChannelLists ℚ} {c : Column} {i : Nat}
    {l : LoadLocals (List Char) ℚ} (f : List Char) (h : ColumnRead l0 c i l) :
    ColumnRead l0 c i { l with file := f } := by
  cases c <;> exact h

/-- A saved field starts with a character that is not whitespace. -/
theorem fieldText_head (nv sep : Char) (hnv3 : isSpace nv = false) (list : Nat → ℚ)
    (len i : Nat) :
    ∃ d ds, fieldText (ratWriter nv sep) list len i = d :: ds ∧ isSpace d = false := by
  unfold fieldText
  by_cases hi : i < len
  · rw [if_pos hi]
    obtain ⟨d, ds, e, hd⟩ := printRat_head (list i)
    refine ⟨d, ds, e, ?_⟩
    rcases hd with rfl | hd
    · decide
    · exact isSpace_of_isDigit d hd
  · rw [if_neg hi]
    exact ⟨nv, [], rfl, hnv3⟩

theorem skipSpaces_rowsText (nv sep : Char) (hnv3 : isSpace nv = false) (l0 : ChannelLists ℚ)
    (i m : Nat) :
    skipSpaces (rowsText (ratWriter nv sep) l0 i m) = rowsText (ratWriter nv sep) l0 i m := by
  cases m with
  | zero => rfl
  | succ m =>
    obtain ⟨d, ds, e, hd⟩ := fieldText_head nv sep hnv3 l0.dwellList l0.dwellListLength i
    simp only [rowsText, rowText, e, List.cons_append]
    exact skipSpaces_cons_of_not_space d _ hd

/-- The loop of `loadList` on the text of `m` saved rows. -/
theorem loadLoop_roundTrip (nv sep : Char) (files : String → Option (List Char))
    (l0 : ChannelLists ℚ) (hsep : sep.isDigit = false) (hsep2 : isSpace sep = false)
    (hnv1 : nv.isDigit = false) (hnv2 : nv ≠ '-') (hnv3 : isSpace nv = false) :
    ∀ (m n i : Nat) (l : LoadLocals (List Char) ℚ), m ≤ n →
      skipSpaces l.file = rowsText (ratWriter nv sep) l0 i m → l.success = true →
      (∀ c, ColumnRead l0 c i l) →
      (loadLoop (textCard ratOfDecimal nv sep files) n i l).success = true ∧
      ∀ c, ColumnRead l0 c (i + m) (loadLoop (textCard ratOfDecimal nv sep files) n i l)
  | 0, 0, i, l, _, _, hs, hcol => by
    simp only [loadLoop]
    exact ⟨hs, hcol⟩
  | 0, n + 1, i, l, _, hfile, hs, hcol => by
    rw [loadLoop]
    have hf : (textCard ratOfDecimal nv sep files).matchZeroOrMoreSpaces l.file = [] := hfile
    have hav : (textCard ratOfDecimal nv sep files).available [] = false := rfl
    simp only [hf, hav, Bool.not_false, if_true]
    exact ⟨hs, fun c => ColumnRead.with_file _ (hcol c)⟩
  | m + 1, 0, i, l, hmn, _, _, _ => by omega
  | m + 1, n + 1, i, l, hmn, hfile, hs, hcol => by
    rw [loadLoop]
    have hf : (textCard ratOfDecimal nv sep files).matchZeroOrMoreSpaces l.file =
        fieldText (ratWriter nv sep) (l0.listOf .dwell) (l0.lengthOf .dwell) i ++ sep ::
          (fieldText (ratWriter nv sep) (l0.listOf .voltage) (l0.lengthOf .voltage) i ++ sep ::
            (fieldText (ratWriter nv sep) (l0.listOf .current) (l0.lengthOf .current) i ++ '\n' ::
              rowsText (ratWriter nv sep) l0 (i + 1) m)) := by
      show skipSpaces l.file = _
      rw [hfile]
      simp [rowsText, rowText, ChannelLists.listOf, ChannelLists.lengthOf, ratWriter]
    obtain ⟨d, ds, e, _⟩ := fieldText_head nv sep hnv3 (l0.listOf .dwell) (l0.lengthOf .dwell) i
    have hav : (textCard ratOfDecimal nv sep files).available
        ((textCard ratOfDecimal nv sep files).matchZeroOrMoreSpaces l.file) = true := by
      rw [hf, e]; rfl
    simp only [hav, Bool.not_true, Bool.false_eq_true, if_false]
    obtain ⟨l1, a1, a2, a3, a4, a5⟩ := loadColumn_roundTrip nv sep files l0 hnv1 hnv2 hnv3 .dwell i
      { l with file := (textCard ratOfDecimal nv sep files).matchZeroOrMoreSpaces l.file }
      sep _ hsep hf (ColumnRead.with_file _ (hcol .dwell))
    rw [a1]
    simp only []
    have hs1 : (skipSeparator (textCard ratOfDecimal nv sep files) l1).file =
        fieldText (ratWriter nv sep) (l0.listOf .voltage) (l0.lengthOf .voltage) i ++ sep ::
          (fieldText (ratWriter nv sep) (l0.listOf .current) (l0.lengthOf .current) i ++ '\n' ::
            rowsText (ratWriter nv sep) l0 (i + 1) m) := by
      simp only [skipSeparator, a2]
      show (textMatchChar (sep :: _) sep).2 = _
      rw [textMatchChar_hit sep _ hsep2]
    obtain ⟨l2, b1, b2, b3, b4, b5⟩ := loadColumn_roundTrip nv sep files l0 hnv1 hnv2 hnv3
      .voltage i (skipSeparator (textCard ratOfDecimal nv sep files) l1) sep _ hsep hs1
      (ColumnRead.with_file _ (a5 .voltage i (by simp) (ColumnRead.with_file _ (hcol .voltage))))
    rw [b1]
    simp only []
    have hs2 : (skipSeparator (textCard ratOfDecimal nv sep files) l2).file =
        fieldText (ratWriter nv sep) (l0.listOf .current) (l0.lengthOf .current) i ++ '\n' ::
          rowsText (ratWriter nv sep) l0 (i + 1) m := by
      simp only [skipSeparator, b2]
      show (textMatchChar (sep :: _) sep).2 = _
      rw [textMatchChar_hit sep _ hsep2]
    obtain ⟨l3, c1, c2, c3, c4, c5⟩ := loadColumn_roundTrip nv sep files l0 hnv1 hnv2 hnv3
      .current i (skipSeparator (textCard ratOfDecimal nv sep files) l2) '\n' _ (by decide) hs2
      (ColumnRead.with_file _ (b5 .current i (by simp) (ColumnRead.with_file _
        (a5 .current i (by simp) (ColumnRead.with_file _ (hcol .current))))))
    rw [c1]
    simp only []
    have hs3 : l3.success = true := by
      rw [c3]
      show l2.success = true
      rw [b3]
      show l1.success = true
      rw [a3]
      exact hs
    have hcol3 : ∀ c, ColumnRead l0 c (i + 1) l3 := by
      intro c
      cases c
      · exact c5 .dwell (i + 1) (by simp) (ColumnRead.with_file _
          (b5 .dwell (i + 1) (by simp) (ColumnRead.with_file _ a4)))
      · exact c5 .voltage (i + 1) (by simp) (ColumnRead.with_file _ b4)
      · exact c4
    obtain ⟨g1, g2⟩ := loadLoop_roundTrip nv sep files l0 hsep hsep2 hnv1 hnv2 hnv3 m n (i + 1) l3
      (by omega) (by rw [c2, skipSpaces_newline, skipSpaces_rowsText nv sep hnv3]) hs3 hcol3
    refine ⟨g1, fun c => ?_⟩
    have e1 : i + (m + 1) = i + 1 + m := by omega
    rw [e1]
    exact g2 c

end RoundTrip



theorem loadList_state_of_success {F D File : Type} (p : Platform F D) (sd : SdCard File F)
    (s : State F D) (channel : Channel) (filePath : String) (uninit : Nat → F) (file : File)
    (hopt : sd.OPTION_SD_CARD = true) (hopen : sd.openRead filePath = some file)
    (h : (loadRows p sd file uninit).success = true) :
    (loadList p sd s channel filePath uninit).state =
      setCurrentList (setVoltageList (setDwellList s channel
        (loadRows p sd file uninit).dwellList (loadRows p sd file uninit).dwellListLength)
        channel (loadRows p sd file uninit).voltageList
        (loadRows p sd file uninit).voltageListLength)
        channel (loadRows p sd file uninit).currentList
        (loadRows p sd file uninit).currentListLength := by
  unfold loadList
  rw [hopt, hopen]
  simp [h]

/-- C3: round trip of the list codec. The lists of a channel, each of length at
most `MAX_LIST_LENGTH` (the lengths may differ and may be 0), are saved with
`saveList`, numbers being rationals printed with 6 decimals; the separator is
neither a digit nor whitespace, the "no value" character is neither a digit,
nor `-`, nor whitespace. Loading with `loadList` the text that was written, into
any channel of any state, succeeds and stores three sequences with exactly the
saved lengths, each value within `10^-6` of the saved one. -/
theorem C3_save_load_round_trip {D : Type} (p : Platform ℚ D) (s s2 : State ℚ D)
    (channel channel2 : Channel) (filePath : String) (nv sep : Char)
    (files : String → Option (List Char)) (uninit : Nat → ℚ)
    (hsep : sep.isDigit = false) (hsep2 : isSpace sep = false)
    (hnv1 : nv.isDigit = false) (hnv2 : nv ≠ '-') (hnv3 : isSpace nv = false)
    (hd : (s.g_channelsLists (channel.index - 1)).dwellListLength ≤ p.MAX_LIST_LENGTH)
    (hv : (s.g_channelsLists (channel.index - 1)).voltageListLength ≤ p.MAX_LIST_LENGTH)
    (hc : (s.g_channelsLists (channel.index - 1)).currentListLength ≤ p.MAX_LIST_LENGTH)
    (hfile : files filePath = (saveList (ratWriter nv sep) s channel filePath).written) :
    (saveList (ratWriter nv sep) s channel filePath).success = true ∧
    (loadList p (textCard ratOfDecimal nv sep files) s2 channel2 filePath uninit).success
      = true ∧
    ∀ c : Column,
      ((loadList p (textCard ratOfDecimal nv sep files) s2 channel2 filePath
          uninit).state.g_channelsLists (channel2.index - 1)).lengthOf c =
        (s.g_channelsLists (channel.index - 1)).lengthOf c ∧
      ∀ k, k < (s.g_channelsLists (channel.index - 1)).lengthOf c →
        |((loadList p (textCard ratOfDecimal nv sep files) s2 channel2 filePath
            uninit).state.g_channelsLists (channel2.index - 1)).listOf c k -
          (s.g_channelsLists (channel.index - 1)).listOf c k| ≤ 1 / 10 ^ 6 := by
  have hsave : saveList (ratWriter nv sep) s channel filePath =
      { success := true, err := none
        written := some (saveLoop (ratWriter nv sep) (s.g_channelsLists (channel.index - 1))
          0 []) } := by
    simp [saveList, ratWriter]
  rw [hsave] at hfile ⊢
  simp only [true_and]
  rw [saveLoop_eq (ratWriter nv sep) _ _ 0 [] (Nat.zero_add _).symm, List.nil_append] at hfile
  have hM : max (s.g_channelsLists (channel.index - 1)).dwellListLength
      (max (s.g_channelsLists (channel.index - 1)).voltageListLength
        (s.g_channelsLists (channel.index - 1)).currentListLength) ≤ p.MAX_LIST_LENGTH := by
    omega
  have hopen : (textCard ratOfDecimal nv sep files).openRead filePath = some _ := hfile
  have hrt := loadLoop_roundTrip nv sep files (s.g_channelsLists (channel.index - 1))
    hsep hsep2 hnv1 hnv2 hnv3 _ p.MAX_LIST_LENGTH 0
    (loadInit (rowsText (ratWriter nv sep) (s.g_channelsLists (channel.index - 1)) 0 _) uninit)
    hM (skipSpaces_rowsText nv sep hnv3 _ 0 _) rfl
    (fun c => ⟨by cases c <;> simp [loadInit, LoadLocals.length], fun k hk => by simp at hk⟩)
  have hsucc := loadList_success_eq p (textCard ratOfDecimal nv sep files) s2 channel2 filePath
    uninit _ rfl hopen
  have hstate := loadList_state_of_success p (textCard ratOfDecimal nv sep files) s2 channel2
    filePath uninit _ rfl hopen hrt.1
  refine ⟨by rw [hsucc]; exact hrt.1, fun c => ?_⟩
  rw [hstate, commit_lists]
  obtain ⟨a1, a2⟩ := hrt.2 c
  have hle : (s.g_channelsLists (channel.index - 1)).lengthOf c ≤
      max (s.g_channelsLists (channel.index - 1)).dwellListLength
        (max (s.g_channelsLists (channel.index - 1)).voltageListLength
          (s.g_channelsLists (channel.index - 1)).currentListLength) := by
    cases c <;> simp [ChannelLists.lengthOf]
  rw [Nat.zero_add, min_eq_right hle] at a1 a2
  constructor
  · rw [← a1]; cases c <;> rfl
  · intro k hk
    have hk' := hk
    rw [← a1] at hk'
    have e : ∀ (old : ChannelLists ℚ) (lr : LoadLocals (List Char) ℚ), k < lr.length c →
        ChannelLists.listOf
          { dwellList := memcpy old.dwellList lr.dwellList lr.dwellListLength
            dwellListLength := lr.dwellListLength
            voltageList := memcpy old.voltageList lr.voltageList lr.voltageListLength
            voltageListLength := lr.voltageListLength
            currentList := memcpy old.currentList lr.currentList lr.currentListLength
            currentListLength := lr.currentListLength
            count := old.count
            changed := true } c k = lr.list c k := by
      intro old lr h
      cases c <;> simp [ChannelLists.listOf, memcpy, LoadLocals.list, LoadLocals.length] at h ⊢
      all_goals
        intro h'
        omega
    have hA := (e (s2.g_channelsLists (channel2.index - 1)) _ hk').trans (a2 k hk)
    have hclose := roundTrip6_close ((s.g_channelsLists (channel.index - 1)).listOf c k)
    rw [← hA] at hclose
    exact hclose

/-- C3 on concrete lists of lengths 2, 3 and 0: what `saveList` writes for the
first channel is loaded into the second channel, with the saved lengths. -/
theorem C3_save_load_round_trip_witness :
    (loadList (ratPlatform 2 256)
      (textCard ratOfDecimal '=' ','
        (fun _ => (saveList (ratWriter '=' ',') c3State (Channel.get 0) "list.csv").written))
      c3State (Channel.get 1) "list.csv" (fun _ => 0)).success = true ∧
    ((loadList (ratPlatform 2 256)
      (textCard ratOfDecimal '=' ','
        (fun _ => (saveList (ratWriter '=' ',') c3State (Channel.get 0) "list.csv").written))
      c3State (Channel.get 1) "list.csv" (fun _ => 0)).state.g_channelsLists 1).lengthOf .voltage
      = 3 ∧
    ((loadList (ratPlatform 2 256)
      (textCard ratOfDecimal '=' ','
        (fun _ => (saveList (ratWriter '=' ',') c3State (Channel.get 0) "list.csv").written))
      c3State (Channel.get 1) "list.csv" (fun _ => 0)).state.g_channelsLists 1).lengthOf .current
      = 0 :=
  have h := C3_save_load_round_trip (ratPlatform 2 256) c3State c3State (Channel.get 0)
    (Channel.get 1) "list.csv" '=' ','
    (fun _ => (saveList (ratWriter '=' ',') c3State (Channel.get 0) "list.csv").written)
    (fun _ => 0) (by decide) (by decide) (by decide) (by decide) (by decide) (by decide)
    (by decide) (by decide) rfl
  ⟨h.2.1, (h.2.2 .voltage).1, (h.2.2 .current).1⟩


/-! ### The effect of a tick on each channel, errors included -/

section Engine
variable {F D : Type}

theorem abort_it (p : Platform F D) (s : State F D) (j : Nat) :
    ((abort p s).g_execution j).it = (s.g_execution j).it := by
  simp only [abort]; split_ifs <;> rfl

theorem abort_nextPointTime (p : Platform F D) (s : State F D) (j : Nat) :
    ((abort p s).g_execution j).nextPointTime = (s.g_execution j).nextPointTime := by
  simp only [abort]; split_ifs <;> rfl

theorem abort_counter_cases (p : Platform F D) (s : State F D) (j : Nat) :
    ((abort p s).g_execution j).counter = (s.g_execution j).counter ∨
      ((abort p s).g_execution j).counter = -1 := by
  simp only [abort]; split_ifs
  · exact Or.inr rfl
  · exact Or.inl rfl

/-- The four ways `applyPoint` can end. -/
theorem applyPoint_outcome (p : Platform F D) (t i : Nat) (s : State F D) :
    applyPoint p t i s = .undefined ∨
    (∃ v c d, applyPoint p t i s = .next (pointApplied p t i s v c d)) ∨
    (∃ code, applyPoint p t i s = .ret (abort p (s.emit (.generateError code)))) ∨
    (∃ v code, applyPoint p t i s =
      .ret (abort p ((voltageApplied p i s v).emit (.generateError code)))) := by
  rcases hv : listAt (s.g_channelsLists i).voltageList (s.g_execution i).it
      (s.g_channelsLists i).voltageListLength with _ | v
  · exact Or.inl (by simp [applyPoint, hv])
  by_cases h1 : p.gt v (p.getULimit s.dispatcher (Channel.get i)) = true
  · exact Or.inr (Or.inr (Or.inl ⟨_, applyPoint_voltageLimit p t i s hv h1⟩))
  by_cases h2 : p.gt (p.mul v (p.getISet s.dispatcher (Channel.get i)))
      (p.getPowerLimit s.dispatcher (Channel.get i)) = true
  · exact Or.inr (Or.inr (Or.inl ⟨_, applyPoint_voltagePower p t i s hv (by simpa using h1) h2⟩))
  rcases hc : listAt (s.g_channelsLists i).currentList (s.g_execution i).it
      (s.g_channelsLists i).currentListLength with _ | c
  · exact Or.inl (by simp [applyPoint, hv, h1, h2, State.emit, hc])
  by_cases h3 : p.gt c (p.getILimit (voltageApplied p i s v).dispatcher (Channel.get i)) = true
  · exact Or.inr (Or.inr (Or.inr ⟨v, _,
      applyPoint_currentLimit p t i s hv hc (by simpa using h1) (by simpa using h2) h3⟩))
  by_cases h4 : p.gt (p.mul c (p.getUSet (voltageApplied p i s v).dispatcher (Channel.get i)))
      (p.getPowerLimit (voltageApplied p i s v).dispatcher (Channel.get i)) = true
  · exact Or.inr (Or.inr (Or.inr ⟨v, _,
      applyPoint_currentPower p t i s hv hc (by simpa using h1) (by simpa using h2)
        (by simpa using h3) h4⟩))
  rcases hd : listAt (s.g_channelsLists i).dwellList (s.g_execution i).it
      (s.g_channelsLists i).dwellListLength with _ | d
  · simp only [voltageApplied] at h3 h4
    exact Or.inl (by simp [applyPoint, hv, h1, h2, State.emit, hc, hd, h3, h4])
  · exact Or.inr (Or.inl ⟨v, c, d, applyPoint_ok p t i s hv hc hd (by simpa using h1)
      (by simpa using h2) (by simpa using h3) (by simpa using h4)⟩)

/-- The effect of the body of the loop for channel `j`, whenever it is defined,
errors included: it appends `X` to the log; the lists are untouched; the active
flag is raised for an active channel and never lowered; an idle channel or one
that is not due changes nothing; `X` holds errors and calls about channel `j`
only; another channel keeps its step index and its `nextPointTime`, and keeps
its counter unless an error is reported; a normal end reports no error; a
`return` is either the end of the run of channel `j` or an error that leaves
every counter at `-1`. -/
theorem tickChannel_effect (p : Platform F D) (t j : Nat) (s s' : State F D)
    (r : Flow (State F D)) (h : tickChannel p t j s = r) (hr : r.result = some s') :
    ∃ X, s'.log = s.log ++ X ∧
      s'.g_channelsLists = s.g_channelsLists ∧
      (s.g_active = true → s'.g_active = true) ∧
      (0 ≤ (s.g_execution j).counter → s'.g_active = true) ∧
      (s'.g_active = true → s.g_active = true ∨ 0 ≤ (s.g_execution j).counter) ∧
      (((s.g_execution j).counter < 0 ∨ isDue (s.g_execution j) t = false) →
        X = [] ∧ s'.g_execution = s.g_execution ∧ r = .next s') ∧
      (∀ ev ∈ X, ev.isError = true ∨ ev.isAbout (Channel.get j) = true) ∧
      (∀ j', j' ≠ j → (s'.g_execution j').it = (s.g_execution j').it ∧
        (s'.g_execution j').nextPointTime = (s.g_execution j').nextPointTime ∧
        ((s'.g_execution j').counter = (s.g_execution j').counter ∨
          ((s'.g_execution j').counter = -1 ∧ ∃ ev ∈ X, ev.isError = true))) ∧
      (∀ sn, r = .next sn → ∀ ev ∈ X, ev.isError = false) ∧
      (∀ sr, r = .ret sr →
        (X = [.setTriggerFinished (Channel.get j)] ∧
          (∀ j', j' ≠ j → s'.g_execution j' = s.g_execution j') ∧
          (s'.g_execution j).counter = -1) ∨
        ((∃ pre code, X = pre ++ [.generateError code] ∧
            ∀ ev ∈ pre, ev.isSetpointOf (Channel.get j) = true) ∧
          ∀ j', j' < p.CH_NUM → (s'.g_execution j').counter = -1)) := by
  by_cases hc : (s.g_execution j).counter < 0
  · rw [tickChannel_idle p t j s hc] at h
    subst h
    cases hr
    exact ⟨[], by simp, rfl, fun h0 => h0, fun h0 => by omega, fun h0 => Or.inl h0,
      fun _ => ⟨rfl, rfl, rfl⟩,
      by simp, fun _ _ => ⟨rfl, rfl, Or.inl rfl⟩, by simp, by simp⟩
  have hc' : 0 ≤ (s.g_execution j).counter := not_lt.mp hc
  cases hd : isDue (s.g_execution j) t
  · rw [tickChannel_notDue p t j s hc' hd] at h
    subst h
    cases hr
    exact ⟨[], by simp, rfl, fun _ => rfl, fun _ => rfl, fun _ => Or.inr hc',
      fun _ => ⟨rfl, rfl, rfl⟩,
      by simp, fun _ _ => ⟨rfl, rfl, Or.inl rfl⟩, by simp, by simp⟩
  rw [tickChannel_due p t j s hc' hd] at h
  have hnot : ¬ ((s.g_execution j).counter < 0 ∨ true = false) := by
    rintro (h0 | h0)
    · omega
    · cases h0
  cases ha : advanceStep j (s.setActive true) with
  | undefined => exact absurd ha (advanceStep_ne_undefined j _)
  | ret sf =>
    simp only [stepChannel, ha] at h
    subst h
    cases hr
    obtain ⟨e, rfl, e1, e2, _⟩ := advanceStep_ret j _ _ ha
    refine ⟨[.setTriggerFinished (Channel.get j)], by simp, rfl, fun _ => rfl, fun _ => rfl,
      fun _ => Or.inr hc', fun h0 => absurd h0 hnot, ?_, ?_, by simp, ?_⟩
    · intro ev hev
      simp only [List.mem_singleton] at hev
      subst hev
      exact Or.inr (by simp [Event.isAbout])
    · intro j' hj'
      simp [State.setExecution, hj']
    · intro sr _
      refine Or.inl ⟨rfl, ?_, by simp [e1]⟩
      intro j' hj'
      simp [State.setExecution, hj']
  | next sa =>
    simp only [stepChannel, ha] at h
    obtain ⟨e, rfl, e0, e2, _⟩ := advanceStep_next j _ _ ha
    rcases applyPoint_outcome p t j ((s.setActive true).setExecution j e) with
      hp | ⟨v, c, d, hp⟩ | ⟨code, hp⟩ | ⟨v, code, hp⟩
    · rw [hp] at h; subst h; cases hr
    · rw [hp] at h; subst h; cases hr
      refine ⟨[.setVoltage (Channel.get j) v, .setCurrent (Channel.get j) c],
        by simp [pointApplied, voltageApplied], rfl, fun _ => rfl, fun _ => rfl,
        fun _ => Or.inr hc', fun h0 => absurd h0 hnot, ?_, ?_, ?_, by simp⟩
      · intro ev hev
        simp only [List.mem_cons, List.mem_singleton, List.not_mem_nil, or_false] at hev
        rcases hev with rfl | rfl <;> exact Or.inr (by simp [Event.isAbout])
      · intro j' hj'
        simp [pointApplied, voltageApplied, State.setExecution, hj']
      · intro sn _ ev hev
        simp only [List.mem_cons, List.mem_singleton, List.not_mem_nil, or_false] at hev
        rcases hev with rfl | rfl <;> rfl
    · rw [hp] at h; subst h; cases hr
      refine ⟨[.generateError code], by simp, rfl, fun _ => rfl, fun _ => rfl,
        fun _ => Or.inr hc', fun h0 => absurd h0 hnot, ?_, ?_, by simp, ?_⟩
      · intro ev hev
        simp only [List.mem_singleton] at hev
        subst hev
        exact Or.inl rfl
      · intro j' hj'
        refine ⟨?_, ?_, ?_⟩
        · rw [abort_it]; simp [State.setExecution, hj']
        · rw [abort_nextPointTime]; simp [State.setExecution, hj']
        · rcases abort_counter_cases p (((s.setActive true).setExecution j e).emit
            (.generateError code)) j' with h1 | h1
          · left; rw [h1]; simp [State.setExecution, hj']
          · right; exact ⟨h1, _, List.mem_singleton.mpr rfl, rfl⟩
      · intro sr _
        exact Or.inr ⟨⟨[], code, by simp, by simp⟩, fun j' hj' => abort_counter p _ hj'⟩
    · rw [hp] at h; subst h; cases hr
      refine ⟨[.setVoltage (Channel.get j) v, .generateError code],
        by simp [voltageApplied], rfl, fun _ => rfl, fun _ => rfl,
        fun _ => Or.inr hc', fun h0 => absurd h0 hnot, ?_, ?_, by simp, ?_⟩
      · intro ev hev
        simp only [List.mem_cons, List.mem_singleton, List.not_mem_nil, or_false] at hev
        rcases hev with rfl | rfl
        · exact Or.inr (by simp [Event.isAbout])
        · exact Or.inl rfl
      · intro j' hj'
        refine ⟨?_, ?_, ?_⟩
        · rw [abort_it]; simp [voltageApplied, State.setExecution, hj']
        · rw [abort_nextPointTime]; simp [voltageApplied, State.setExecution, hj']
        · rcases abort_counter_cases p ((voltageApplied p j ((s.setActive true).setExecution j e)
            v).emit (.generateError code)) j' with h1 | h1
          · left; rw [h1]; simp [voltageApplied, State.setExecution, hj']
          · right; exact ⟨h1, .generateError code, by simp, rfl⟩
      · intro sr _
        refine Or.inr ⟨⟨[.setVoltage (Channel.get j) v], code, by simp, ?_⟩,
          fun j' hj' => abort_counter p _ hj'⟩
        intro ev hev
        simp only [List.mem_singleton] at hev
        subst hev
        simp [Event.isSetpointOf]

theorem isDue_congr (e e' : Execution) (t : Nat) (h1 : e'.it = e.it)
    (h2 : e'.nextPointTime = e.nextPointTime) : isDue e' t = isDue e t := by
  simp only [isDue, h1, h2]

theorem Event.isAbout_of_isError (c : Channel) (ev : Event F) (h : ev.isError = true) :
    ev.isAbout c = false := by
  cases ev <;> simp_all [Event.isError, Event.isAbout]

theorem Event.isAbout_other {a j : Nat} (ev : Event F) (h : ev.isAbout (Channel.get a) = true)
    (hne : j ≠ a) : ev.isAbout (Channel.get j) = false := by
  have hc : Channel.get a ≠ Channel.get j := fun e => hne (Channel.get_injective e).symm
  cases ev <;> simp_all [Event.isAbout]

theorem counter_kept_trans {c0 c1 c2 : Int} {X1 X2 : List (Event F)}
    (h1 : c1 = c0 ∨ (c1 = -1 ∧ ∃ ev ∈ X1, ev.isError = true))
    (h2 : c2 = c1 ∨ (c2 = -1 ∧ ∃ ev ∈ X2, ev.isError = true)) :
    c2 = c0 ∨ (c2 = -1 ∧ ∃ ev ∈ X1 ++ X2, ev.isError = true) := by
  rcases h2 with h2 | ⟨h2, ev, hev, herr⟩
  · rcases h1 with h1 | ⟨h1, ev, hev, herr⟩
    · exact Or.inl (h2.trans h1)
    · exact Or.inr ⟨h2.trans h1, ev, List.mem_append_left _ hev, herr⟩
  · exact Or.inr ⟨h2, ev, List.mem_append_right _ hev, herr⟩

/-- The effect of `n` iterations of the loop starting with channel `a`,
whenever it is defined, errors included: it appends `X` to the log; the lists
are untouched; the active flag ends up raised exactly when it was raised or one
of these channels was active; a normal end reports no error; a `return` leaves
the flag raised; a channel outside `a .. a + n - 1`, or idle, or not due, keeps
its step index and its `nextPointTime`, has no call made for it, and keeps its
counter unless an error is reported. -/
theorem tickLoop_effect (p : Platform F D) (t : Nat) :
    ∀ (n a : Nat) (s s' : State F D) (r : Flow (State F D)),
      tickLoop p t n a s = r → r.result = some s' →
      ∃ X, s'.log = s.log ++ X ∧
        s'.g_channelsLists = s.g_channelsLists ∧
        (s'.g_active = true ↔
          (s.g_active = true ∨ ∃ j, a ≤ j ∧ j < a + n ∧ 0 ≤ (s.g_execution j).counter)) ∧
        (∀ sn, r = .next sn → ∀ ev ∈ X, ev.isError = false) ∧
        (∀ sr, r = .ret sr → s'.g_active = true) ∧
        (∀ j, (j < a ∨ a + n ≤ j ∨ (s.g_execution j).counter < 0 ∨
            isDue (s.g_execution j) t = false) →
          (s'.g_execution j).it = (s.g_execution j).it ∧
          (s'.g_execution j).nextPointTime = (s.g_execution j).nextPointTime ∧
          ((s'.g_execution j).counter = (s.g_execution j).counter ∨
            ((s'.g_execution j).counter = -1 ∧ ∃ ev ∈ X, ev.isError = true)) ∧
          ∀ ev ∈ X, ev.isAbout (Channel.get j) = false)
  | 0, a, s, s', r, h, hr => by
    rw [tickLoop] at h
    subst h
    cases hr
    refine ⟨[], by simp, rfl, ?_, by simp, by simp, fun j _ => ⟨rfl, rfl, Or.inl rfl, by simp⟩⟩
    constructor
    · exact fun h0 => Or.inl h0
    · rintro (h0 | ⟨j, h1, h2, _⟩)
      · exact h0
      · omega
  | n + 1, a, s, s', r, h, hr => by
    rw [tickLoop] at h
    cases h1 : tickChannel p t a s with
    | undefined => rw [h1] at h; subst h; cases hr
    | ret s1 =>
      rw [h1] at h
      simp only [] at h
      subst h
      obtain ⟨X, a1, a2, a3, a4, a5, a6, a7, a8, a9, a10⟩ :=
        tickChannel_effect p t a s s' _ h1 hr
      have hact : 0 ≤ (s.g_execution a).counter := by
        by_contra hneg
        obtain ⟨_, _, e⟩ := a6 (Or.inl (by omega))
        cases e
      refine ⟨X, a1, a2, ?_, by simp, fun _ _ => a4 hact, ?_⟩
      · constructor
        · intro _
          exact Or.inr ⟨a, le_refl a, by omega, hact⟩
        · intro _
          exact a4 hact
      · intro j hj
        have hja : j ≠ a := by
          rintro rfl
          rcases hj with hj | hj | hj | hj
          · omega
          · omega
          · omega
          · obtain ⟨_, _, e⟩ := a6 (Or.inr hj)
            cases e
        obtain ⟨b1, b2, b3⟩ := a8 j hja
        refine ⟨b1, b2, b3, ?_⟩
        intro ev hev
        rcases a7 ev hev with h2 | h2
        · exact Event.isAbout_of_isError _ ev h2
        · exact Event.isAbout_other ev h2 hja
    | next s1 =>
      rw [h1] at h
      simp only [] at h
      obtain ⟨X1, a1, a2, a3, a4, a5, a6, a7, a8, a9, a10⟩ :=
        tickChannel_effect p t a s s1 _ h1 rfl
      obtain ⟨X2, b1, b2, b3, b4, b5, b6⟩ := tickLoop_effect p t n (a + 1) s1 s' r h hr
      refine ⟨X1 ++ X2, by rw [b1, a1, List.append_assoc], by rw [b2, a2], ?_, ?_, b5, ?_⟩
      · rw [b3]
        constructor
        · rintro (h0 | ⟨j, h2, h3, h4⟩)
          · rcases a5 h0 with h0 | h0
            · exact Or.inl h0
            · exact Or.inr ⟨a, le_refl a, by omega, h0⟩
          · obtain ⟨_, _, c3⟩ := a8 j (by omega)
            rcases c3 with c3 | ⟨c3, _⟩
            · exact Or.inr ⟨j, by omega, by omega, by rw [← c3]; exact h4⟩
            · omega
        · rintro (h0 | ⟨j, h2, h3, h4⟩)
          · exact Or.inl (a3 h0)
          · by_cases hja : j = a
            · subst hja
              exact Or.inl (a4 h4)
            · obtain ⟨_, _, c3⟩ := a8 j hja
              rcases c3 with c3 | ⟨_, ev, hev, herr⟩
              · exact Or.inr ⟨j, by omega, by omega, by rw [c3]; exact h4⟩
              · rw [a9 s1 rfl ev hev] at herr
                cases herr
      · intro sn hsn ev hev
        rcases List.mem_append.mp hev with hev | hev
        · exact a9 s1 rfl ev hev
        · exact b4 sn hsn ev hev
      · intro j hj
        by_cases hja : j = a
        · subst hja
          have hj' : (s.g_execution j).counter < 0 ∨ isDue (s.g_execution j) t = false := by
            rcases hj with hj | hj | hj | hj
            · omega
            · omega
            · exact Or.inl hj
            · exact Or.inr hj
          obtain ⟨c1, c2, _⟩ := a6 hj'
          obtain ⟨d1, d2, d3, d4⟩ := b6 j (Or.inl (by omega))
          rw [c2] at d1 d2 d3
          subst c1
          exact ⟨d1, d2, by simpa using d3, by simpa using d4⟩
        · obtain ⟨c1, c2, c3⟩ := a8 j hja
          have hj1 : j < a + 1 ∨ a + 1 + n ≤ j ∨ (s1.g_execution j).counter < 0 ∨
              isDue (s1.g_execution j) t = false := by
            rcases hj with hj | hj | hj | hj
            · exact Or.inl (by omega)
            · exact Or.inr (Or.inl (by omega))
            · refine Or.inr (Or.inr (Or.inl ?_))
              rcases c3 with c3 | ⟨c3, _⟩ <;> omega
            · refine Or.inr (Or.inr (Or.inr ?_))
              rw [isDue_congr _ _ t c1 c2]
              exact hj
          obtain ⟨d1, d2, d3, d4⟩ := b6 j hj1
          refine ⟨d1.trans c1, d2.trans c2, counter_kept_trans c3 d3, ?_⟩
          intro ev hev
          rcases List.mem_append.mp hev with hev | hev
          · rcases a7 ev hev with h2 | h2
            · exact Event.isAbout_of_isError _ ev h2
            · exact Event.isAbout_other ev h2 hja
          · exact d4 ev hev

theorem Execution.eq_of_fields {e e' : Execution} (h1 : e'.counter = e.counter)
    (h2 : e'.it = e.it) (h3 : e'.nextPointTime = e.nextPointTime) : e' = e := by
  cases e; cases e'; simp_all

/-- The loop that reaches channel `i` without returning has not touched it. -/
theorem tickLoop_reach (p : Platform F D) (t i : Nat) (s sk : State F D)
    (h : tickLoop p t i 0 s = .next sk) :
    sk.g_execution i = s.g_execution i ∧ sk.g_channelsLists = s.g_channelsLists ∧
      ∃ X, sk.log = s.log ++ X ∧ (∀ ev ∈ X, ev.isError = false) ∧
        ∀ j, i ≤ j → sk.g_execution j = s.g_execution j ∧
          ∀ ev ∈ X, ev.isAbout (Channel.get j) = false := by
  obtain ⟨X, a1, a2, _, a4, _, a6⟩ := tickLoop_effect p t i 0 s sk _ h rfl
  have hj : ∀ j, i ≤ j → sk.g_execution j = s.g_execution j ∧
      ∀ ev ∈ X, ev.isAbout (Channel.get j) = false := by
    intro j hj
    obtain ⟨b1, b2, b3, b4⟩ := a6 j (Or.inr (Or.inl (by omega)))
    refine ⟨Execution.eq_of_fields ?_ b1 b2, b4⟩
    rcases b3 with b3 | ⟨_, ev, hev, herr⟩
    · exact b3
    · rw [a4 sk rfl ev hev] at herr
      cases herr
  exact ⟨(hj i (le_refl i)).1, a2, X, a1, a4 sk rfl, hj⟩

/-- C11 (amended): dwell timing is wrap-safe. Channel `i` is active, its step
index is not `-1` and its `nextPointTime` is `(t + dw) mod 2^32` with
`dw < 2^31`; the tick comes at `(t + el) mod 2^32` with `el < 2^31`. Then the
test of `tick` finds the channel due exactly when `dw ≤ el`, whatever overflows;
if the loop reaches the channel (no earlier channel has ended the tick), the
channel, untouched so far, takes its step when `dw ≤ el` and is passed over
when `el < dw`; when `el < dw` the tick, however it ends, makes no call for the
channel and leaves its step index and `nextPointTime` as they were, and its
counter too unless the tick reports an error (a limit violation on another
channel, after which the counter is `-1`). A step index of `-1` makes a
channel due whatever `nextPointTime` and the time are. -/
theorem C11_dwell_timing_wrap_safe (p : Platform F D) (s : State F D) (i t dw el : Nat)
    (hact : 0 ≤ (s.g_execution i).counter)
    (hit : (s.g_execution i).it ≠ -1)
    (hnpt : (s.g_execution i).nextPointTime = addUInt32 t dw)
    (hdw : dw < 2147483648) (hel : el < 2147483648) :
    isDue (s.g_execution i) (addUInt32 t el) = decide (dw ≤ el) ∧
    (∀ sk, tickLoop p (addUInt32 t el) i 0 (s.setActive false) = .next sk →
      sk.g_execution i = s.g_execution i ∧
      (dw ≤ el → tickChannel p (addUInt32 t el) i sk =
        stepChannel p (addUInt32 t el) i (sk.setActive true)) ∧
      (el < dw → tickChannel p (addUInt32 t el) i sk = .next (sk.setActive true))) ∧
    (el < dw → ∀ s', tick p (addUInt32 t el) s = some s' →
      (s'.g_execution i).it = (s.g_execution i).it ∧
      (s'.g_execution i).nextPointTime = (s.g_execution i).nextPointTime ∧
      (∀ ev ∈ s'.log.drop s.log.length, ev.isAbout (Channel.get i) = false) ∧
      ((s'.g_execution i).counter = (s.g_execution i).counter ∨
        ((s'.g_execution i).counter = -1 ∧
          ∃ ev ∈ s'.log.drop s.log.length, ev.isError = true))) ∧
    (∀ (e : Execution) (now : Nat), e.it = -1 → isDue e now = true) := by
  have hdue := isDue_elapsed (s.g_execution i) t dw el hit hnpt hdw hel
  refine ⟨hdue, ?_, ?_, ?_⟩
  · intro sk hreach
    obtain ⟨a1, _⟩ := tickLoop_reach p _ i _ sk hreach
    have a1' : sk.g_execution i = s.g_execution i := a1
    refine ⟨a1', ?_, ?_⟩
    · intro h
      exact tickChannel_due p _ i sk (by rw [a1']; exact hact)
        (by rw [a1', hdue]; exact decide_eq_true h)
    · intro h
      exact tickChannel_notDue p _ i sk (by rw [a1']; exact hact)
        (by rw [a1', hdue]; exact decide_eq_false (by omega))
  · intro h s' hs'
    obtain ⟨X, a1, _, _, _, _, a6⟩ :=
      tickLoop_effect p (addUInt32 t el) p.CH_NUM 0 (s.setActive false) s' _ rfl hs'
    obtain ⟨b1, b2, b3, b4⟩ := a6 i (Or.inr (Or.inr (Or.inr (by
      show isDue (s.g_execution i) (addUInt32 t el) = false
      rw [hdue]; exact decide_eq_false (by omega)))))
    have hX : s'.log.drop s.log.length = X := by
      rw [a1]
      exact List.drop_left _ _
    rw [hX]
    exact ⟨b1, b2, b4, b3⟩
  · intro e now h
    simp [isDue, h]

end Engine

/-- C11, as stated, fails on the code when another channel ends the tick. Both
ticks come at time `704 = (4294967000 + 1000) mod 2^32`, that is 1000
microseconds after the second channel applied its step. In `c11State` that
step has a dwell of 1000000 microseconds, so the channel is not due, yet the
tick changes its counter from 4 to `-1`: the first channel exceeds its voltage
limit and every channel is aborted. In `c11Finish` the dwell is 800
microseconds, so the channel is due, yet it does not take its step: the first
channel ends its run and the tick returns with the step index still 1 and
`setTriggerFinished` for the first channel as the only call. -/
theorem C11_other_channel_counterexample :
    (addUInt32 4294967000 1000 = 704 ∧
      (c11State.g_execution 1).nextPointTime = addUInt32 4294967000 1000000 ∧
      (c11State.g_execution 1).counter = 4 ∧ (c11State.g_execution 1).it = 1 ∧
      (tick (fixedPoint 2 256) 704 c11State).map (fun s => (s.g_execution 1).counter)
        = some (-1)) ∧
    ((c11Finish.g_execution 1).nextPointTime = addUInt32 4294967000 800 ∧
      (c11Finish.g_execution 1).counter = 4 ∧ (c11Finish.g_execution 1).it = 1 ∧
      (tick (fixedPoint 2 256) 704 c11Finish).map (fun s => ((s.g_execution 1).it, s.log))
        = some (1, [.setTriggerFinished (Channel.get 0)])) := by
  decide

/-- C11 (amended) on `c11State`, across the wrap of the clock: the second
channel, whose step of 1 s was applied at time 4294967000, is not due 1000
microseconds later (at time 704) and is due 1000000 microseconds later (at time
999704). -/
theorem C11_dwell_timing_wrap_safe_witness :
    isDue (c11State.g_execution 1) (addUInt32 4294967000 1000) = decide (1000000 ≤ 1000) ∧
    isDue (c11State.g_execution 1) (addUInt32 4294967000 1000000) =
      decide (1000000 ≤ 1000000) :=
  ⟨(C11_dwell_timing_wrap_safe (fixedPoint 2 256) c11State 1 4294967000 1000000 1000
      (by decide) (by decide) (by decide) (by decide) (by decide)).1,
   (C11_dwell_timing_wrap_safe (fixedPoint 2 256) c11State 1 4294967000 1000000 1000000
      (by decide) (by decide) (by decide) (by decide) (by decide)).1⟩


/-! ### Abort -/

section Engine
variable {F D : Type}

/-- A tick in which no channel is active lowers the active flag and does
nothing else. -/
theorem tick_all_idle (p : Platform F D) (t : Nat) (s : State F D)
    (h : ∀ j, j < p.CH_NUM → (s.g_execution j).counter < 0) :
    tick p t s = some (s.setActive false) := by
  unfold tick
  rw [tickLoop_idle p t p.CH_NUM 0 (s.setActive false) (fun j _ hj => h j (by omega))]
  rfl

/-- C12: `abort` sets the counter of each of the `CH_NUM` channels to `-1`,
whatever it was, and changes nothing else: step indices, `nextPointTime`s,
lists, lengths, repeat counts, dirty flags, the active flag, the dispatcher and
the log of calls are as before. Calling it twice is the same as calling it
once. A tick that follows it (also after operations that leave the counters
alone) makes no call, changes no setpoint and leaves `isActive()` false. -/
theorem C12_abort_frame (p : Platform F D) (s : State F D) :
    (∀ j, j < p.CH_NUM → ((abort p s).g_execution j).counter = -1) ∧
    (∀ j, ((abort p s).g_execution j).it = (s.g_execution j).it ∧
      ((abort p s).g_execution j).nextPointTime = (s.g_execution j).nextPointTime) ∧
    (∀ j, p.CH_NUM ≤ j → (abort p s).g_execution j = s.g_execution j) ∧
    (abort p s).g_channelsLists = s.g_channelsLists ∧
    (abort p s).g_active = s.g_active ∧
    (abort p s).dispatcher = s.dispatcher ∧
    (abort p s).log = s.log ∧
    abort p (abort p s) = abort p s ∧
    (∀ t, ∃ s', tick p t (abort p s) = some s' ∧ s'.log = s.log ∧
      s'.dispatcher = s.dispatcher ∧ isActive s' = false ∧
      s'.g_execution = (abort p s).g_execution ∧ s'.g_channelsLists = s.g_channelsLists) ∧
    (∀ (s2 : State F D) (t : Nat), (∀ j, j < p.CH_NUM → (s2.g_execution j).counter < 0) →
      ∃ s', tick p t s2 = some s' ∧ s'.log = s2.log ∧ s'.dispatcher = s2.dispatcher ∧
        isActive s' = false) := by
  refine ⟨fun j hj => abort_counter p s hj, fun j => ⟨abort_it p s j, abort_nextPointTime p s j⟩,
    ?_, rfl, rfl, rfl, rfl, ?_, ?_, ?_⟩
  · intro j hj
    simp [abort, not_lt.mpr hj]
  · simp only [abort]
    congr 1
    funext j
    split_ifs <;> rfl
  · intro t
    refine ⟨_, tick_all_idle p t (abort p s) (fun j hj => ?_), rfl, rfl, rfl, rfl, rfl⟩
    rw [abort_counter p s hj]
    decide
  · intro s2 t h
    exact ⟨_, tick_all_idle p t s2 h, rfl, rfl, rfl⟩

end Engine

/-- C12 on `c9State`, in which both channels are in the middle of a run: after
`abort` both counters are `-1`, and a tick then makes no call and leaves
`isActive()` false. -/
theorem C12_abort_frame_witness :
    ((abort (fixedPoint 2 256) c9State).g_execution 0).counter = -1 ∧
    ((abort (fixedPoint 2 256) c9State).g_execution 1).counter = -1 ∧
    ∃ s', tick (fixedPoint 2 256) 1000 (abort (fixedPoint 2 256) c9State) = some s' ∧
      s'.log = (abort (fixedPoint 2 256) c9State).log ∧
      s'.dispatcher = (abort (fixedPoint 2 256) c9State).dispatcher ∧ isActive s' = false :=
  ⟨(C12_abort_frame (fixedPoint 2 256) c9State).1 0 (by decide),
   (C12_abort_frame (fixedPoint 2 256) c9State).1 1 (by decide),
   (C12_abort_frame (fixedPoint 2 256) c9State).2.2.2.2.2.2.2.2.2
     (abort (fixedPoint 2 256) c9State) 1000 (by decide)⟩


/-! ### The repeat count is read at the start only -/

section Engine
variable {F D : Type}

@[simp] theorem State.withCounts_execution (s : State F D) (g : Nat → Nat) :
    (s.withCounts g).g_execution = s.g_execution := rfl

@[simp] theorem State.withCounts_active (s : State F D) (g : Nat → Nat) :
    (s.withCounts g).g_active = s.g_active := rfl

@[simp] theorem State.withCounts_dispatcher (s : State F D) (g : Nat → Nat) :
    (s.withCounts g).dispatcher = s.dispatcher := rfl

@[simp] theorem State.withCounts_log (s : State F D) (g : Nat → Nat) :
    (s.withCounts g).log = s.log := rfl

theorem State.withCounts_setExecution (s : State F D) (g : Nat → Nat) (i : Nat) (e : Execution) :
    (s.withCounts g).setExecution i e = (s.setExecution i e).withCounts g := rfl

theorem State.withCounts_setActive (s : State F D) (g : Nat → Nat) (b : Bool) :
    (s.withCounts g).setActive b = (s.setActive b).withCounts g := rfl

theorem State.withCounts_emit (s : State F D) (g : Nat → Nat) (ev : Event F) :
    (s.withCounts g).emit ev = (s.emit ev).withCounts g := rfl

theorem abort_withCounts (p : Platform F D) (s : State F D) (g : Nat → Nat) :
    abort p (s.withCounts g) = (abort p s).withCounts g := rfl

theorem maxListsSize_withCounts (s : State F D) (g : Nat → Nat) (c : Channel) :
    maxListsSize (s.withCounts g) c = maxListsSize s c := rfl

theorem advanceStep_withCounts (i : Nat) (s : State F D) (g : Nat → Nat) :
    advanceStep i (s.withCounts g) = (advanceStep i s).map (fun s => s.withCounts g) := by
  simp only [advanceStep, State.withCounts_setExecution, State.withCounts_execution,
    maxListsSize_withCounts, State.withCounts_emit]
  split_ifs <;> rfl

theorem applyPoint_withCounts (p : Platform F D) (t i : Nat) (s : State F D) (g : Nat → Nat) :
    applyPoint p t i (s.withCounts g) = (applyPoint p t i s).map (fun s => s.withCounts g) := by
  have hl : ∀ j, ((s.withCounts g).g_channelsLists j).voltageList = (s.g_channelsLists j).voltageList ∧
      ((s.withCounts g).g_channelsLists j).voltageListLength = (s.g_channelsLists j).voltageListLength ∧
      ((s.withCounts g).g_channelsLists j).currentList = (s.g_channelsLists j).currentList ∧
      ((s.withCounts g).g_channelsLists j).currentListLength = (s.g_channelsLists j).currentListLength ∧
      ((s.withCounts g).g_channelsLists j).dwellList = (s.g_channelsLists j).dwellList ∧
      ((s.withCounts g).g_channelsLists j).dwellListLength = (s.g_channelsLists j).dwellListLength :=
    fun _ => ⟨rfl, rfl, rfl, rfl, rfl, rfl⟩
  unfold applyPoint
  simp only [State.withCounts_execution, State.withCounts_dispatcher, (hl i).1, (hl i).2.1]
  cases listAt (s.g_channelsLists i).voltageList (s.g_execution i).it
      (s.g_channelsLists i).voltageListLength with
  | none => rfl
  | some v =>
    simp only []
    split_ifs
    · rfl
    · rfl
    · simp only [State.emit, State.withCounts_execution, (hl i).2.2.1, (hl i).2.2.2.1,
        (hl i).2.2.2.2.1, (hl i).2.2.2.2.2]
      cases listAt (s.g_channelsLists i).currentList (s.g_execution i).it
          (s.g_channelsLists i).currentListLength with
      | none => rfl
      | some c =>
        simp only []
        split_ifs
        · rfl
        · rfl
        · cases listAt (s.g_channelsLists i).dwellList (s.g_execution i).it
              (s.g_channelsLists i).dwellListLength with
          | none => rfl
          | some d => rfl

theorem tickChannel_withCounts (p : Platform F D) (t i : Nat) (s : State F D) (g : Nat → Nat) :
    tickChannel p t i (s.withCounts g) = (tickChannel p t i s).map (fun s => s.withCounts g) := by
  simp only [tickChannel, State.withCounts_execution, State.withCounts_setActive,
    State.setActive_execution, stepChannel, advanceStep_withCounts]
  split_ifs
  · cases advanceStep i (s.setActive true) with
    | next s1 => exact applyPoint_withCounts p t i s1 g
    | ret s1 => rfl
    | undefined => rfl
  · rfl
  · rfl

theorem tickLoop_withCounts (p : Platform F D) (t : Nat) (g : Nat → Nat) :
    ∀ (n a : Nat) (s : State F D),
      tickLoop p t n a (s.withCounts g) = (tickLoop p t n a s).map (fun s => s.withCounts g)
  | 0, _, _ => rfl
  | n + 1, a, s => by
    rw [tickLoop, tickLoop, tickChannel_withCounts]
    cases tickChannel p t a s with
    | next s1 => exact tickLoop_withCounts p t g n (a + 1) s1
    | ret s1 => rfl
    | undefined => rfl

/-- The repeat counts play no part in a tick. -/
theorem tick_withCounts (p : Platform F D) (t : Nat) (s : State F D) (g : Nat → Nat) :
    tick p t (s.withCounts g) = (tick p t s).map (fun s => s.withCounts g) := by
  unfold tick
  rw [State.withCounts_setActive, tickLoop_withCounts]
  cases tickLoop p t p.CH_NUM 0 (s.setActive false) <;> rfl

theorem setListCount_withCounts (s : State F D) (g : Nat → Nat) (channel : Channel)
    (value : Nat) :
    setListCount (s.withCounts g) channel value =
      s.withCounts (fun j => if j = channel.index - 1 then value else g j) := by
  simp only [setListCount, State.setChannelLists, State.withCounts]
  congr 1
  funext j
  split_ifs with h
  · rw [h]
  · rfl

/-- Calls other than `executionStart` do not look at the repeat counts: a run
from a state with other repeat counts, `setListCount` calls included, ends like
the run without these calls, up to the repeat counts. -/
theorem runCalls_withCounts (p : Platform F D) :
    ∀ (calls : List Call) (s : State F D) (g : Nat → Nat),
      (∀ c ∈ calls, c.isStart = false) →
      (runCalls p (s.withCounts g) calls).map (fun s => s.withCounts fun _ => 0) =
        (runCalls p s (calls.filter fun c => !c.isSetListCount)).map
          (fun s => s.withCounts fun _ => 0)
  | [], s, g, _ => rfl
  | c :: cs, s, g, h => by
    have hcs : ∀ c ∈ cs, c.isStart = false := fun c hc => h c (List.mem_cons_of_mem _ hc)
    cases c with
    | executionStart channel =>
      have := h _ (List.mem_cons_self _ _)
      cases this
    | tick t =>
      rw [List.filter_cons_of_pos (by rfl)]
      simp only [runCalls, perform, tick_withCounts]
      cases tick p t s with
      | none => rfl
      | some s1 => exact runCalls_withCounts p cs s1 g hcs
    | abort =>
      rw [List.filter_cons_of_pos (by rfl)]
      simp only [runCalls, perform, Option.some_bind, abort_withCounts]
      exact runCalls_withCounts p cs _ g hcs
    | setListCount channel value =>
      rw [List.filter_cons_of_neg (by simp [Call.isSetListCount])]
      simp only [runCalls, perform, Option.some_bind, setListCount_withCounts]
      exact runCalls_withCounts p cs s _ hcs

/-- C13: `executionStart` sets the step index of its channel to `-1` and its
counter to the repeat count the channel has at that moment; it changes nothing
else (the channel's `nextPointTime`, the execution state of the other channels,
the lists, the active flag, the dispatcher, the log). The repeat count is
captured: whatever ticks and `abort` calls follow the start, with `setListCount`
calls on any channel and with any value among them, the run is undefined
exactly when it is undefined without the `setListCount` calls, and otherwise
ends in the same state (calls logged, dispatcher, counters, step indices,
`nextPointTime`s, active flag, lists) up to the repeat counts. -/
theorem C13_executionStart_captures_count (p : Platform F D) (s : State F D) (i : Nat) :
    ((executionStart s (Channel.get i)).g_execution i).it = -1 ∧
    ((executionStart s (Channel.get i)).g_execution i).counter =
      (getListCount s (Channel.get i) : Int) ∧
    ((executionStart s (Channel.get i)).g_execution i).nextPointTime =
      (s.g_execution i).nextPointTime ∧
    (∀ j, j ≠ i → (executionStart s (Channel.get i)).g_execution j = s.g_execution j) ∧
    (executionStart s (Channel.get i)).g_channelsLists = s.g_channelsLists ∧
    (executionStart s (Channel.get i)).g_active = s.g_active ∧
    (executionStart s (Channel.get i)).dispatcher = s.dispatcher ∧
    (executionStart s (Channel.get i)).log = s.log ∧
    (∀ calls : List Call, (∀ c ∈ calls, c.isStart = false) →
      (runCalls p (executionStart s (Channel.get i)) calls).map
          (fun s => s.withCounts fun _ => 0) =
        (runCalls p (executionStart s (Channel.get i))
          (calls.filter fun c => !c.isSetListCount)).map (fun s => s.withCounts fun _ => 0)) := by
  refine ⟨by simp [executionStart], by simp [executionStart, getListCount],
    by simp [executionStart], ?_, rfl, rfl, rfl, rfl, ?_⟩
  · intro j hj
    simp [executionStart, State.setExecution, hj]
  · intro calls h
    exact runCalls_withCounts p calls (executionStart s (Channel.get i))
      (fun j => ((executionStart s (Channel.get i)).g_channelsLists j).count) h

end Engine

/-- C13 on the scenario of C8 (one point, repeat count 3): the repeat count is
set to 1 after the first tick, and the run is the same as without that call;
it still applies three points and ends on the fourth tick. -/
theorem C13_executionStart_captures_count_witness :
    (runCalls (fixedPoint 2 256) (executionStart c8State (Channel.get 0))
        [.tick 0, .setListCount (Channel.get 0) 1, .tick 1000, .tick 2000, .tick 3000]).map
        (fun s => s.withCounts fun _ => 0) =
      (runCalls (fixedPoint 2 256) (executionStart c8State (Channel.get 0))
        [.tick 0, .tick 1000, .tick 2000, .tick 3000]).map (fun s => s.withCounts fun _ => 0) ∧
    (runCalls (fixedPoint 2 256) (executionStart c8State (Channel.get 0))
        [.tick 0, .setListCount (Channel.get 0) 1, .tick 1000, .tick 2000, .tick 3000]).map
        (fun s => ((s.g_execution 0).counter, getListCount s (Channel.get 0),
          s.log.countP (Event.isSetpointOf (Channel.get 0)),
          s.log.count (.setTriggerFinished (Channel.get 0)))) = some (-1, 1, 6, 1) :=
  ⟨(C13_executionStart_captures_count (fixedPoint 2 256) c8State 0).2.2.2.2.2.2.2.2
      [.tick 0, .setListCount (Channel.get 0) 1, .tick 1000, .tick 2000, .tick 3000]
      (by decide),
    by decide⟩


/-! ### The list store -/

section Store
variable {F D : Type}

/-- C14: set and get of a list. For each of the three kinds, after
`setXList(channel, list, n)` with `n ≤ MAX_LIST_LENGTH`, `getXList(channel)`
gives the length `n` and an array whose first `n` elements are those of `list`
(the elements from `n` on are what they were), and `getListsChanged(channel)`
is true; the other two lists with their lengths, the repeat count, the
execution state of every channel, the data of every other channel, the active
flag, the dispatcher and the log are as before. Nothing is assumed about the
lengths of the other two lists: no compatibility or range check is made, and
the compatibility predicate of the channel then is that of the new length with
the two lengths left in place, true or false. -/
theorem C14_set_get_list (p : Platform F D) (s : State F D) (i : Nat) (list : Nat → F) (n : Nat)
    (_hn : n ≤ p.MAX_LIST_LENGTH) :
    ((getDwellList (setDwellList s (Channel.get i) list n) (Channel.get i)).2 = n ∧
      (∀ k, k < n →
        (getDwellList (setDwellList s (Channel.get i) list n) (Channel.get i)).1 k = list k) ∧
      (∀ k, n ≤ k →
        (getDwellList (setDwellList s (Channel.get i) list n) (Channel.get i)).1 k =
          (getDwellList s (Channel.get i)).1 k) ∧
      getListsChanged (setDwellList s (Channel.get i) list n) (Channel.get i) = true ∧
      getVoltageList (setDwellList s (Channel.get i) list n) (Channel.get i) =
        getVoltageList s (Channel.get i) ∧
      getCurrentList (setDwellList s (Channel.get i) list n) (Channel.get i) =
        getCurrentList s (Channel.get i) ∧
      getListCount (setDwellList s (Channel.get i) list n) (Channel.get i) =
        getListCount s (Channel.get i) ∧
      (∀ j, j ≠ i → (setDwellList s (Channel.get i) list n).g_channelsLists j =
        s.g_channelsLists j) ∧
      (setDwellList s (Channel.get i) list n).g_execution = s.g_execution ∧
      (setDwellList s (Channel.get i) list n).g_active = s.g_active ∧
      (setDwellList s (Channel.get i) list n).dispatcher = s.dispatcher ∧
      (setDwellList s (Channel.get i) list n).log = s.log) ∧
    ((getVoltageList (setVoltageList s (Channel.get i) list n) (Channel.get i)).2 = n ∧
      (∀ k, k < n →
        (getVoltageList (setVoltageList s (Channel.get i) list n) (Channel.get i)).1 k = list k) ∧
      (∀ k, n ≤ k →
        (getVoltageList (setVoltageList s (Channel.get i) list n) (Channel.get i)).1 k =
          (getVoltageList s (Channel.get i)).1 k) ∧
      getListsChanged (setVoltageList s (Channel.get i) list n) (Channel.get i) = true ∧
      getDwellList (setVoltageList s (Channel.get i) list n) (Channel.get i) =
        getDwellList s (Channel.get i) ∧
      getCurrentList (setVoltageList s (Channel.get i) list n) (Channel.get i) =
        getCurrentList s (Channel.get i) ∧
      getListCount (setVoltageList s (Channel.get i) list n) (Channel.get i) =
        getListCount s (Channel.get i) ∧
      (∀ j, j ≠ i → (setVoltageList s (Channel.get i) list n).g_channelsLists j =
        s.g_channelsLists j) ∧
      (setVoltageList s (Channel.get i) list n).g_execution = s.g_execution ∧
      (setVoltageList s (Channel.get i) list n).g_active = s.g_active ∧
      (setVoltageList s (Channel.get i) list n).dispatcher = s.dispatcher ∧
      (setVoltageList s (Channel.get i) list n).log = s.log) ∧
    ((getCurrentList (setCurrentList s (Channel.get i) list n) (Channel.get i)).2 = n ∧
      (∀ k, k < n →
        (getCurrentList (setCurrentList s (Channel.get i) list n) (Channel.get i)).1 k = list k) ∧
      (∀ k, n ≤ k →
        (getCurrentList (setCurrentList s (Channel.get i) list n) (Channel.get i)).1 k =
          (getCurrentList s (Channel.get i)).1 k) ∧
      getListsChanged (setCurrentList s (Channel.get i) list n) (Channel.get i) = true ∧
      getDwellList (setCurrentList s (Channel.get i) list n) (Channel.get i) =
        getDwellList s (Channel.get i) ∧
      getVoltageList (setCurrentList s (Channel.get i) list n) (Channel.get i) =
        getVoltageList s (Channel.get i) ∧
      getListCount (setCurrentList s (Channel.get i) list n) (Channel.get i) =
        getListCount s (Channel.get i) ∧
      (∀ j, j ≠ i → (setCurrentList s (Channel.get i) list n).g_channelsLists j =
        s.g_channelsLists j) ∧
      (setCurrentList s (Channel.get i) list n).g_execution = s.g_execution ∧
      (setCurrentList s (Channel.get i) list n).g_active = s.g_active ∧
      (setCurrentList s (Channel.get i) list n).dispatcher = s.dispatcher ∧
      (setCurrentList s (Channel.get i) list n).log = s.log) ∧
    (areListLengthsEquivalentChannel (setDwellList s (Channel.get i) list n) (Channel.get i) =
        areListLengthsEquivalent3 n (s.g_channelsLists i).voltageListLength
          (s.g_channelsLists i).currentListLength ∧
      areListLengthsEquivalentChannel (setVoltageList s (Channel.get i) list n) (Channel.get i) =
        areListLengthsEquivalent3 (s.g_channelsLists i).dwellListLength n
          (s.g_channelsLists i).currentListLength ∧
      areListLengthsEquivalentChannel (setCurrentList s (Channel.get i) list n) (Channel.get i) =
        areListLengthsEquivalent3 (s.g_channelsLists i).dwellListLength
          (s.g_channelsLists i).voltageListLength n) := by
  refine ⟨⟨?_, ?_, ?_, ?_, ?_, ?_, ?_, ?_, rfl, rfl, rfl, rfl⟩,
    ⟨?_, ?_, ?_, ?_, ?_, ?_, ?_, ?_, rfl, rfl, rfl, rfl⟩,
    ⟨?_, ?_, ?_, ?_, ?_, ?_, ?_, ?_, rfl, rfl, rfl, rfl⟩, ⟨?_, ?_, ?_⟩⟩
  all_goals
    first
    | (intro k hk
       simp [getDwellList, getVoltageList, getCurrentList, setDwellList, setVoltageList,
         setCurrentList, State.setChannelLists, memcpy, hk, not_lt.mpr])
    | simp [getDwellList, getVoltageList, getCurrentList, getListsChanged, getListCount,
        setDwellList, setVoltageList, setCurrentList, State.setChannelLists,
        areListLengthsEquivalentChannel]

end Store

/-- C14 on a channel whose lists are empty: a voltage list of length 2 and
then a current list of length 3 are stored and read back, although the
lengths 2 and 3 are not compatible and the dwell list is still empty. -/
theorem C14_set_get_list_witness :
    (getVoltageList (setVoltageList (exampleState fun _ => ChannelLists.ofLists [] [] [] 1)
        (Channel.get 0) (fun k => [1000000, 2000000].getD k 0) 2) (Channel.get 0)).2 = 2 ∧
    (getCurrentList (setCurrentList (setVoltageList
        (exampleState fun _ => ChannelLists.ofLists [] [] [] 1)
        (Channel.get 0) (fun k => [1000000, 2000000].getD k 0) 2)
        (Channel.get 0) (fun k => [100000, 200000, 300000].getD k 0) 3) (Channel.get 0)).2 = 3 ∧
    areListLengthsEquivalentChannel (setCurrentList (setVoltageList
        (exampleState fun _ => ChannelLists.ofLists [] [] [] 1)
        (Channel.get 0) (fun k => [1000000, 2000000].getD k 0) 2)
        (Channel.get 0) (fun k => [100000, 200000, 300000].getD k 0) 3) (Channel.get 0) = false :=
  ⟨(C14_set_get_list (fixedPoint 2 256) _ 0 _ 2 (by decide)).2.1.1,
   (C14_set_get_list (fixedPoint 2 256) _ 0 _ 3 (by decide)).2.2.1.1,
   by decide⟩

section Store
variable {F D : Type}

/-- C15: `maxListsSize(channel)` is the maximum of the lengths of the voltage,
current and dwell lists of the channel; when two of the lengths are 0 it is the
third one, and it is 0 exactly when the three lists are empty. -/
theorem C15_maxListsSize_is_max (s : State F D) (channel : Channel) :
    maxListsSize s channel =
      max (s.g_channelsLists (channel.index - 1)).voltageListLength
        (max (s.g_channelsLists (channel.index - 1)).currentListLength
          (s.g_channelsLists (channel.index - 1)).dwellListLength) ∧
    ((s.g_channelsLists (channel.index - 1)).voltageListLength = 0 →
      (s.g_channelsLists (channel.index - 1)).currentListLength = 0 →
      maxListsSize s channel = (s.g_channelsLists (channel.index - 1)).dwellListLength) ∧
    ((s.g_channelsLists (channel.index - 1)).voltageListLength = 0 →
      (s.g_channelsLists (channel.index - 1)).dwellListLength = 0 →
      maxListsSize s channel = (s.g_channelsLists (channel.index - 1)).currentListLength) ∧
    ((s.g_channelsLists (channel.index - 1)).currentListLength = 0 →
      (s.g_channelsLists (channel.index - 1)).dwellListLength = 0 →
      maxListsSize s channel = (s.g_channelsLists (channel.index - 1)).voltageListLength) ∧
    (maxListsSize s channel = 0 ↔
      (s.g_channelsLists (channel.index - 1)).voltageListLength = 0 ∧
      (s.g_channelsLists (channel.index - 1)).currentListLength = 0 ∧
      (s.g_channelsLists (channel.index - 1)).dwellListLength = 0) := by
  have h : maxListsSize s channel =
      max (s.g_channelsLists (channel.index - 1)).voltageListLength
        (max (s.g_channelsLists (channel.index - 1)).currentListLength
          (s.g_channelsLists (channel.index - 1)).dwellListLength) := by
    simp only [maxListsSize]
    split_ifs <;> omega
  refine ⟨h, ?_, ?_, ?_, ?_⟩
  · intro h1 h2
    rw [h, h1, h2]
    simp
  · intro h1 h2
    rw [h, h1, h2]
    simp
  · intro h1 h2
    rw [h, h1, h2]
    simp
  · rw [h]
    omega

end Store

/-- C15 on concrete lists: with a dwell list of length 3 and no voltage or
current list the size is 3; with lengths 2, 1 and 5 it is 5. -/
theorem C15_maxListsSize_is_max_witness :
    maxListsSize (exampleState fun _ => ChannelLists.ofLists [1000, 1000, 1000] [] [] 1)
      (Channel.get 0) = 3 ∧
    maxListsSize (exampleState fun _ => ChannelLists.ofLists [1000, 2000] [1000000]
      [1, 2, 3, 4, 5] 1) (Channel.get 1) = 5 :=
  ⟨(C15_maxListsSize_is_max
      (exampleState fun _ => ChannelLists.ofLists [1000, 1000, 1000] [] [] 1)
      (Channel.get 0)).2.1 rfl rfl,
   (C15_maxListsSize_is_max
      (exampleState fun _ => ChannelLists.ofLists [1000, 2000] [1000000] [1, 2, 3, 4, 5] 1)
      (Channel.get 1)).1⟩


/-! ### Early return -/

section Engine
variable {F D : Type}

/-- What a normal end of `applyPoint` tells: the three reads are defined, the
four checks pass, and the point read is applied. -/
theorem applyPoint_next_inv (p : Platform F D) (t i : Nat) (s s' : State F D)
    (h : applyPoint p t i s = .next s') :
    ∃ v c d,
      listAt (s.g_channelsLists i).voltageList (s.g_execution i).it
        (s.g_channelsLists i).voltageListLength = some v ∧
      listAt (s.g_channelsLists i).currentList (s.g_execution i).it
        (s.g_channelsLists i).currentListLength = some c ∧
      listAt (s.g_channelsLists i).dwellList (s.g_execution i).it
        (s.g_channelsLists i).dwellListLength = some d ∧
      p.gt v (p.getULimit s.dispatcher (Channel.get i)) = false ∧
      p.gt (p.mul v (p.getISet s.dispatcher (Channel.get i)))
        (p.getPowerLimit s.dispatcher (Channel.get i)) = false ∧
      p.gt c (p.getILimit (voltageApplied p i s v).dispatcher (Channel.get i)) = false ∧
      p.gt (p.mul c (p.getUSet (voltageApplied p i s v).dispatcher (Channel.get i)))
        (p.getPowerLimit (voltageApplied p i s v).dispatcher (Channel.get i)) = false ∧
      s' = pointApplied p t i s v c d := by
  rcases hv : listAt (s.g_channelsLists i).voltageList (s.g_execution i).it
      (s.g_channelsLists i).voltageListLength with _ | v
  · simp [applyPoint, hv] at h
  by_cases h1 : p.gt v (p.getULimit s.dispatcher (Channel.get i)) = true
  · rw [applyPoint_voltageLimit p t i s hv h1] at h
    cases h
  by_cases h2 : p.gt (p.mul v (p.getISet s.dispatcher (Channel.get i)))
      (p.getPowerLimit s.dispatcher (Channel.get i)) = true
  · rw [applyPoint_voltagePower p t i s hv (by simpa using h1) h2] at h
    cases h
  rcases hc : listAt (s.g_channelsLists i).currentList (s.g_execution i).it
      (s.g_channelsLists i).currentListLength with _ | c
  · simp [applyPoint, hv, h1, h2, State.emit, hc] at h
  by_cases h3 : p.gt c (p.getILimit (voltageApplied p i s v).dispatcher (Channel.get i)) = true
  · rw [applyPoint_currentLimit p t i s hv hc (by simpa using h1) (by simpa using h2) h3] at h
    cases h
  by_cases h4 : p.gt (p.mul c (p.getUSet (voltageApplied p i s v).dispatcher (Channel.get i)))
      (p.getPowerLimit (voltageApplied p i s v).dispatcher (Channel.get i)) = true
  · rw [applyPoint_currentPower p t i s hv hc (by simpa using h1) (by simpa using h2)
      (by simpa using h3) h4] at h
    cases h
  rcases hd : listAt (s.g_channelsLists i).dwellList (s.g_execution i).it
      (s.g_channelsLists i).dwellListLength with _ | d
  · simp only [voltageApplied] at h3 h4
    simp [applyPoint, hv, h1, h2, State.emit, hc, hd, h3, h4] at h
  · have e := applyPoint_ok p t i s hv hc hd (by simpa using h1) (by simpa using h2)
      (by simpa using h3) (by simpa using h4)
    rw [e] at h
    cases h
    exact ⟨v, c, d, rfl, rfl, rfl, by simpa using h1, by simpa using h2, by simpa using h3,
      by simpa using h4, rfl⟩

theorem State.withExecutionFrom_execution (s : State F D) (k : Nat) (g : Nat → Execution)
    {j : Nat} (hj : j < k) : (s.withExecutionFrom k g).g_execution j = s.g_execution j := by
  simp [State.withExecutionFrom, not_le.mpr hj]

theorem State.withExecutionFrom_setExecution (s : State F D) (k : Nat) (g : Nat → Execution)
    {j : Nat} (hj : j < k) (e : Execution) :
    (s.withExecutionFrom k g).setExecution j e = (s.setExecution j e).withExecutionFrom k g := by
  simp only [State.withExecutionFrom, State.setExecution]
  congr 1
  funext i
  by_cases h1 : i = j
  · subst h1
    simp [not_le.mpr hj]
  · simp [h1]

theorem advanceStep_withExecutionFrom (k : Nat) (g : Nat → Execution) {j : Nat} (hj : j < k)
    (s : State F D) :
    advanceStep j (s.withExecutionFrom k g) =
      (advanceStep j s).map (fun s => s.withExecutionFrom k g) := by
  have hm : ∀ s : State F D, maxListsSize (s.withExecutionFrom k g) (Channel.get j) =
      maxListsSize s (Channel.get j) := fun _ => rfl
  have he : ∀ (s : State F D) (ev : Event F),
      (s.withExecutionFrom k g).emit ev = (s.emit ev).withExecutionFrom k g := fun _ _ => rfl
  simp only [advanceStep, State.withExecutionFrom_execution _ k g hj,
    State.withExecutionFrom_setExecution _ k g hj, hm, he]
  split_ifs <;> rfl

theorem applyPoint_withExecutionFrom (p : Platform F D) (t k : Nat) (g : Nat → Execution)
    {j : Nat} (hj : j < k) (s s1 : State F D) (h : applyPoint p t j s = .next s1) :
    applyPoint p t j (s.withExecutionFrom k g) = .next (s1.withExecutionFrom k g) := by
  obtain ⟨v, c, d, hv, hc, hd, h1, h2, h3, h4, rfl⟩ := applyPoint_next_inv p t j s s1 h
  have e := applyPoint_ok p t j (s.withExecutionFrom k g) (v := v) (c := c) (d := d)
    (by rw [State.withExecutionFrom_execution _ k g hj]; exact hv)
    (by rw [State.withExecutionFrom_execution _ k g hj]; exact hc)
    (by rw [State.withExecutionFrom_execution _ k g hj]; exact hd) h1 h2 h3 h4
  rw [e]
  congr 1
  simp only [pointApplied, voltageApplied, State.emit]
  rw [← State.withExecutionFrom_setExecution _ k g hj,
    State.withExecutionFrom_execution _ k g hj]
  rfl

theorem tickChannel_withExecutionFrom (p : Platform F D) (t k : Nat) (g : Nat → Execution)
    {j : Nat} (hj : j < k) (s s1 : State F D) (h : tickChannel p t j s = .next s1) :
    tickChannel p t j (s.withExecutionFrom k g) = .next (s1.withExecutionFrom k g) := by
  have ha : ∀ b, (s.withExecutionFrom k g).setActive b = (s.setActive b).withExecutionFrom k g :=
    fun _ => rfl
  simp only [tickChannel, State.withExecutionFrom_execution _ k g hj, ha,
    State.setActive_execution, stepChannel, advanceStep_withExecutionFrom k g hj] at h ⊢
  split_ifs at h ⊢
  · cases ha : advanceStep j (s.setActive true) with
    | next sa =>
      rw [ha] at h
      exact applyPoint_withExecutionFrom p t k g hj sa s1 h
    | ret sa => rw [ha] at h; cases h
    | undefined => rw [ha] at h; cases h
  · cases h; rfl
  · cases h; rfl

/-- The loop over the channels before `k`, when it does not return, does not
depend on the execution state of channel `k` and of the channels after it. -/
theorem tickLoop_withExecutionFrom (p : Platform F D) (t k : Nat) (g : Nat → Execution) :
    ∀ (n a : Nat) (s s1 : State F D), a + n ≤ k → tickLoop p t n a s = .next s1 →
      tickLoop p t n a (s.withExecutionFrom k g) = .next (s1.withExecutionFrom k g)
  | 0, _, s, s1, _, h => by
    simp only [tickLoop, Flow.next.injEq] at h
    subst h
    rfl
  | n + 1, a, s, s1, hk, h => by
    rw [tickLoop] at h ⊢
    cases h1 : tickChannel p t a s with
    | next s2 =>
      rw [h1] at h
      rw [tickChannel_withExecutionFrom p t k g (by omega) s s2 h1]
      exact tickLoop_withExecutionFrom p t k g n (a + 1) s2 s1 (by omega) h
    | ret s2 => rw [h1] at h; cases h
    | undefined => rw [h1] at h; cases h

/-- C16: an early return preserves the later channels. In the tick at time `t`
from state `s`, the loop reaches channel `k` in state `sk` (no earlier channel
returned) and the body of the loop returns for channel `k`, leaving `s'`. Then
`s'` is the state after the tick; for every channel `j > k` no call is made in
the tick and its step index and `nextPointTime` are as before the tick; what
the channels before `k` did is kept (the log up to `sk` and, for `j < k`, the
step index and `nextPointTime` reached in `sk`); and the return is one of two:
either the run of channel `k` has ended, `setTriggerFinished` for it is the
only call made after `sk`, its counter is `-1`, the counter of every `j > k` is
as before the tick and every channel `j < k` is exactly as in `sk`; or a limit
was violated, the calls made after `sk` are at most the voltage setpoint of
channel `k` followed by the error, and the counter of every channel is `-1`.
The way the channels before `k` are handled does not depend on channel `k`:
with any other execution state for the channels from `k` on (one in which
channel `k` does not return, for instance), the loop reaches channel `k` with
the same log, dispatcher and execution state of the channels before `k`. -/
theorem C16_early_return_preserves_later_channels (p : Platform F D) (s sk s' : State F D)
    (t k : Nat) (hk : k < p.CH_NUM)
    (hreach : tickLoop p t k 0 (s.setActive false) = .next sk)
    (hret : tickChannel p t k sk = .ret s') :
    tick p t s = some s' ∧
    (∀ j, k < j →
      (s'.g_execution j).it = (s.g_execution j).it ∧
      (s'.g_execution j).nextPointTime = (s.g_execution j).nextPointTime ∧
      ∀ ev ∈ s'.log.drop s.log.length, ev.isAbout (Channel.get j) = false) ∧
    (∀ j, j < k →
      (s'.g_execution j).it = (sk.g_execution j).it ∧
      (s'.g_execution j).nextPointTime = (sk.g_execution j).nextPointTime) ∧
    (∀ ev ∈ sk.log.drop s.log.length, ev.isError = false) ∧
    ((s'.log = sk.log ++ [.setTriggerFinished (Channel.get k)] ∧
        (s'.g_execution k).counter = -1 ∧
        (∀ j, k < j → (s'.g_execution j).counter = (s.g_execution j).counter) ∧
        (∀ j, j < k → s'.g_execution j = sk.g_execution j)) ∨
      ((∃ pre code, s'.log = sk.log ++ pre ++ [.generateError code] ∧
          ∀ ev ∈ pre, ev.isSetpointOf (Channel.get k) = true) ∧
        ∀ j, j < p.CH_NUM → (s'.g_execution j).counter = -1)) ∧
    (∀ g : Nat → Execution,
      tickLoop p t k 0 ((s.withExecutionFrom k g).setActive false) =
        .next (sk.withExecutionFrom k g)) := by
  obtain ⟨_, _, X0, r1, r2, r3⟩ := tickLoop_reach p t k _ sk hreach
  simp only [State.setActive_execution, State.setActive_log] at r1 r3
  obtain ⟨X, a1, _, _, _, _, _, a7, a8, _, a10⟩ := tickChannel_effect p t k sk s' _ hret rfl
  have hdrop : sk.log.drop s.log.length = X0 := by
    rw [r1]; exact List.drop_left _ _
  have hdrop' : s'.log.drop s.log.length = X0 ++ X := by
    rw [a1, r1, List.append_assoc]; exact List.drop_left _ _
  refine ⟨?_, ?_, ?_, ?_, ?_, fun g => tickLoop_withExecutionFrom p t k g k 0 _ sk
    (by omega) hreach⟩
  · unfold tick
    rw [tickLoop_at p t k _ hk, hreach]
    simp only []
    rw [hret]
    rfl
  · intro j hj
    obtain ⟨b1, b2, _⟩ := a8 j (by omega)
    obtain ⟨c1, c2⟩ := r3 j (by omega)
    refine ⟨by rw [b1, c1], by rw [b2, c1], ?_⟩
    rw [hdrop']
    intro ev hev
    rcases List.mem_append.mp hev with hev | hev
    · exact c2 ev hev
    · rcases a7 ev hev with h2 | h2
      · exact Event.isAbout_of_isError _ ev h2
      · exact Event.isAbout_other ev h2 (by omega)
  · intro j hj
    obtain ⟨b1, b2, _⟩ := a8 j (by omega)
    exact ⟨b1, b2⟩
  · rw [hdrop]; exact r2
  · rcases a10 s' rfl with ⟨e1, e2, e3⟩ | ⟨⟨pre, code, e1, e2⟩, e3⟩
    · refine Or.inl ⟨by rw [a1, e1], e3, ?_, fun j hj => e2 j (by omega)⟩
      intro j hj
      rw [e2 j (by omega), (r3 j (by omega)).1]
    · exact Or.inr ⟨⟨pre, code, by rw [a1, e1, List.append_assoc], e2⟩, e3⟩

end Engine

/-- C16 on `c11Finish`: the first channel ends its run in the tick at time 704
and the tick returns; the second channel, although due, keeps its step index
1, its `nextPointTime` 504 and its counter 4. -/
theorem C16_early_return_preserves_later_channels_witness :
    ∃ s', tick (fixedPoint 2 256) 704 c11Finish = some s' ∧
      (s'.g_execution 1).it = (c11Finish.g_execution 1).it ∧
      (s'.g_execution 1).nextPointTime = (c11Finish.g_execution 1).nextPointTime ∧
      (s'.g_execution 1).counter = 4 := by
  obtain ⟨a1, a2, _⟩ := C16_early_return_preserves_later_channels (fixedPoint 2 256)
    c11Finish (c11Finish.setActive false) _ 704 0 (by decide) rfl
    ((tickChannel_due _ _ _ _ (by decide) (by decide)).trans
      (stepChannel_finish _ _ _ _ (by decide) (by decide) (by decide)))
  exact ⟨_, a1, (a2 1 (by decide)).1, (a2 1 (by decide)).2.1, by decide⟩


/-! ### Selection of the setpoints -/

section Engine
variable {F D : Type}

/-- A defined read at a step index that is a natural number: the list is not
empty and the element read is the one at the index modulo the length. -/
theorem listAt_natCast_inv (list : Nat → F) (k length : Nat) (v : F)
    (h : listAt list (k : Int) length = some v) : 0 < length ∧ v = list (k % length) := by
  have hl : 0 < length := by
    rcases Nat.eq_zero_or_pos length with h0 | h0
    · subst h0
      simp [listAt] at h
    · exact h0
  rw [listAt_natCast list k length hl] at h
  cases h
  exact ⟨hl, rfl⟩

/-- C17: setpoint selection by modulo indexing. In the tick at time `t` from
state `s` the loop reaches channel `i` in state `sk`; the channel is active and
due and its step ends normally in state `s2` (no end of run, no violation) with
step index `k`. Then the three lists are not empty; the calls made by the step
are `setVoltage` with `voltageList[k mod voltageLen]` followed by `setCurrent`
with `currentList[k mod currentLen]`, handed to the dispatcher in that order;
`nextPointTime` is `t` plus the dwell `dwellList[k mod dwellLen]` converted to
microseconds, modulo `2^32`; and when the tick is over these are still the last
calls made for the channel, its step index and its `nextPointTime`. No
relation between the three lengths is assumed. When the lengths pass the
three-way compatibility check and `k` is below the span, each list has length 1
and gives its single element, or has the length of the span and gives its
`k`-th element. -/
theorem C17_setpoint_selection_modulo (p : Platform F D) (s sk s2 : State F D) (t i k : Nat)
    (hi : i < p.CH_NUM)
    (hreach : tickLoop p t i 0 (s.setActive false) = .next sk)
    (hact : 0 ≤ (sk.g_execution i).counter)
    (hdue : isDue (sk.g_execution i) t = true)
    (hstep : stepChannel p t i (sk.setActive true) = .next s2)
    (hit : (s2.g_execution i).it = (k : Int)) :
    (0 < (sk.g_channelsLists i).voltageListLength ∧
      0 < (sk.g_channelsLists i).currentListLength ∧
      0 < (sk.g_channelsLists i).dwellListLength) ∧
    s2.log = sk.log ++
      [.setVoltage (Channel.get i) ((sk.g_channelsLists i).voltageList
          (k % (sk.g_channelsLists i).voltageListLength)),
       .setCurrent (Channel.get i) ((sk.g_channelsLists i).currentList
          (k % (sk.g_channelsLists i).currentListLength))] ∧
    s2.dispatcher =
      p.setCurrent (p.setVoltage sk.dispatcher (Channel.get i)
          ((sk.g_channelsLists i).voltageList (k % (sk.g_channelsLists i).voltageListLength)))
        (Channel.get i)
        ((sk.g_channelsLists i).currentList (k % (sk.g_channelsLists i).currentListLength)) ∧
    (s2.g_execution i).nextPointTime =
      addUInt32 t (p.toUsec ((sk.g_channelsLists i).dwellList
        (k % (sk.g_channelsLists i).dwellListLength)) % 4294967296) ∧
    sk.g_channelsLists = s.g_channelsLists ∧
    (∀ s', tick p t s = some s' →
      (s'.g_execution i).it = (k : Int) ∧
      (s'.g_execution i).nextPointTime = (s2.g_execution i).nextPointTime ∧
      ∃ pre post, s'.log = s.log ++ pre ++
          [.setVoltage (Channel.get i) ((sk.g_channelsLists i).voltageList
              (k % (sk.g_channelsLists i).voltageListLength)),
           .setCurrent (Channel.get i) ((sk.g_channelsLists i).currentList
              (k % (sk.g_channelsLists i).currentListLength))] ++ post ∧
        (∀ ev ∈ pre, ev.isAbout (Channel.get i) = false) ∧
        (∀ ev ∈ post, ev.isAbout (Channel.get i) = false)) ∧
    (areListLengthsEquivalentChannel sk (Channel.get i) = true →
      k < maxListsSize sk (Channel.get i) →
      (((sk.g_channelsLists i).voltageListLength = 1 ∧
          k % (sk.g_channelsLists i).voltageListLength = 0) ∨
        ((sk.g_channelsLists i).voltageListLength = maxListsSize sk (Channel.get i) ∧
          k % (sk.g_channelsLists i).voltageListLength = k)) ∧
      (((sk.g_channelsLists i).currentListLength = 1 ∧
          k % (sk.g_channelsLists i).currentListLength = 0) ∨
        ((sk.g_channelsLists i).currentListLength = maxListsSize sk (Channel.get i) ∧
          k % (sk.g_channelsLists i).currentListLength = k)) ∧
      (((sk.g_channelsLists i).dwellListLength = 1 ∧
          k % (sk.g_channelsLists i).dwellListLength = 0) ∨
        ((sk.g_channelsLists i).dwellListLength = maxListsSize sk (Channel.get i) ∧
          k % (sk.g_channelsLists i).dwellListLength = k))) := by
  -- the step: bookkeeping, then the point
  have hstep' := hstep
  simp only [stepChannel] at hstep'
  cases ha : advanceStep i (sk.setActive true) with
  | undefined => exact absurd ha (advanceStep_ne_undefined i _)
  | ret sf => rw [ha] at hstep'; cases hstep'
  | next sa =>
    rw [ha] at hstep'
    obtain ⟨e, rfl, _⟩ := advanceStep_next i _ sa ha
    obtain ⟨v, c, d, hv, hc, hd, _, _, _, _, rfl⟩ := applyPoint_next_inv p t i _ s2 hstep'
    have hk : e.it = (k : Int) := by
      simpa [pointApplied, voltageApplied] using hit
    simp only [State.setExecution_same, State.setExecution_lists, State.setActive_lists,
      hk] at hv hc hd
    obtain ⟨v1, rfl⟩ := listAt_natCast_inv _ _ _ _ hv
    obtain ⟨c1, rfl⟩ := listAt_natCast_inv _ _ _ _ hc
    obtain ⟨d1, rfl⟩ := listAt_natCast_inv _ _ _ _ hd
    obtain ⟨_, r0, pre, r1, _, r3⟩ := tickLoop_reach p t i _ sk hreach
    have hlog : (pointApplied p t i ((sk.setActive true).setExecution i e)
        ((sk.g_channelsLists i).voltageList (k % (sk.g_channelsLists i).voltageListLength))
        ((sk.g_channelsLists i).currentList (k % (sk.g_channelsLists i).currentListLength))
        ((sk.g_channelsLists i).dwellList (k % (sk.g_channelsLists i).dwellListLength))).log =
        sk.log ++
        [.setVoltage (Channel.get i) ((sk.g_channelsLists i).voltageList
            (k % (sk.g_channelsLists i).voltageListLength)),
         .setCurrent (Channel.get i) ((sk.g_channelsLists i).currentList
            (k % (sk.g_channelsLists i).currentListLength))] := by
      simp [pointApplied, voltageApplied]
    refine ⟨⟨v1, c1, d1⟩, hlog, by simp [pointApplied, voltageApplied],
      by simp [pointApplied, voltageApplied], r0, ?_, ?_⟩
    · intro s' hs'
      unfold tick at hs'
      rw [tickLoop_at p t i _ hi, hreach] at hs'
      simp only [] at hs'
      rw [tickChannel_due p t i sk hact hdue, hstep] at hs'
      simp only [] at hs'
      obtain ⟨X, b1, _, _, _, _, b6⟩ := tickLoop_effect p t _ _ _ s' _ rfl hs'
      obtain ⟨c1, c2, _, c4⟩ := b6 i (Or.inl (by omega))
      refine ⟨by rw [c1]; exact hit, c2, pre, X, ?_, (r3 i (le_refl i)).2, c4⟩
      rw [b1, hlog, r1]
      simp [List.append_assoc]
    · intro hcompat hlt
      simp only [areListLengthsEquivalentChannel, Channel.get_index_sub_one,
        areListLengthsEquivalent3_iff] at hcompat
      rw [maxListsSize_eq] at hlt ⊢
      obtain ⟨_, h1, h2, h3⟩ := hcompat
      refine ⟨?_, ?_, ?_⟩
      · rcases Nat.lt_or_ge 1 (sk.g_channelsLists i).voltageListLength with h | h
        · right
          have : (sk.g_channelsLists i).voltageListLength =
              max (sk.g_channelsLists i).voltageListLength
                (max (sk.g_channelsLists i).currentListLength
                  (sk.g_channelsLists i).dwellListLength) := by omega
          exact ⟨this, Nat.mod_eq_of_lt (by omega)⟩
        · left
          have : (sk.g_channelsLists i).voltageListLength = 1 := by omega
          exact ⟨this, by rw [this]; exact Nat.mod_one k⟩
      · rcases Nat.lt_or_ge 1 (sk.g_channelsLists i).currentListLength with h | h
        · right
          have : (sk.g_channelsLists i).currentListLength =
              max (sk.g_channelsLists i).voltageListLength
                (max (sk.g_channelsLists i).currentListLength
                  (sk.g_channelsLists i).dwellListLength) := by omega
          exact ⟨this, Nat.mod_eq_of_lt (by omega)⟩
        · left
          have : (sk.g_channelsLists i).currentListLength = 1 := by omega
          exact ⟨this, by rw [this]; exact Nat.mod_one k⟩
      · rcases Nat.lt_or_ge 1 (sk.g_channelsLists i).dwellListLength with h | h
        · right
          have : (sk.g_channelsLists i).dwellListLength =
              max (sk.g_channelsLists i).voltageListLength
                (max (sk.g_channelsLists i).currentListLength
                  (sk.g_channelsLists i).dwellListLength) := by omega
          exact ⟨this, Nat.mod_eq_of_lt (by omega)⟩
        · left
          have : (sk.g_channelsLists i).dwellListLength = 1 := by omega
          exact ⟨this, by rw [this]; exact Nat.mod_one k⟩

end Engine

/-- C17 on `c17State`, whose lengths 2, 3 and 1 are not compatible: the step to
index 2 applies `voltageList[2 mod 2] = 1.0` and then `currentList[2 mod 3] =
0.3`, and the next step is due one dwell `dwellList[2 mod 1]` later. -/
theorem C17_setpoint_selection_modulo_witness :
    areListLengthsEquivalentChannel c17State (Channel.get 1) = false ∧
    ∃ s', tick (fixedPoint 2 256) 1000 c17State = some s' ∧
      (s'.g_execution 1).it = 2 ∧
      (s'.g_execution 1).nextPointTime = 2000 ∧
      ∃ pre post, s'.log = c17State.log ++ pre ++
        [.setVoltage (Channel.get 1) 1000000, .setCurrent (Channel.get 1) 300000] ++ post := by
  refine ⟨by decide, ?_⟩
  obtain ⟨s', hs'⟩ := Option.isSome_iff_exists.mp
    (by decide : (tick (fixedPoint 2 256) 1000 c17State).isSome = true)
  obtain ⟨_, _, _, a4, _, a6, _⟩ := C17_setpoint_selection_modulo (fixedPoint 2 256) c17State
    (c17State.setActive false)
    (pointApplied (fixedPoint 2 256) 1000 1
      (((c17State.setActive false).setActive true).setExecution 1
        { counter := 0, it := 2, nextPointTime := 1000 }) 1000000 300000 1000)
    1000 1 2 (by decide) rfl (by decide) (by decide)
    ((stepChannel_advance _ _ _ _ (by decide) (by decide) (by decide)).trans
      (applyPoint_ok _ _ _ _ (by decide) (by decide) (by decide) (by decide) (by decide)
        (by decide) (by decide)))
    (by decide)
  obtain ⟨b1, b2, pre, post, b3, _⟩ := a6 s' hs'
  exact ⟨s', hs', b1, b2.trans a4, pre, post, b3⟩


/-! ### The step-index invariant -/

section Engine
variable {F D : Type}

theorem ChannelLists.nonEmptyWithin_iff (l : ChannelLists F) (maxLen : Nat) :
    l.nonEmptyWithin maxLen = true ↔
      0 < l.voltageListLength ∧ l.voltageListLength ≤ maxLen ∧
      0 < l.currentListLength ∧ l.currentListLength ≤ maxLen ∧
      0 < l.dwellListLength ∧ l.dwellListLength ≤ maxLen := by
  simp [ChannelLists.nonEmptyWithin]

/-- The invariant carries over to a state with the same lengths in which no
channel has become active and the active channels have kept their step
index. -/
theorem StepIndexOk.transfer (p : Platform F D) {s s' : State F D} (h : StepIndexOk p s)
    (hl : ∀ j, (s'.g_channelsLists j).nonEmptyWithin p.MAX_LIST_LENGTH =
        (s.g_channelsLists j).nonEmptyWithin p.MAX_LIST_LENGTH ∧
      maxListsSize s' (Channel.get j) = maxListsSize s (Channel.get j))
    (he : ∀ j, j < p.CH_NUM → 0 ≤ (s'.g_execution j).counter →
      0 ≤ (s.g_execution j).counter ∧ (s'.g_execution j).it = (s.g_execution j).it) :
    StepIndexOk p s' := by
  intro j hj hc
  obtain ⟨h1, h2⟩ := he j hj hc
  obtain ⟨a1, a2, a3⟩ := h j hj h1
  rw [(hl j).1, (hl j).2, h2]
  exact ⟨a1, a2, a3⟩

theorem StepIndexOk.after_abort (p : Platform F D) (s : State F D) : StepIndexOk p (abort p s) := by
  intro j hj hc
  rw [abort_counter p s hj] at hc
  exact absurd hc (by decide)

/-- With the invariant, the point of an active channel at a non-negative step
index is read within the lists: `applyPoint` is defined, and the invariant
holds afterwards. -/
theorem applyPoint_stepIndexOk (p : Platform F D) (t j : Nat) (s : State F D)
    (hj : j < p.CH_NUM) (h : StepIndexOk p s) (hc : 0 ≤ (s.g_execution j).counter)
    (hit : 0 ≤ (s.g_execution j).it) :
    applyPoint p t j s ≠ .undefined ∧
      ∀ s', (applyPoint p t j s).result = some s' → StepIndexOk p s' := by
  obtain ⟨a1, _, _⟩ := h j hj hc
  rw [ChannelLists.nonEmptyWithin_iff] at a1
  obtain ⟨r, hr⟩ := Int.eq_ofNat_of_zero_le hit
  have hdef := applyPoint_at p t j s r hr a1.1 a1.2.2.1 a1.2.2.2.2.1
  rcases applyPoint_outcome p t j s with e | ⟨v, c, d, e⟩ | ⟨code, e⟩ | ⟨v, code, e⟩
  · rcases hdef with ⟨s', e', _⟩ | ⟨s', _, _, e', _⟩ <;> (rw [e] at e'; cases e')
  · refine ⟨by rw [e]; simp, ?_⟩
    intro s' hs'
    rw [e] at hs'
    cases hs'
    refine StepIndexOk.transfer p h (fun _ => ⟨rfl, rfl⟩) ?_
    intro j' _ hc'
    by_cases hjj : j' = j
    · subst hjj
      simpa [pointApplied, voltageApplied] using hc'
    · simpa [pointApplied, voltageApplied, State.setExecution, hjj] using hc'
  · refine ⟨by rw [e]; simp, ?_⟩
    intro s' hs'
    rw [e] at hs'
    cases hs'
    exact StepIndexOk.after_abort p _
  · refine ⟨by rw [e]; simp, ?_⟩
    intro s' hs'
    rw [e] at hs'
    cases hs'
    exact StepIndexOk.after_abort p _

theorem maxListsSize_le_of_nonEmptyWithin (s : State F D) (j maxLen : Nat)
    (h : (s.g_channelsLists j).nonEmptyWithin maxLen = true) :
    0 < maxListsSize s (Channel.get j) ∧ maxListsSize s (Channel.get j) ≤ maxLen := by
  rw [ChannelLists.nonEmptyWithin_iff] at h
  rw [maxListsSize_eq]
  omega

/-- With the invariant, the body of the loop is defined for each channel and
keeps the invariant. -/
theorem tickChannel_stepIndexOk (p : Platform F D) (hmax : p.MAX_LIST_LENGTH ≤ 32767)
    (t j : Nat) (s : State F D) (hj : j < p.CH_NUM) (h : StepIndexOk p s) :
    tickChannel p t j s ≠ .undefined ∧
      ∀ s', (tickChannel p t j s).result = some s' → StepIndexOk p s' := by
  by_cases hc : (s.g_execution j).counter < 0
  · rw [tickChannel_idle p t j s hc]
    refine ⟨by simp, ?_⟩
    intro s' hs'
    cases hs'
    exact h
  have hc' : 0 ≤ (s.g_execution j).counter := not_lt.mp hc
  have hact : StepIndexOk p (s.setActive true) := h
  cases hd : isDue (s.g_execution j) t
  · rw [tickChannel_notDue p t j s hc' hd]
    refine ⟨by simp, ?_⟩
    intro s' hs'
    cases hs'
    exact hact
  rw [tickChannel_due p t j s hc' hd]
  obtain ⟨a1, a2, a3⟩ := h j hj hc'
  obtain ⟨b1, b2⟩ := maxListsSize_le_of_nonEmptyWithin s j _ a1
  have hspan : maxListsSize (s.setActive true) (Channel.get j) = maxListsSize s (Channel.get j) :=
    rfl
  by_cases hlt : (s.g_execution j).it + 1 < (maxListsSize s (Channel.get j) : Int)
  · rw [stepChannel_advance p t j (s.setActive true) a2 hlt (by rw [hspan]; omega)]
    refine applyPoint_stepIndexOk p t j _ hj ?_ (by simpa using hc') (by simpa using by omega)
    intro j' hj' hcj'
    by_cases hjj : j' = j
    · subst hjj
      simp only [State.setExecution_same, State.setActive_execution] at hcj' ⊢
      exact ⟨a1, by omega, hlt⟩
    · simp only [State.setExecution_other _ _ hjj] at hcj' ⊢
      exact h j' hj' hcj'
  have heq : (s.g_execution j).it + 1 = (maxListsSize s (Channel.get j) : Int) := by omega
  by_cases hone : (s.g_execution j).counter = 1
  · rw [stepChannel_finish p t j (s.setActive true) heq (by rw [hspan]; omega) hone]
    refine ⟨by simp, ?_⟩
    intro s' hs'
    cases hs'
    intro j' hj' hcj'
    by_cases hjj : j' = j
    · subst hjj
      simp at hcj'
    · have e : ((((s.setActive true).setExecution j
          { (s.setActive true).g_execution j with
            it := ((s.setActive true).g_execution j).it + 1, counter := -1 }).emit
          (.setTriggerFinished (Channel.get j))).g_execution j') = s.g_execution j' := by
        simp [State.setExecution, hjj]
      rw [e] at hcj' ⊢
      exact h j' hj' hcj'
  · rw [stepChannel_wrap p t j (s.setActive true) heq (by rw [hspan]; omega) hone]
    refine applyPoint_stepIndexOk p t j _ hj ?_ ?_ (by simp)
    · intro j' hj' hcj'
      by_cases hjj : j' = j
      · subst hjj
        simp only [State.setExecution_same, State.setActive_execution] at hcj' ⊢
        exact ⟨a1, by omega, by
          show (0 : Int) < (maxListsSize s (Channel.get j') : Int)
          omega⟩
      · simp only [State.setExecution_other _ _ hjj] at hcj' ⊢
        exact h j' hj' hcj'
    · simp only [State.setExecution_same, State.setActive_execution]
      split_ifs <;> omega

/-- With the invariant, the loop is defined and keeps the invariant. -/
theorem tickLoop_stepIndexOk (p : Platform F D) (hmax : p.MAX_LIST_LENGTH ≤ 32767) (t : Nat) :
    ∀ (n a : Nat) (s : State F D), a + n ≤ p.CH_NUM → StepIndexOk p s →
      tickLoop p t n a s ≠ .undefined ∧
        ∀ s', (tickLoop p t n a s).result = some s' → StepIndexOk p s'
  | 0, _, s, _, h => by
    refine ⟨by simp [tickLoop], ?_⟩
    intro s' hs'
    cases hs'
    exact h
  | n + 1, a, s, ha, h => by
    obtain ⟨a1, a2⟩ := tickChannel_stepIndexOk p hmax t a s (by omega) h
    rw [tickLoop]
    cases h1 : tickChannel p t a s with
    | undefined => exact absurd h1 a1
    | ret s1 =>
      refine ⟨by simp, ?_⟩
      intro s' hs'
      cases hs'
      exact a2 s1 (by rw [h1]; rfl)
    | next s1 =>
      exact tickLoop_stepIndexOk p hmax t n (a + 1) s1 (by omega) (a2 s1 (by rw [h1]; rfl))

/-- With the invariant, a tick is defined and keeps the invariant. -/
theorem tick_stepIndexOk (p : Platform F D) (hmax : p.MAX_LIST_LENGTH ≤ 32767) (t : Nat)
    (s : State F D) (h : StepIndexOk p s) :
    ∃ s', tick p t s = some s' ∧ StepIndexOk p s' ∧ s'.g_channelsLists = s.g_channelsLists := by
  obtain ⟨a1, a2⟩ := tickLoop_stepIndexOk p hmax t p.CH_NUM 0 (s.setActive false) (by omega) h
  unfold tick
  cases h1 : tickLoop p t p.CH_NUM 0 (s.setActive false) with
  | undefined => exact absurd h1 a1
  | ret s1 =>
    obtain ⟨_, _, b2, _⟩ := tickLoop_effect p t _ _ _ s1 _ h1 rfl
    exact ⟨s1, rfl, a2 s1 (by rw [h1]; rfl), b2⟩
  | next s1 =>
    obtain ⟨_, _, b2, _⟩ := tickLoop_effect p t _ _ _ s1 _ h1 rfl
    exact ⟨s1, rfl, a2 s1 (by rw [h1]; rfl), b2⟩

/-- An allowed call made in a state with the invariant is defined, keeps the
invariant and leaves the lengths of the lists as they are. -/
theorem perform_stepIndexOk (p : Platform F D) (hmax : p.MAX_LIST_LENGTH ≤ 32767)
    (s : State F D) (c : Call) (h : StepIndexOk p s) (hc : c.startOk p s = true) :
    ∃ s', perform p s c = some s' ∧ StepIndexOk p s' ∧
      ∀ j, (s'.g_channelsLists j).nonEmptyWithin p.MAX_LIST_LENGTH =
        (s.g_channelsLists j).nonEmptyWithin p.MAX_LIST_LENGTH := by
  cases c with
  | executionStart channel =>
    simp only [Call.startOk, Bool.and_eq_true, decide_eq_true_eq] at hc
    obtain ⟨⟨c1, c2⟩, c3⟩ := hc
    refine ⟨_, rfl, ?_, fun _ => rfl⟩
    intro j hj hcj
    by_cases hjj : j = channel.index - 1
    · subst hjj
      obtain ⟨b1, _⟩ := maxListsSize_le_of_nonEmptyWithin s (channel.index - 1) _ c3
      have e : maxListsSize (executionStart s channel) (Channel.get (channel.index - 1)) =
          maxListsSize s (Channel.get (channel.index - 1)) := rfl
      rw [e]
      refine ⟨c3, by simp [executionStart], ?_⟩
      have : ((executionStart s channel).g_execution (channel.index - 1)).it = -1 := by
        simp [executionStart]
      rw [this]
      omega
    · have e : (executionStart s channel).g_execution j = s.g_execution j := by
        simp [executionStart, State.setExecution, hjj]
      rw [e] at hcj ⊢
      exact h j hj hcj
  | tick t =>
    obtain ⟨s', a1, a2, a3⟩ := tick_stepIndexOk p hmax t s h
    exact ⟨s', a1, a2, fun j => by rw [a3]⟩
  | abort => exact ⟨_, rfl, StepIndexOk.after_abort p s, fun _ => rfl⟩
  | setListCount channel value =>
    have hl : ∀ j, ((setListCount s channel value).g_channelsLists j).nonEmptyWithin
          p.MAX_LIST_LENGTH = (s.g_channelsLists j).nonEmptyWithin p.MAX_LIST_LENGTH ∧
        maxListsSize (setListCount s channel value) (Channel.get j) =
          maxListsSize s (Channel.get j) := by
      intro j
      by_cases hjj : j = channel.index - 1
      · subst hjj
        simp [setListCount, State.setChannelLists, ChannelLists.nonEmptyWithin, maxListsSize]
      · simp [setListCount, State.setChannelLists, ChannelLists.nonEmptyWithin, maxListsSize,
          hjj]
    exact ⟨_, rfl, StepIndexOk.transfer p h hl (fun j _ hcj => ⟨hcj, rfl⟩), fun j => (hl j).1⟩

theorem Call.startOk_congr (p : Platform F D) (s s' : State F D) (c : Call)
    (hl : ∀ j, (s'.g_channelsLists j).nonEmptyWithin p.MAX_LIST_LENGTH =
      (s.g_channelsLists j).nonEmptyWithin p.MAX_LIST_LENGTH) :
    c.startOk p s' = c.startOk p s := by
  cases c <;> simp [Call.startOk, hl]

/-- Allowed calls made from a state with the invariant are defined and lead to
a state with the invariant. -/
theorem runCalls_stepIndexOk (p : Platform F D) (hmax : p.MAX_LIST_LENGTH ≤ 32767) :
    ∀ (calls : List Call) (s : State F D), StepIndexOk p s →
      (∀ c ∈ calls, c.startOk p s = true) →
      ∃ s', runCalls p s calls = some s' ∧ StepIndexOk p s'
  | [], s, h, _ => ⟨s, rfl, h⟩
  | c :: cs, s, h, hc => by
    obtain ⟨s1, a1, a2, a3⟩ := perform_stepIndexOk p hmax s c h (hc c (List.mem_cons_self _ _))
    obtain ⟨s', b1, b2⟩ := runCalls_stepIndexOk p hmax cs s1 a2 (fun c' hc' => by
      rw [Call.startOk_congr p s s1 c' a3]
      exact hc c' (List.mem_cons_of_mem _ hc'))
    exact ⟨s', by simp [runCalls, a1, b1], b2⟩

/-- C18: step-index invariant and index safety. `MAX_LIST_LENGTH` is at most
32767, the largest value of the 16-bit step index. From a state in which the
invariant holds (every channel with counter `≥ 0` has three lists of lengths in
`1 .. MAX_LIST_LENGTH` and a step index in `-1 .. span - 1`; so when no channel
is active), make any sequence of calls of `executionStart`, `tick`, `abort` and
`setListCount` in which every channel that is started has, of the `CH_NUM`
channels, three lists of lengths in `1 .. MAX_LIST_LENGTH`. Then every call is
defined, the invariant holds in the state reached, and a further tick at any
time is defined: no read divides by zero or uses a negative index. A read that
is defined is made at the index `it % length`, which is below `length`. Without
the precondition on the lists the division by zero is reached: with an empty
voltage list, the first tick after `executionStart` is undefined. -/
theorem C18_step_index_invariant (p : Platform F D) (s0 : State F D) (calls : List Call)
    (hmax : p.MAX_LIST_LENGTH ≤ 32767) (h0 : StepIndexOk p s0)
    (hcalls : ∀ c ∈ calls, c.startOk p s0 = true) :
    (∃ s, runCalls p s0 calls = some s ∧ StepIndexOk p s ∧
      ∀ t, ∃ s', tick p t s = some s' ∧ StepIndexOk p s') ∧
    (∀ (list : Nat → F) (it : Int) (length : Nat) (v : F), listAt list it length = some v →
      0 < length ∧ ∃ k, k < length ∧ (k : Int) = Int.tmod it (length : Int) ∧ v = list k) ∧
    (tick (fixedPoint 2 256) 0 (executionStart
      (exampleState fun _ => ChannelLists.ofLists [1000] [] [500000] 2)
      (Channel.get 0))).isNone = true := by
  refine ⟨?_, ?_, by decide⟩
  · obtain ⟨s, a1, a2⟩ := runCalls_stepIndexOk p hmax calls s0 h0 hcalls
    refine ⟨s, a1, a2, fun t => ?_⟩
    obtain ⟨s', b1, b2, _⟩ := tick_stepIndexOk p hmax t s a2
    exact ⟨s', b1, b2⟩
  · intro list it length v h
    unfold listAt at h
    split_ifs at h with h1 h2
    cases h
    refine ⟨Nat.pos_of_ne_zero h1, (Int.tmod it length).toNat, ?_, ?_, rfl⟩
    · have hpos : (0 : Int) < (length : Int) := by exact_mod_cast Nat.pos_of_ne_zero h1
      have h3 : Int.tmod it length < length := Int.tmod_lt_of_pos _ hpos
      omega
    · omega

end Engine

/-- C18 on three channels with non-empty lists, all idle at first: channels are
started, ticked and aborted in turn; every call is defined and the invariant
holds at the end. -/
theorem C18_step_index_invariant_witness :
    ∃ s, runCalls (fixedPoint 3 256) c10State
        [.executionStart (Channel.get 0), .tick 0, .executionStart (Channel.get 2), .tick 1000,
          .tick 2000, .abort, .executionStart (Channel.get 1), .tick 3000] = some s ∧
      StepIndexOk (fixedPoint 3 256) s :=
  let ⟨s, h1, h2, _⟩ := (C18_step_index_invariant (fixedPoint 3 256) c10State
    [.executionStart (Channel.get 0), .tick 0, .executionStart (Channel.get 2), .tick 1000,
      .tick 2000, .abort, .executionStart (Channel.get 1), .tick 3000]
    (by decide) (by decide) (by decide)).1
  ⟨s, h1, h2⟩


/-! ### The active flag -/

section Engine
variable {F D File : Type}

theorem resetLoop_active : ∀ (n i : Nat) (s : State F D), (resetLoop n i s).g_active = s.g_active
  | 0, _, _ => rfl
  | n + 1, i, s => by
    rw [resetLoop, resetLoop_active n (i + 1)]
    rfl

theorem loadList_active (p : Platform F D) (sd : SdCard File F) (s : State F D)
    (channel : Channel) (filePath : String) (uninit : Nat → F) :
    (loadList p sd s channel filePath uninit).state.g_active = s.g_active := by
  unfold loadList
  split_ifs
  · split
    · rfl
    · simp only []
      split_ifs <;> rfl
  · rfl

/-- C19: the active flag reflects the state at tick entry. After a tick that
is defined, `isActive()` is true exactly when one of the `CH_NUM` channels had a
counter `≥ 0` when the tick was entered, whether the tick ran to its end or
returned early. So it is true after a tick that returned early (the run of a
channel ended, or a limit violation aborted every channel), and if no channel
is left with a counter `≥ 0` it is false after the following tick, at whatever
time that one comes. `isActive()` is not changed by `abort`, `executionStart`,
the list setters, `setListCount`, `setListsChanged`, `resetChannelList`,
`reset` or `loadList`. -/
theorem C19_active_flag_reflects_tick_entry (p : Platform F D) (s s' : State F D) (t : Nat)
    (h : tick p t s = some s') :
    (isActive s' = true ↔ ∃ j, j < p.CH_NUM ∧ 0 ≤ (s.g_execution j).counter) ∧
    (∀ sr, tickLoop p t p.CH_NUM 0 (s.setActive false) = .ret sr → isActive s' = true) ∧
    ((∀ j, j < p.CH_NUM → (s'.g_execution j).counter < 0) →
      ∀ t2, ∃ s2, tick p t2 s' = some s2 ∧ isActive s2 = false) ∧
    isActive (abort p s) = isActive s ∧
    (∀ channel, isActive (executionStart s channel) = isActive s) ∧
    (∀ channel list n, isActive (setDwellList s channel list n) = isActive s) ∧
    (∀ channel list n, isActive (setVoltageList s channel list n) = isActive s) ∧
    (∀ channel list n, isActive (setCurrentList s channel list n) = isActive s) ∧
    (∀ channel value, isActive (setListCount s channel value) = isActive s) ∧
    (∀ channel changed, isActive (setListsChanged s channel changed) = isActive s) ∧
    (∀ channel, isActive (resetChannelList s channel) = isActive s) ∧
    isActive (reset p s) = isActive s ∧
    (∀ (File : Type) (sd : SdCard File F) channel filePath uninit,
      isActive (loadList p sd s channel filePath uninit).state = isActive s) := by
  obtain ⟨_, _, _, a3, _, a5, _⟩ :=
    tickLoop_effect p t p.CH_NUM 0 (s.setActive false) s' _ rfl h
  refine ⟨?_, ?_, ?_, rfl, fun _ => rfl, fun _ _ _ => rfl, fun _ _ _ => rfl, fun _ _ _ => rfl,
    fun _ _ => rfl, fun _ _ => rfl, fun _ => rfl, resetLoop_active _ _ _,
    fun _ sd channel filePath uninit => loadList_active p sd s channel filePath uninit⟩
  · unfold isActive
    rw [a3]
    constructor
    · rintro (h0 | ⟨j, _, h2, h3⟩)
      · cases h0
      · exact ⟨j, by omega, h3⟩
    · rintro ⟨j, h2, h3⟩
      exact Or.inr ⟨j, Nat.zero_le j, by omega, h3⟩
  · intro sr hsr
    exact a5 sr hsr
  · intro hidle t2
    exact ⟨_, tick_all_idle p t2 s' hidle, rfl⟩

end Engine

/-- C19 on `c19State`: the tick at time 1000 ends the run of the only running
channel; after it no channel has a counter `≥ 0`, yet `isActive()` is true; the
tick after it leaves `isActive()` false. -/
theorem C19_active_flag_reflects_tick_entry_witness :
    ∃ s', tick (fixedPoint 2 256) 1000 c19State = some s' ∧
      (∀ j, j < 2 → (s'.g_execution j).counter < 0) ∧ isActive s' = true ∧
      ∃ s2, tick (fixedPoint 2 256) 2000 s' = some s2 ∧ isActive s2 = false := by
  obtain ⟨s', hs'⟩ := Option.isSome_iff_exists.mp
    (by decide : (tick (fixedPoint 2 256) 1000 c19State).isSome = true)
  have hidle : ∀ j, j < 2 → (s'.g_execution j).counter < 0 := by
    have e : (tick (fixedPoint 2 256) 1000 c19State).map
        (fun s => ((s.g_execution 0).counter, (s.g_execution 1).counter)) = some (-1, -1) := by
      decide
    rw [hs'] at e
    simp only [Option.map_some', Option.some.injEq, Prod.mk.injEq] at e
    intro j hj
    interval_cases j
    · rw [e.1]; decide
    · rw [e.2]; decide
  obtain ⟨a1, _, a3, _⟩ := C19_active_flag_reflects_tick_entry (fixedPoint 2 256) c19State s'
    1000 hs'
  exact ⟨s', hs', hidle, a1.mpr ⟨0, by decide, by decide⟩, a3 hidle 2000⟩


/-! ### Bounds of the loader -/

section Codec
variable {F D File : Type}

/-- One block of the loop, whether it goes on or leaves the loop. -/
theorem loadColumn_colStep (sd : SdCard File F) (c : Column) (i : Nat) (l : LoadLocals File F) :
    (∃ l', loadColumn sd c i l = .cont l' ∧ l'.success = l.success ∧
      LoadLocals.ColStep c i l l') ∨
    (∃ l', loadColumn sd c i l = .brk l' ∧ l'.success = false ∧
      LoadLocals.ColStep c i l l') := by
  have hkeep : ∀ (f : File) (t : List (Column × Field F)) (b : Bool) (fld : Field F),
      t = l.trace ++ [(c, fld)] →
      LoadLocals.ColStep c i l { l with file := f, trace := t, success := b } := by
    intro f t b fld ht
    refine ⟨Or.inl (by cases c <;> rfl), fun c' _ => ⟨by cases c' <;> rfl, by cases c' <;> rfl⟩,
      fun k _ => by cases c <;> rfl, fld, ht⟩
  rcases loadColumn_cases sd c i l with ⟨_, _, e⟩ | ⟨_, _, e⟩ | ⟨v, _, hi, e⟩ | ⟨v, _, _, e⟩ |
      ⟨_, e⟩
  · exact Or.inl ⟨_, e, rfl, hkeep _ _ l.success .noValue rfl⟩
  · exact Or.inr ⟨_, e, rfl, hkeep _ _ false .noValue rfl⟩
  · have hlen : ∀ (f : File) (t : List (Column × Field F)) (c' : Column),
        LoadLocals.length { l with file := f, trace := t } c' = l.length c' := by
      intro f t c'; cases c' <;> rfl
    have hlist : ∀ (f : File) (t : List (Column × Field F)) (c' : Column),
        LoadLocals.list { l with file := f, trace := t } c' = l.list c' := by
      intro f t c'; cases c' <;> rfl
    refine Or.inl ⟨_, e, by rw [LoadLocals.success_store], ?_, ?_, ?_, .number v, ?_⟩
    · right
      refine ⟨hi.symm, ?_⟩
      rw [LoadLocals.length_store_same _ c i v (by rw [hlen]; exact hi), hlen, hi]
    · intro c' hc'
      rw [LoadLocals.length_store_other _ i v hc'.symm, LoadLocals.list_store_other _ i v hc'.symm,
        hlen, hlist]
      exact ⟨rfl, rfl⟩
    · intro k hk
      rw [LoadLocals.list_store_same, hlist, Function.update_noteq hk]
    · rw [LoadLocals.trace_store]
  · exact Or.inr ⟨_, e, rfl, hkeep _ _ false (.number v) rfl⟩
  · exact Or.inr ⟨_, e, rfl, hkeep _ _ false .other rfl⟩

theorem LoadLocals.ColStep.from_file {c : Column} {i : Nat} {l l' : LoadLocals File F} {f : File}
    (h : LoadLocals.ColStep c i { l with file := f } l') : LoadLocals.ColStep c i l l' := by
  obtain ⟨h1, h2, h3, h4⟩ := h
  refine ⟨?_, ?_, ?_, h4⟩
  · cases c <;> exact h1
  · intro c' hc'
    obtain ⟨a1, a2⟩ := h2 c' hc'
    exact ⟨by cases c' <;> exact a1, by cases c' <;> exact a2⟩
  · intro k hk
    have := h3 k hk
    cases c <;> exact this

theorem LoadLocals.RowStep.file_only {i : Nat} {l : LoadLocals File F} (f : File) :
    LoadLocals.RowStep i l { l with file := f } :=
  ⟨fun c => Or.inl (by cases c <;> rfl), fun c _ _ => by cases c <;> rfl, [], by simp,
    fun c => by simp [columnFields]⟩

theorem LoadLocals.RowStep.of_one {i : Nat} {l l1 : LoadLocals File F}
    (h1 : LoadLocals.ColStep .dwell i l l1) : LoadLocals.RowStep i l l1 := by
  obtain ⟨a1, a2, a3, f1, a4⟩ := h1
  refine ⟨?_, ?_, [(.dwell, f1)], a4, ?_⟩
  · intro c
    cases c
    · exact a1
    · exact Or.inl (a2 .voltage (by decide)).1
    · exact Or.inl (a2 .current (by decide)).1
  · intro c k hk
    cases c
    · exact a3 k hk
    · rw [(a2 .voltage (by decide)).2]
    · rw [(a2 .current (by decide)).2]
  · intro c
    cases c <;> simp [columnFields]

theorem LoadLocals.RowStep.of_two {i : Nat} {l l1 l2 : LoadLocals File F}
    (h1 : LoadLocals.ColStep .dwell i l l1) (h2 : LoadLocals.ColStep .voltage i l1 l2) :
    LoadLocals.RowStep i l l2 := by
  obtain ⟨a1, a2, a3, f1, a4⟩ := h1
  obtain ⟨b1, b2, b3, f2, b4⟩ := h2
  refine ⟨?_, ?_, [(.dwell, f1), (.voltage, f2)], by rw [b4, a4]; simp, ?_⟩
  · intro c
    cases c
    · rw [(b2 .dwell (by decide)).1]
      exact a1
    · rw [(a2 .voltage (by decide)).1] at b1
      exact b1
    · rw [(b2 .current (by decide)).1]
      exact Or.inl (a2 .current (by decide)).1
  · intro c k hk
    cases c
    · rw [(b2 .dwell (by decide)).2]
      exact a3 k hk
    · rw [b3 k hk, (a2 .voltage (by decide)).2]
    · rw [(b2 .current (by decide)).2, (a2 .current (by decide)).2]
  · intro c
    cases c <;> simp [columnFields]

theorem LoadLocals.RowStep.of_three {i : Nat} {l l1 l2 l3 : LoadLocals File F}
    (h1 : LoadLocals.ColStep .dwell i l l1) (h2 : LoadLocals.ColStep .voltage i l1 l2)
    (h3 : LoadLocals.ColStep .current i l2 l3) :
    LoadLocals.RowStep i l l3 ∧
      ∃ f1 f2 f3, l3.trace = l.trace ++ [(.dwell, f1), (.voltage, f2), (.current, f3)] := by
  obtain ⟨a1, a2, a3, f1, a4⟩ := h1
  obtain ⟨b1, b2, b3, f2, b4⟩ := h2
  obtain ⟨c1, c2, c3, f3, c4⟩ := h3
  have htr : l3.trace = l.trace ++ [(.dwell, f1), (.voltage, f2), (.current, f3)] := by
    rw [c4, b4, a4]; simp
  refine ⟨⟨?_, ?_, _, htr, ?_⟩, f1, f2, f3, htr⟩
  · intro c
    cases c
    · rw [(c2 .dwell (by decide)).1, (b2 .dwell (by decide)).1]
      exact a1
    · rw [(c2 .voltage (by decide)).1]
      rw [(a2 .voltage (by decide)).1] at b1
      exact b1
    · rw [(b2 .current (by decide)).1, (a2 .current (by decide)).1] at c1
      exact c1
  · intro c k hk
    cases c
    · rw [(c2 .dwell (by decide)).2, (b2 .dwell (by decide)).2]
      exact a3 k hk
    · rw [(c2 .voltage (by decide)).2, b3 k hk, (a2 .voltage (by decide)).2]
    · rw [c3 k hk, (b2 .current (by decide)).2, (a2 .current (by decide)).2]
  · intro c
    cases c <;> simp [columnFields]

/-- One iteration of the loop of `loadList`, for row `i`: either the loop ends
there (nothing is left to read, or a block leaves the loop with `success`
false), or the three fields of the row are read and the loop goes on with the
next row. Which of the two happens, and with which variables, does not depend
on the number of iterations that remain. -/
theorem loadLoop_row (sd : SdCard File F) (i : Nat) (l : LoadLocals File F) :
    (∃ lend, (∀ n, loadLoop sd (n + 1) i l = lend) ∧ LoadLocals.RowStep i l lend ∧
      ((lend.success = l.success ∧ lend.trace = l.trace) ∨ lend.success = false)) ∨
    (∃ l3, (∀ n, loadLoop sd (n + 1) i l = loadLoop sd n (i + 1) l3) ∧
      l3.success = l.success ∧ LoadLocals.RowStep i l l3 ∧
      ∃ f1 f2 f3, l3.trace = l.trace ++ [(.dwell, f1), (.voltage, f2), (.current, f3)]) := by
  by_cases hav : sd.available (sd.matchZeroOrMoreSpaces l.file) = true
  swap
  · refine Or.inl ⟨{ l with file := sd.matchZeroOrMoreSpaces l.file }, fun n => ?_,
      LoadLocals.RowStep.file_only _, Or.inl ⟨rfl, rfl⟩⟩
    rw [loadLoop]
    simp only [hav, Bool.not_false, if_true]
  rcases loadColumn_colStep sd .dwell i { l with file := sd.matchZeroOrMoreSpaces l.file } with
    ⟨l1, e1, s1, d1⟩ | ⟨l1, e1, s1, d1⟩
  swap
  · refine Or.inl ⟨l1, fun n => ?_, LoadLocals.RowStep.of_one d1.from_file, Or.inr s1⟩
    rw [loadLoop]
    simp only [hav, Bool.not_true, Bool.false_eq_true, if_false, e1]
  rcases loadColumn_colStep sd .voltage i (skipSeparator sd l1) with
    ⟨l2, e2, s2, d2⟩ | ⟨l2, e2, s2, d2⟩
  swap
  · refine Or.inl ⟨l2, fun n => ?_, LoadLocals.RowStep.of_two d1.from_file d2.from_file,
      Or.inr s2⟩
    rw [loadLoop]
    simp only [hav, Bool.not_true, Bool.false_eq_true, if_false, e1, e2]
  rcases loadColumn_colStep sd .current i (skipSeparator sd l2) with
    ⟨l3, e3, s3, d3⟩ | ⟨l3, e3, s3, d3⟩
  swap
  · refine Or.inl ⟨l3, fun n => ?_,
      (LoadLocals.RowStep.of_three d1.from_file d2.from_file d3.from_file).1, Or.inr s3⟩
    rw [loadLoop]
    simp only [hav, Bool.not_true, Bool.false_eq_true, if_false, e1, e2, e3]
  have hs : l3.success = l.success := by
    rw [s3]
    show l2.success = l.success
    rw [s2]
    show l1.success = l.success
    rw [s1]
  obtain ⟨r1, r2⟩ := LoadLocals.RowStep.of_three d1.from_file d2.from_file d3.from_file
  refine Or.inr ⟨l3, fun n => ?_, hs, r1, r2⟩
  rw [loadLoop]
  simp only [hav, Bool.not_true, Bool.false_eq_true, if_false, e1, e2, e3]

/-- The loop of `loadList`, entered at row `i` with every recorded length at
most `i`: after at most `n` rows every length is at most `i + n` and not
smaller than before, the arrays are changed at the indices `i .. i + n - 1`
only, at most `n` fields were read for each column, `success` is not raised,
and when the loop ends with `success` true a column that was already behind
the row index has kept its length. -/
theorem loadLoop_bounds (sd : SdCard File F) :
    ∀ (n i : Nat) (l : LoadLocals File F), (∀ c, l.length c ≤ i) →
      (∀ c, (loadLoop sd n i l).length c ≤ i + n) ∧
      (∀ c, l.length c ≤ (loadLoop sd n i l).length c) ∧
      (∀ c k, (k < i ∨ i + n ≤ k) → (loadLoop sd n i l).list c k = l.list c k) ∧
      (∃ tr, (loadLoop sd n i l).trace = l.trace ++ tr ∧
        ∀ c, (columnFields c tr).length ≤ n) ∧
      ((loadLoop sd n i l).success = true → l.success = true) ∧
      ((loadLoop sd n i l).success = true → ∀ c, l.length c < i →
        (loadLoop sd n i l).length c = l.length c)
  | 0, i, l, h => by
    have e : loadLoop sd 0 i l = l := rfl
    rw [e]
    exact ⟨fun c => by have := h c; omega, fun _ => le_refl _, fun _ _ _ => rfl,
      ⟨[], by simp, fun c => by simp [columnFields]⟩, fun h0 => h0, fun _ _ _ => rfl⟩
  | n + 1, i, l, h => by
    rcases loadLoop_row sd i l with ⟨lend, e, ⟨r1, r2, tr, r3, r4⟩, r5⟩ |
        ⟨l3, e, hs, ⟨r1, r2, tr, r3, r4⟩, _⟩
    · rw [e n]
      refine ⟨?_, ?_, ?_, ⟨tr, r3, fun c => by have := r4 c; omega⟩, ?_, ?_⟩
      · intro c
        have := h c
        rcases r1 c with h1 | ⟨_, h1⟩ <;> omega
      · intro c
        rcases r1 c with h1 | ⟨_, h1⟩ <;> omega
      · intro c k hk
        exact r2 c k (by omega)
      · intro h0
        rcases r5 with ⟨h1, _⟩ | h1
        · rw [← h1]; exact h0
        · rw [h0] at h1; cases h1
      · intro _ c hc
        rcases r1 c with h1 | ⟨h1, _⟩
        · exact h1
        · omega
    · rw [e n]
      have h3 : ∀ c, l3.length c ≤ i + 1 := by
        intro c
        have := h c
        rcases r1 c with h1 | ⟨_, h1⟩ <;> omega
      obtain ⟨a1, a2, a3, ⟨tr', a4, a5⟩, a6, a7⟩ := loadLoop_bounds sd n (i + 1) l3 h3
      refine ⟨?_, ?_, ?_, ⟨tr ++ tr', by rw [a4, r3, List.append_assoc], ?_⟩, ?_, ?_⟩
      · intro c
        have := a1 c
        omega
      · intro c
        have := a2 c
        rcases r1 c with h1 | ⟨_, h1⟩ <;> omega
      · intro c k hk
        rw [a3 c k (by omega), r2 c k (by omega)]
      · intro c
        rw [columnFields_append, List.length_append]
        have := r4 c
        have := a5 c
        omega
      · intro h0
        rw [← hs]
        exact a6 h0
      · intro h0 c hc
        have e3 : l3.length c = l.length c := by
          rcases r1 c with h1 | ⟨h1, _⟩
          · exact h1
          · omega
        rw [a7 h0 c (by omega), e3]

/-- If the loop with room for `n + b` rows ends with `success` true after
reading at least `n` rows, the loop with room for `n` rows reads exactly `n`
rows, ends with `success` true, and the longer loop is the shorter one followed
by `b` more iterations. -/
theorem loadLoop_split (sd : SdCard File F) :
    ∀ (n b i : Nat) (l : LoadLocals File F),
      (loadLoop sd (n + b) i l).success = true →
      (columnFields .current l.trace).length + n ≤
        (columnFields .current (loadLoop sd (n + b) i l).trace).length →
      loadLoop sd (n + b) i l = loadLoop sd b (i + n) (loadLoop sd n i l) ∧
      (loadLoop sd n i l).success = l.success ∧
      ∀ c, (columnFields c (loadLoop sd n i l).trace).length =
        (columnFields c l.trace).length + n
  | 0, b, i, l, _, _ => by
    have e : loadLoop sd 0 i l = l := rfl
    rw [e, Nat.zero_add]
    exact ⟨rfl, rfl, fun _ => rfl⟩
  | n + 1, b, i, l, hs, hm => by
    have en : n + 1 + b = (n + b) + 1 := by omega
    rw [en] at hs hm ⊢
    rcases loadLoop_row sd i l with ⟨lend, e, _, r5⟩ | ⟨l3, e, hs3, _, f1, f2, f3, htr⟩
    · rw [e (n + b)] at hs hm
      rcases r5 with ⟨_, h1⟩ | h1
      · rw [h1] at hm
        omega
      · rw [hs] at h1
        cases h1
    · rw [e (n + b)] at hs hm ⊢
      rw [e n]
      have hc : ∀ c, (columnFields c l3.trace).length = (columnFields c l.trace).length + 1 := by
        intro c
        rw [htr, columnFields_append, List.length_append]
        cases c <;> simp [columnFields]
      obtain ⟨a1, a2, a3⟩ := loadLoop_split sd n b (i + 1) l3 hs (by rw [hc]; omega)
      have ei : i + (n + 1) = i + 1 + n := by omega
      rw [ei]
      refine ⟨a1, by rw [a2, hs3], fun c => ?_⟩
      rw [a3 c, hc c]
      omega

theorem loadInit_length (file : File) (uninit : Nat → F) (c : Column) :
    (loadInit file uninit).length c = 0 := by
  cases c <;> rfl

theorem loadInit_list (file : File) (uninit : Nat → F) (c : Column) :
    (loadInit file uninit).list c = uninit := by
  cases c <;> rfl

/-- C20: bounded decode. The file is opened. Whatever it holds, at most
`MAX_LIST_LENGTH` fields are read for each column (so at most that many rows);
after at most `m` rows, hence at the start of row `m` when it is reached, every
recorded length is at most `m`; no element of the temporary arrays at an index
`≥ MAX_LIST_LENGTH` is written; the recorded lengths, which are the ones handed
to the three setters and stored when `loadList` succeeds, are at most
`MAX_LIST_LENGTH`. If the file has more well-formed rows than that (a loop
with room for `extra` more rows would read at least `MAX_LIST_LENGTH` rows and
end with `success` true), `loadList` succeeds: it reads exactly
`MAX_LIST_LENGTH` rows, the first ones of what the longer loop reads, records
for each column the values the longer loop records below index
`MAX_LIST_LENGTH`, with the longer loop's length cut at `MAX_LIST_LENGTH`, and
ignores the rest. -/
theorem C20_bounded_decode (p : Platform F D) (sd : SdCard File F) (s : State F D)
    (channel : Channel) (filePath : String) (uninit : Nat → F) (file : File)
    (hopt : sd.OPTION_SD_CARD = true) (hopen : sd.openRead filePath = some file) :
    (∀ c, (columnFields c (loadRows p sd file uninit).trace).length ≤ p.MAX_LIST_LENGTH) ∧
    (∀ m c, (loadLoop sd m 0 (loadInit file uninit)).length c ≤ m) ∧
    (∀ c k, p.MAX_LIST_LENGTH ≤ k → (loadRows p sd file uninit).list c k = uninit k) ∧
    (∀ c, (loadRows p sd file uninit).length c ≤ p.MAX_LIST_LENGTH) ∧
    ((loadList p sd s channel filePath uninit).success = true →
      ∀ c, ((loadList p sd s channel filePath uninit).state.g_channelsLists
          (channel.index - 1)).lengthOf c = (loadRows p sd file uninit).length c ∧
        ((loadList p sd s channel filePath uninit).state.g_channelsLists
          (channel.index - 1)).lengthOf c ≤ p.MAX_LIST_LENGTH) ∧
    (∀ extra,
      (loadLoop sd (p.MAX_LIST_LENGTH + extra) 0 (loadInit file uninit)).success = true →
      p.MAX_LIST_LENGTH ≤ (columnFields .current
        (loadLoop sd (p.MAX_LIST_LENGTH + extra) 0 (loadInit file uninit)).trace).length →
      (loadList p sd s channel filePath uninit).success = true ∧
      (∀ c, (columnFields c (loadRows p sd file uninit).trace).length = p.MAX_LIST_LENGTH) ∧
      (∃ rest, (loadLoop sd (p.MAX_LIST_LENGTH + extra) 0 (loadInit file uninit)).trace =
        (loadRows p sd file uninit).trace ++ rest) ∧
      (∀ c, (loadRows p sd file uninit).length c =
        min ((loadLoop sd (p.MAX_LIST_LENGTH + extra) 0 (loadInit file uninit)).length c)
          p.MAX_LIST_LENGTH) ∧
      (∀ c k, k < p.MAX_LIST_LENGTH → (loadRows p sd file uninit).list c k =
        (loadLoop sd (p.MAX_LIST_LENGTH + extra) 0 (loadInit file uninit)).list c k)) := by
  have h0 : ∀ c, (loadInit file uninit).length c ≤ 0 := fun c => by rw [loadInit_length]
  have hb := fun m => loadLoop_bounds sd m 0 (loadInit file uninit) h0
  obtain ⟨b1, _, b3, ⟨tr, b4, b5⟩, _, _⟩ := hb p.MAX_LIST_LENGTH
  have hlen : ∀ c, (loadRows p sd file uninit).length c ≤ p.MAX_LIST_LENGTH := by
    intro c
    have := b1 c
    simpa [loadRows] using this
  refine ⟨?_, ?_, ?_, hlen, ?_, ?_⟩
  · intro c
    have e : (loadRows p sd file uninit).trace = tr := by
      rw [loadRows, b4]
      rfl
    rw [e]
    exact b5 c
  · intro m c
    have := (hb m).1 c
    omega
  · intro c k hk
    rw [loadRows, b3 c k (Or.inr (by omega)), loadInit_list]
  · intro hsucc c
    have hs : (loadRows p sd file uninit).success = true := by
      rw [← loadList_success_eq p sd s channel filePath uninit file hopt hopen]
      exact hsucc
    rw [loadList_state_of_success p sd s channel filePath uninit file hopt hopen hs,
      commit_lists]
    have e : ChannelLists.lengthOf
        { dwellList := memcpy (s.g_channelsLists (channel.index - 1)).dwellList
            (loadRows p sd file uninit).dwellList (loadRows p sd file uninit).dwellListLength
          dwellListLength := (loadRows p sd file uninit).dwellListLength
          voltageList := memcpy (s.g_channelsLists (channel.index - 1)).voltageList
            (loadRows p sd file uninit).voltageList (loadRows p sd file uninit).voltageListLength
          voltageListLength := (loadRows p sd file uninit).voltageListLength
          currentList := memcpy (s.g_channelsLists (channel.index - 1)).currentList
            (loadRows p sd file uninit).currentList (loadRows p sd file uninit).currentListLength
          currentListLength := (loadRows p sd file uninit).currentListLength
          count := (s.g_channelsLists (channel.index - 1)).count
          changed := true } c = (loadRows p sd file uninit).length c := by
      cases c <;> rfl
    exact ⟨e, by rw [e]; exact hlen c⟩
  · intro extra hs hm
    have hinit : ∀ c, (columnFields c (loadInit file uninit).trace).length = 0 := by
      intro c
      simp [loadInit, columnFields]
    obtain ⟨e1, e2, e3⟩ := loadLoop_split sd p.MAX_LIST_LENGTH extra 0 (loadInit file uninit) hs
      (by rw [hinit]; omega)
    have er : loadLoop sd p.MAX_LIST_LENGTH 0 (loadInit file uninit) =
        loadRows p sd file uninit := rfl
    rw [er] at e1 e2 e3
    rw [e1] at hs ⊢
    have hlen' : ∀ c, (loadRows p sd file uninit).length c ≤ 0 + p.MAX_LIST_LENGTH := by
      intro c
      have := hlen c
      omega
    obtain ⟨_, a2, a3, ⟨tr', a4, _⟩, _, a7⟩ :=
      loadLoop_bounds sd extra (0 + p.MAX_LIST_LENGTH) (loadRows p sd file uninit) hlen'
    refine ⟨?_, ?_, ⟨tr', a4⟩, ?_, ?_⟩
    · rw [loadList_success_eq p sd s channel filePath uninit file hopt hopen, e2]
      rfl
    · intro c
      rw [e3 c, hinit c]
      omega
    · intro c
      have h1 := a2 c
      have h2 := hlen c
      by_cases hlt : (loadRows p sd file uninit).length c < p.MAX_LIST_LENGTH
      · rw [a7 hs c (by omega)]
        omega
      · omega
    · intro c k hk
      rw [a3 c k (Or.inl (by omega))]

end Codec

/-- C20 on a file of three well-formed rows read with `MAX_LIST_LENGTH = 2`:
`loadList` succeeds and stores the first two rows; the third one is ignored. -/
theorem C20_bounded_decode_witness :
    (loadList (fixedPoint 2 2)
        (exampleCard "0.001,1.0,0.5\n0.002,2.0,0.5\n0.003,3.0,0.5\n")
        (exampleState fun _ => ChannelLists.ofLists [] [] [] 1) (Channel.get 0) "list.csv"
        (fun _ => 0)).success = true ∧
    (getVoltageList (loadList (fixedPoint 2 2)
        (exampleCard "0.001,1.0,0.5\n0.002,2.0,0.5\n0.003,3.0,0.5\n")
        (exampleState fun _ => ChannelLists.ofLists [] [] [] 1) (Channel.get 0) "list.csv"
        (fun _ => 0)).state (Channel.get 0)).2 = 2 :=
  ⟨((C20_bounded_decode (fixedPoint 2 2)
      (exampleCard "0.001,1.0,0.5\n0.002,2.0,0.5\n0.003,3.0,0.5\n")
      (exampleState fun _ => ChannelLists.ofLists [] [] [] 1) (Channel.get 0) "list.csv"
      (fun _ => 0) "0.001,1.0,0.5\n0.002,2.0,0.5\n0.003,3.0,0.5\n".toList rfl rfl).2.2.2.2.2 1
      (by decide) (by decide)).1,
   by decide⟩

end eez.psu.list
